import Mathlib

/-!
# HUNTER file system: directory index and directory operations

A shallow embedding of `src/namei.c` (directory index, dentry append, lookup, create,
link, unlink, rename) and of `src/chash.h` (the circular hash table).

Conventions of the embedding

* A C string is the list of its bytes before the terminating NUL, so `strcmp(a, b) == 0`
  is list equality.  The length argument that the C code passes next to a name is kept as
  a separate argument, as in the source.
* Persistent memory is a store of dentry records keyed by the start address of the record
  (`hk_dentry_by_ix_from_blk` computes that address), and a store of the `valid` byte of
  inode records keyed by the address that `hk_get_pi_by_ino` returns.
* `struct inode` objects and their `hk_inode_info_header` are keyed by inode number.
* The bucket array `sih->dirs` is a function from bucket number to the bucket's chain,
  head first.
* Functions of the repository that are not part of `namei.c` (allocator, linix,
  transaction engine, hash helpers) appear either as fields of `hk_env` (pure ones), as
  values of a `*_ext` record (the results they hand back to one call), or as events of
  the effect trace (what they are called with, in program order).
* `BUG_ON(1)` does not return: a function that reaches it has result `none`.
* A `struct list_head` of `chash.h` is identified by its address; its `next` and `prev`
  fields live in two maps from addresses to addresses, and the `int` expression
  `1 << bits` is wrapped to 32 bits.
-/

namespace Hunter

/-! ## Constants of the kernel interface -/

def ENOENT : Int := 2
def EIO : Int := 5
def ENOMEM : Int := 12
def EINVAL : Int := 22
def ENOSPC : Int := 28
def EMLINK : Int := 31
def ENAMETOOLONG : Int := 36
def ENOTEMPTY : Int := 39
def EACCES : Int := 13
def ESTALE : Int := 116

def S_IFMT : Nat := 0o170000
def S_IFDIR : Nat := 0o040000
def S_IFREG : Nat := 0o100000
def S_IFLNK : Nat := 0o120000
def RENAME_NOREPLACE : Nat := 1

/-- The value `(ino_t)-1`, returned by `hk_inode_by_name` for a name that is not found,
and `(u64)-1`, the failure value of `hk_alloc_ino` tested by `__hk_create`. -/
def INO_NONE : Nat := 2 ^ 64 - 1

/-- Conversion of an `int` to `u16` (the `link_change` parameter). -/
def to_u16 (i : Int) : Nat := (i % 65536).toNat

/-- Linux `S_ISDIR`. -/
def S_ISDIR (mode : Nat) : Bool := (mode &&& S_IFMT) == S_IFDIR

/-- Linux `inc_nlink` on an `unsigned int` link count. -/
def inc_nlink (n : Nat) : Nat := (n + 1) % 2 ^ 32

/-- Linux `drop_nlink` on an `unsigned int` link count. -/
def drop_nlink (n : Nat) : Nat := (n + 2 ^ 32 - 1) % 2 ^ 32

/-! ## Data model -/

/-- On-media directory entry, `struct hk_dentry`. -/
structure hk_dentry where
  ino : Nat
  name_len : Nat
  name : List Nat
  mtime : Nat
  links_count : Nat
  valid : Nat
  tstamp : Nat
deriving DecidableEq, Repr

/-- In-memory index node, `struct hk_dentry_info`: the name hash and the address of the
on-media record. -/
structure hk_dentry_info where
  hash : Nat
  direntry : Nat
deriving DecidableEq, Repr

/-- The part of `struct hk_inode_info_header` used by `namei.c`. -/
structure hk_inode_info_header where
  dirs : Nat → List hk_dentry_info
  i_num_dentrys : Nat
  ix : Nat → Nat

/-- The part of the VFS `struct inode` used by `namei.c`. -/
structure vfs_inode where
  i_mode : Nat
  i_nlink : Nat
  i_mtime : Nat
  i_ctime : Nat
deriving DecidableEq, Repr

/-- The VFS `struct dentry`: parent directory (`d_parent->d_inode->i_ino`), name
(`d_name.name`, `d_name.len`) and the inode it is bound to (`d_inode`, `none` for NULL). -/
structure vfs_dentry where
  d_parent : Nat
  d_name : List Nat
  d_len : Nat
  d_inode : Option Nat
deriving DecidableEq, Repr

/-- Fields of a dentry record other than `valid`. -/
inductive dentry_field
  | ino
  | name_len
  | name
  | mtime
  | links_count
  | tstamp
deriving DecidableEq, Repr

/-- Transaction kinds of `hk_start_tx`. -/
inductive tx_kind
  | CREATE
  | MKDIR
  | LINK
  | UNLINK
  | SYMLINK
  | RENAME
deriving DecidableEq, Repr

/-- Effects in program order: stores to persistent memory made by `namei.c` itself and
calls into the rest of the repository. -/
inductive hk_event
  | st_dentry (addr : Nat) (f : dentry_field)
  | st_dentry_valid (addr : Nat) (v : Nat)
  | flush_buffer (addr : Nat) (fence : Bool)
  | prepare_layouts
  | prepare_gap
  | use_layout_for_addr (addr : Nat)
  | sm_valid_data_sync (addr : Nat) (blk_cur : Nat)
  | unuse_layout_for_addr (addr : Nat)
  | linix_insert (blk_cur : Nat) (addr : Nat)
  | alloc_dentry_info (ok : Bool)
  | free_dentry_info (addr : Nat)
  | st_pi_valid (pi : Nat) (v : Nat)
  | flush_pi (pi : Nat) (fence : Bool)
  | create_al_snapshot (pi : Nat)
  | start_tx (kind : tx_kind) (pi : Nat) (direntry : Nat)
  | start_tx_rename (pi : Nat) (pd : Nat) (pd_new : Nat)
  | commit_attrchange (ino : Nat)
  | commit_linkchange (ino : Nat)
  | finish_tx (txid : Int)
  | alloc_ino
  | create_inode (ino : Nat)
  | init_pi (ino : Nat)
  | d_instantiate (ino : Nat)
  | unlock_new_inode (ino : Nat)
  | ihold (ino : Nat)
  | iput (ino : Nat)
  | free_data_blks (ino : Nat)
  | iget (ino : Nat)
  | d_splice_alias
deriving DecidableEq, Repr

/-- Pure helpers and constants that `namei.c` takes from `hunter.h` and the kernel. -/
structure hk_env where
  BKDRHash : List Nat → Nat → Nat
  hash_min : Nat → Nat → Nat
  HK_HASH_BITS : Nat
  MAX_DENTRY_PER_BLK : Nat
  DENTRY_SIZE : Nat
  TRANS_OFS_TO_ADDR : Nat → Nat
  TRANS_ADDR_TO_OFS : Nat → Nat
  hk_get_pi_by_ino : Nat → Nat
  HK_LINK_MAX : Nat
  HK_NAME_LEN : Nat

/-- The file-system state that `namei.c` reads and writes. -/
structure hk_state where
  pm : Nat → hk_dentry
  pi_valid : Nat → Nat
  inodes : Nat → vfs_inode
  headers : Nat → hk_inode_info_header
  trace : List hk_event

/-- Results handed back by the external calls of one `hk_append_dentry_innvm`:
`get_version`, the prepared layout (`none` for a NULL `prep`, else its `target_addr`),
`tmp_prep.target_addr` after `hk_prepare_gap`, whether `hk_alloc_hk_dentry_info`
returned a node, and `current_time(dir)`. -/
structure append_ext where
  version : Nat
  prep : Option Nat
  gap : Nat
  di_alloc : Bool
  now : Nat
deriving DecidableEq, Repr

/-- Outcome of `hk_append_dentry_innvm` and `hk_add_dentry`: the returned value (`none`
when `BUG_ON(1)` was reached), the pointer stored through `out_direntry` (`none` when
nothing was stored) and the state. -/
structure append_result where
  ret : Option Int
  out_direntry : Option Nat
  st : hk_state

/-! ## Directory index (`namei.c` lines 20-123) -/

/-- `hk_dentry_by_ix_from_blk`. -/
def hk_dentry_by_ix_from_blk (E : hk_env) (blk_addr ix : Nat) : Nat :=
  blk_addr + ix * E.DENTRY_SIZE

/-- Bucket of a name: `hash_min(BKDRHash(name, namelen), HK_HASH_BITS)`, the bucket that
the `hash_*_bits` helpers select. -/
def hk_bucket (E : hk_env) (name : List Nat) (namelen : Nat) : Nat :=
  E.hash_min (E.BKDRHash name namelen) E.HK_HASH_BITS

/-- `hk_search_dir_table`: walk the bucket of the name from its head and stop at the
first node whose record name compares equal; `none` is the NULL left in `cur` when the
walk ends. -/
def hk_search_dir_table (E : hk_env) (pm : Nat → hk_dentry) (sih : hk_inode_info_header)
    (name : List Nat) (namelen : Nat) : Option hk_dentry_info :=
  (sih.dirs (hk_bucket E name namelen)).find? (fun cur => (pm cur.direntry).name == name)

/-- Modelled from the spec: `hash_add_bits` (absent from `src/`) is the O(1) head
insertion of section 4.2, the node becomes the first of the bucket of its hash. -/
def hash_add_bits (E : hk_env) (dirs : Nat → List hk_dentry_info) (di : hk_dentry_info) :
    Nat → List hk_dentry_info :=
  Function.update dirs (E.hash_min di.hash E.HK_HASH_BITS)
    (di :: dirs (E.hash_min di.hash E.HK_HASH_BITS))

/-- `hk_insert_dir_table`.  `alloc` tells whether `hk_alloc_hk_dentry_info` returned a
node.  The returned value is `some (-ENOMEM)` on allocation failure and `none` otherwise:
the function ends without a `return` statement. -/
def hk_insert_dir_table (E : hk_env) (sih : hk_inode_info_header) (name : List Nat)
    (namelen : Nat) (direntry : Nat) (alloc : Bool) : Option Int × hk_inode_info_header :=
  if alloc then
    (none, { sih with dirs := hash_add_bits E sih.dirs ⟨E.BKDRHash name namelen, direntry⟩ })
  else
    (some (-ENOMEM), sih)

/-- `hk_remove_dir_table`: unlink the first node of the name's bucket whose record name
compares equal, nothing when there is none. -/
def hk_remove_dir_table (E : hk_env) (pm : Nat → hk_dentry) (sih : hk_inode_info_header)
    (name : List Nat) (namelen : Nat) : hk_inode_info_header :=
  let bkt := hk_bucket E name namelen
  { sih with
    dirs := Function.update sih.dirs bkt
      ((sih.dirs bkt).eraseP (fun di => (pm di.direntry).name == name)) }

/-- `hk_inode_by_name`: the returned `ino_t` and the pointer stored in `*res_entry`
(`none` when nothing is stored). -/
def hk_inode_by_name (E : hk_env) (s : hk_state) (dir : Nat) (name : List Nat)
    (name_len : Nat) : Nat × Option Nat :=
  match hk_search_dir_table E s.pm (s.headers dir) name name_len with
  | none => (INO_NONE, none)
  | some di => ((s.pm di.direntry).ino, some di.direntry)

/-- `hk_empty_dir`: false as soon as some bucket holds a node. -/
def hk_empty_dir (E : hk_env) (s : hk_state) (inode : Nat) : Bool :=
  (List.range (2 ^ E.HK_HASH_BITS)).all (fun bkt => ((s.headers inode).dirs bkt).isEmpty)

/-! ## Dentry append (`namei.c` lines 125-253) -/

/-- Modelled from the spec: `linix_get` (absent from `src/`) returns the value stored for
the logical block, 0 when unset. -/
def linix_get (ix : Nat → Nat) (blk : Nat) : Nat := ix blk

/-- Modelled from the spec: `linix_insert` (absent from `src/`) records the block for the
logical index; the source reads it back through `TRANS_OFS_TO_ADDR`, so the stored value
is the offset of the address. -/
def linix_insert (E : hk_env) (ix : Nat → Nat) (blk addr : Nat) : Nat → Nat :=
  Function.update ix blk (E.TRANS_ADDR_TO_OFS addr)

/-- The stores of lines 151-153: `direntry->tstamp = get_version(sbi)`, then
`direntry->valid = 0`. -/
def dentry_invalidate (pm : Nat → hk_dentry) (direntry version : Nat) : Nat → hk_dentry :=
  let pm1 := Function.update pm direntry { (pm direntry) with tstamp := version }
  Function.update pm1 direntry { (pm1 direntry) with valid := 0 }

/-- Lines 144-163 of `hk_append_dentry_innvm`: the branch `ino == 0`. -/
def hk_append_dentry_remove (E : hk_env) (x : append_ext) (s : hk_state) (dir : Nat)
    (name : List Nat) (namelen : Nat) (out_given : Bool) : append_result :=
  match hk_search_dir_table E s.pm (s.headers dir) name namelen with
  | none => ⟨some (-ENOENT), none, s⟩
  | some di =>
    let direntry := di.direntry
    let pm2 := dentry_invalidate s.pm direntry x.version
    let sih := hk_remove_dir_table E pm2 (s.headers dir) name namelen
    ⟨some 0, if out_given then some direntry else none,
      { s with
        pm := pm2
        headers := Function.update s.headers dir sih
        trace := s.trace ++ [hk_event.st_dentry direntry dentry_field.tstamp,
          hk_event.st_dentry_valid direntry 0, hk_event.flush_buffer direntry true,
          hk_event.free_dentry_info direntry] }⟩

/-- Lines 190-224 of `hk_append_dentry_innvm`: fill the record at slot `dentry_ix` of the
block at `blk_addr`, publish a newly allocated block, count the entry and index it.
`pre` are the allocator calls already made. -/
def hk_append_dentry_write (E : hk_env) (x : append_ext) (s : hk_state) (dir : Nat)
    (name : List Nat) (namelen : Nat) (ino : Nat) (link_change : Nat) (out_given : Bool)
    (blk_addr blk_cur dentry_ix : Nat) (is_alloc_new : Bool) (pre : List hk_event) :
    append_result :=
  let sih := s.headers dir
  let direntry := hk_dentry_by_ix_from_blk E blk_addr dentry_ix
  let rec_new : hk_dentry :=
    { ino := ino, name_len := namelen, name := name.take namelen,
      mtime := (s.inodes dir).i_mtime % 2 ^ 32, links_count := link_change, valid := 1,
      tstamp := x.version }
  let ev_fill := [hk_event.st_dentry direntry dentry_field.ino,
    hk_event.st_dentry direntry dentry_field.name_len,
    hk_event.st_dentry direntry dentry_field.name,
    hk_event.st_dentry direntry dentry_field.mtime,
    hk_event.st_dentry direntry dentry_field.links_count,
    hk_event.st_dentry_valid direntry 1,
    hk_event.st_dentry direntry dentry_field.tstamp]
  let ev_new := if is_alloc_new then
      [hk_event.use_layout_for_addr blk_addr, hk_event.sm_valid_data_sync blk_addr blk_cur,
        hk_event.unuse_layout_for_addr blk_addr, hk_event.linix_insert blk_cur blk_addr]
    else []
  let ix1 := if is_alloc_new then linix_insert E sih.ix blk_cur blk_addr else sih.ix
  let sih1 : hk_inode_info_header :=
    { sih with ix := ix1, i_num_dentrys := sih.i_num_dentrys + 1 }
  let sih2 := (hk_insert_dir_table E sih1 name namelen direntry x.di_alloc).2
  ⟨some 0, if out_given then some direntry else none,
    { s with
      pm := Function.update s.pm direntry rec_new
      inodes := Function.update s.inodes dir
        { (s.inodes dir) with i_mtime := x.now, i_ctime := x.now }
      headers := Function.update s.headers dir sih2
      trace := s.trace ++ pre ++ ev_fill ++ ev_new ++
        [hk_event.flush_buffer direntry false, hk_event.alloc_dentry_info x.di_alloc] }⟩

/-- `hk_append_dentry_innvm`.  `out_given` tells whether `out_direntry` is non-NULL.
The slot number `dentry_ix` is `i_num_dentrys % MAX_DENTRY_PER_BLK`, a value that fits
the `u16` it is stored in. -/
def hk_append_dentry_innvm (E : hk_env) (x : append_ext) (s : hk_state) (dir : Nat)
    (name : List Nat) (namelen : Nat) (ino : Nat) (link_change : Nat) (out_given : Bool) :
    append_result :=
  if ino = 0 then
    hk_append_dentry_remove E x s dir name namelen out_given
  else
    let sih := s.headers dir
    let blk_cur := sih.i_num_dentrys / E.MAX_DENTRY_PER_BLK
    let dentry_ix := sih.i_num_dentrys % E.MAX_DENTRY_PER_BLK
    if dentry_ix = 0 ∧ linix_get sih.ix blk_cur = 0 then
      match x.prep with
      | none =>
        if x.gap = 0 then
          ⟨none, none,
            { s with trace := s.trace ++ [hk_event.prepare_layouts, hk_event.prepare_gap] }⟩
        else
          hk_append_dentry_write E x s dir name namelen ino link_change out_given
            x.gap blk_cur dentry_ix true [hk_event.prepare_layouts, hk_event.prepare_gap]
      | some target_addr =>
        hk_append_dentry_write E x s dir name namelen ino link_change out_given
          target_addr blk_cur dentry_ix true [hk_event.prepare_layouts]
    else
      hk_append_dentry_write E x s dir name namelen ino link_change out_given
        (E.TRANS_OFS_TO_ADDR (linix_get sih.ix blk_cur)) blk_cur dentry_ix false []

/-- `hk_add_dentry`: the directory is `dentry->d_parent->d_inode`. -/
def hk_add_dentry (E : hk_env) (x : append_ext) (s : hk_state) (dentry : vfs_dentry)
    (ino : Nat) (link_change : Nat) (out_given : Bool) : append_result :=
  if dentry.d_len = 0 then
    ⟨some (-EINVAL), none, s⟩
  else
    hk_append_dentry_innvm E x s dentry.d_parent dentry.d_name dentry.d_len ino link_change
      out_given

/-! ## Transaction helpers (`namei.c` lines 282-376) -/

/-- Append events to the trace. -/
def emit (s : hk_state) (evs : List hk_event) : hk_state :=
  { s with trace := s.trace ++ evs }

/-- Modelled from the spec: `hk_finish_tx` (absent from `src/`) is the final flush barrier
of section 4.4; when it returns, every write issued under the transaction, the inode
record's `valid` byte included, is durable.  In the trace it is the event `finish_tx`. -/
def hk_finish_tx (s : hk_state) (txid : Int) : hk_state :=
  emit s [hk_event.finish_tx txid]

/-- Events that read or write an on-media inode record, or hand one to the transaction
engine. -/
def touches_inode_record : hk_event → Bool
  | hk_event.st_pi_valid _ _ => true
  | hk_event.flush_pi _ _ => true
  | hk_event.create_al_snapshot _ => true
  | hk_event.start_tx _ _ _ => true
  | hk_event.start_tx_rename _ _ _ => true
  | hk_event.commit_attrchange _ => true
  | hk_event.commit_linkchange _ => true
  | hk_event.finish_tx _ => true
  | hk_event.create_inode _ => true
  | hk_event.init_pi _ => true
  | hk_event.free_data_blks _ => true
  | _ => false

/-- The write order of section 4.4 on the effects `evs` of one operation: the record at
`d` is stored with `valid = 1`, then flushed, and up to that flush no effect touches an
inode record; after it the inode record at `pi` is stored with `valid = 1`, and after
that comes the flush barrier `hk_finish_tx(txid)`. -/
def write_order_ok (d pi : Nat) (txid : Int) (evs : List hk_event) : Prop :=
  ∃ before after, evs = before ++ hk_event.flush_buffer d false :: after ∧
    hk_event.st_dentry_valid d 1 ∈ before ∧
    (∀ e ∈ before, touches_inode_record e = false) ∧
    List.Sublist [hk_event.st_pi_valid pi 1, hk_event.finish_tx txid] after

/-- The `switch (mode & S_IFMT)` of `hk_start_tx_for_new_inode`. -/
def new_inode_tx_kind (mode : Nat) : tx_kind :=
  if mode &&& S_IFMT = S_IFDIR then tx_kind.MKDIR
  else if mode &&& S_IFMT = S_IFREG then tx_kind.CREATE
  else if mode &&& S_IFMT = S_IFLNK then tx_kind.LINK
  else tx_kind.CREATE

/-- `hk_start_tx_for_new_inode`; `txid` is the value returned by `hk_start_tx`. -/
def hk_start_tx_for_new_inode (E : hk_env) (txid : Int) (s : hk_state)
    (ino direntry dir_ino mode : Nat) : Int × hk_state :=
  let pidir := E.hk_get_pi_by_ino dir_ino
  let pi := E.hk_get_pi_by_ino ino
  (txid,
    { s with
      pi_valid := Function.update s.pi_valid pi 1
      trace := s.trace ++ [hk_event.create_al_snapshot pidir,
        hk_event.start_tx (new_inode_tx_kind mode) pi direntry,
        hk_event.st_pi_valid pi 1] })

/-- `hk_start_tx_for_unlink`; `txid` is the value returned by `hk_start_tx`. -/
def hk_start_tx_for_unlink (txid : Int) (s : hk_state) (pi direntry pidir : Nat)
    (invalidate : Bool) : Int × hk_state :=
  let s1 := emit s [hk_event.create_al_snapshot pidir, hk_event.create_al_snapshot pi,
    hk_event.start_tx tx_kind.UNLINK pi direntry]
  if invalidate then
    (txid,
      { s1 with
        pi_valid := Function.update s1.pi_valid pi 0
        trace := s1.trace ++ [hk_event.st_pi_valid pi 0] })
  else
    (txid, s1)

/-- `hk_start_tx_for_rename`; `txid` is the value returned by `hk_start_tx`. -/
def hk_start_tx_for_rename (txid : Int) (s : hk_state) (pi pd pd_new pi_par pi_new : Nat) :
    Int × hk_state :=
  (txid, emit s [hk_event.create_al_snapshot pi_par, hk_event.create_al_snapshot pi_new,
    hk_event.start_tx_rename pi pd pd_new])

/-! ## Operations (`namei.c` lines 379-852) -/

/-- Results handed back by the external calls of one `__hk_create`: `hk_alloc_ino`, those
of the dentry append, `hk_create_inode` (`some e` for an error pointer with
`PTR_ERR = e`) and `hk_start_tx`. -/
structure create_ext where
  ino : Nat
  app : append_ext
  inode_err : Option Int
  txid : Int
deriving DecidableEq, Repr

/-- `__hk_create`, the path without `CONFIG_CMT_BACKGROUND`.  `err` starts as
`PTR_ERR(NULL) = 0`. -/
def __hk_create (E : hk_env) (x : create_ext) (s : hk_state) (dir : Nat)
    (dentry : vfs_dentry) (mode : Nat) : Option Int × hk_state :=
  let err : Int := 0
  let s0 := emit s [hk_event.alloc_ino]
  if x.ino = INO_NONE then
    (some err, s0)
  else
    let r := hk_add_dentry E x.app s0 dentry x.ino 0 true
    match r.ret with
    | none => (none, r.st)
    | some err =>
      if err ≠ 0 then
        (some err, r.st)
      else
        let s1 := emit r.st [hk_event.create_inode x.ino]
        match x.inode_err with
        | some _ => (some err, s1)
        | none =>
          let s2 := emit s1 [hk_event.init_pi x.ino]
          let t := hk_start_tx_for_new_inode E x.txid s2 x.ino (r.out_direntry.getD 0) dir mode
          if t.1 < 0 then
            (some t.1, t.2)
          else
            (some err, emit (hk_finish_tx (emit t.2 [hk_event.commit_attrchange dir]) t.1)
              [hk_event.d_instantiate x.ino, hk_event.unlock_new_inode x.ino])

/-- `hk_create`. -/
def hk_create (E : hk_env) (x : create_ext) (s : hk_state) (dir : Nat)
    (dentry : vfs_dentry) (mode : Nat) : Option Int × hk_state :=
  __hk_create E x s dir dentry mode

/-- `hk_mknod`. -/
def hk_mknod (E : hk_env) (x : create_ext) (s : hk_state) (dir : Nat)
    (dentry : vfs_dentry) (mode : Nat) : Option Int × hk_state :=
  __hk_create E x s dir dentry mode

/-- `hk_mkdir`: `inc_nlink(dir)` follows `__hk_create` whatever it returned. -/
def hk_mkdir (E : hk_env) (x : create_ext) (s : hk_state) (dir : Nat)
    (dentry : vfs_dentry) (mode : Nat) : Option Int × hk_state :=
  let r := __hk_create E x s dir dentry (S_IFDIR ||| mode)
  match r.1 with
  | none => r
  | some err =>
    (some err,
      { r.2 with
        inodes := Function.update r.2.inodes dir
          { (r.2.inodes dir) with i_nlink := inc_nlink (r.2.inodes dir).i_nlink } })

/-- Results handed back by the external calls of one `hk_link`. -/
structure link_ext where
  app : append_ext
  now : Nat
  txid : Int
deriving DecidableEq, Repr

/-- `hk_link`; `inode` is `dest_dentry->d_inode->i_ino`. -/
def hk_link (E : hk_env) (x : link_ext) (s : hk_state) (inode : Nat) (dir : Nat)
    (dentry : vfs_dentry) : Option Int × hk_state :=
  if E.HK_LINK_MAX ≤ (s.inodes inode).i_nlink then
    (some (-EMLINK), s)
  else if E.hk_get_pi_by_ino dir = 0 then
    (some (-EINVAL), s)
  else
    let s0 := emit s [hk_event.ihold inode]
    let r := hk_add_dentry E x.app s0 dentry inode 0 true
    match r.ret with
    | none => (none, r.st)
    | some err =>
      if err ≠ 0 then
        (some err, emit r.st [hk_event.iput inode])
      else
        let s1 : hk_state :=
          { r.st with
            inodes := Function.update r.st.inodes inode
              { (r.st.inodes inode) with
                i_ctime := x.now
                i_nlink := inc_nlink (r.st.inodes inode).i_nlink } }
        let t := hk_start_tx_for_new_inode E x.txid s1 inode (r.out_direntry.getD 0) dir
          (S_IFLNK ||| 0o777)
        if t.1 < 0 then
          (some t.1, emit t.2 [hk_event.iput inode])
        else
          (some err, emit (hk_finish_tx (emit t.2 [hk_event.commit_attrchange dir,
            hk_event.commit_linkchange inode]) t.1) [hk_event.d_instantiate inode])

/-- Results handed back by the external calls of one `hk_unlink`. -/
structure unlink_ext where
  app : append_ext
  txid : Int
deriving DecidableEq, Repr

/-- `hk_unlink`, the path without `CONFIG_CMT_BACKGROUND`; `inode` is
`dentry->d_inode->i_ino`. -/
def hk_unlink (E : hk_env) (x : unlink_ext) (s : hk_state) (dir : Nat)
    (dentry : vfs_dentry) (inode : Nat) : Option Int × hk_state :=
  let pi := E.hk_get_pi_by_ino inode
  let pidir := E.hk_get_pi_by_ino dir
  if pidir = 0 then
    (some (-ENOMEM), s)
  else
    let r := hk_add_dentry E x.app s dentry 0 0 true
    match r.ret with
    | none => (none, r.st)
    | some retval =>
      if retval ≠ 0 then
        (some retval, r.st)
      else
        let nlink := (r.st.inodes inode).i_nlink
        let invalidate : Bool := nlink == 1
        let s1 : hk_state :=
          { r.st with
            inodes := Function.update r.st.inodes inode
              { (r.st.inodes inode) with
                i_ctime := (r.st.inodes dir).i_ctime
                i_nlink := if nlink ≠ 0 then drop_nlink nlink else nlink } }
        let t := hk_start_tx_for_unlink x.txid s1 pi (r.out_direntry.getD 0) pidir invalidate
        if t.1 < 0 then
          (some t.1, t.2)
        else
          (some 0, hk_finish_tx (emit t.2 [hk_event.commit_attrchange dir,
            hk_event.commit_linkchange inode]) t.1)

/-- Results handed back by the external calls of one `hk_rename`: `current_time` and
`hk_commit_linkchange` for the moved inode, those of the three dentry calls (a), (b), (c),
`current_time` and `hk_commit_linkchange` for the replaced inode, and `hk_start_tx`. -/
structure rename_ext where
  now_old : Nat
  linkchange_old : Int
  a : append_ext
  b : append_ext
  c : append_ext
  now_new : Nat
  linkchange_new : Int
  txid : Int
deriving DecidableEq, Repr

/-- Lines 744-754 of `hk_rename`: `some err` when the function leaves through `out`. -/
def hk_rename_check (E : hk_env) (s : hk_state) (old_inode new_dir : Nat)
    (new_inode : Option Nat) : Option Int :=
  match new_inode with
  | some ni =>
    if S_ISDIR (s.inodes old_inode).i_mode ∧ hk_empty_dir E s ni = false then
      some (-ENOTEMPTY)
    else none
  | none =>
    if S_ISDIR (s.inodes old_inode).i_mode ∧ E.HK_LINK_MAX ≤ (s.inodes new_dir).i_nlink then
      some (-EMLINK)
    else none

/-- Lines 756-771 of `hk_rename`: the pair `(inc_link, dec_link)`. -/
def hk_rename_links (old_is_dir new_exists same_dir : Bool) : Int × Int :=
  if old_is_dir then
    let dec_link : Int := -1
    let inc_link : Int := if new_exists then 0 else 1
    if same_dir then
      let inc_link := inc_link - 1
      if inc_link = 0 then (inc_link, 0) else (inc_link, dec_link)
    else (inc_link, dec_link)
  else (0, 0)

/-- Lines 778-779 of `hk_rename`: new `i_ctime` of the moved inode and the call of
`hk_commit_linkchange`. -/
def hk_rename_begin (x : rename_ext) (s : hk_state) (old_inode : Nat) : hk_state :=
  { s with
    inodes := Function.update s.inodes old_inode
      { (s.inodes old_inode) with i_ctime := x.now_old }
    trace := s.trace ++ [hk_event.commit_linkchange old_inode] }

/-- Step (a), lines 785-790 of `hk_rename`: remove the old entry in the new directory. -/
def hk_rename_a (E : hk_env) (x : rename_ext) (s : hk_state) (new_dentry : vfs_dentry) :
    append_result :=
  match new_dentry.d_inode with
  | some _ => hk_add_dentry E x.a s new_dentry 0 0 false
  | none => ⟨some 0, none, s⟩

/-- Step (b), lines 792-798 of `hk_rename`: link into the new directory. -/
def hk_rename_b (E : hk_env) (x : rename_ext) (s : hk_state) (new_dentry : vfs_dentry)
    (old_inode new_dir : Nat) (inc_link : Int) : append_result :=
  let r := hk_add_dentry E x.b s new_dentry old_inode (to_u16 inc_link) true
  if r.ret = some 0 ∧ 0 < inc_link then
    { r with
      st := { r.st with
        inodes := Function.update r.st.inodes new_dir
          { (r.st.inodes new_dir) with i_nlink := inc_nlink (r.st.inodes new_dir).i_nlink } } }
  else r

/-- Step (c), lines 800-806 of `hk_rename`: remove the old dentry. -/
def hk_rename_c (E : hk_env) (x : rename_ext) (s : hk_state) (old_dentry : vfs_dentry)
    (old_dir : Nat) (dec_link : Int) : append_result :=
  let r := hk_add_dentry E x.c s old_dentry 0 (to_u16 dec_link) true
  if r.ret = some 0 ∧ dec_link < 0 then
    { r with
      st := { r.st with
        inodes := Function.update r.st.inodes old_dir
          { (r.st.inodes old_dir) with i_nlink := drop_nlink (r.st.inodes old_dir).i_nlink } } }
  else r

/-- Lines 835-846 of `hk_rename`: the transaction. -/
def hk_rename_tx (E : hk_env) (x : rename_ext) (s : hk_state)
    (old_dir new_dir old_inode pd pd_new : Nat) : Option Int × hk_state :=
  let t := hk_start_tx_for_rename x.txid s (E.hk_get_pi_by_ino old_inode) pd pd_new
    (E.hk_get_pi_by_ino old_dir) (E.hk_get_pi_by_ino new_dir)
  if t.1 < 0 then
    (some t.1, t.2)
  else
    (some 0, hk_finish_tx (emit t.2 [hk_event.commit_attrchange old_dir,
      hk_event.commit_attrchange new_dir]) t.1)

/-- Lines 808-846 of `hk_rename`: link count and validity of the replaced inode, then the
transaction. -/
def hk_rename_end (E : hk_env) (x : rename_ext) (s : hk_state)
    (old_dir new_dir old_inode : Nat) (new_inode : Option Nat) (pd pd_new : Nat) :
    Option Int × hk_state :=
  match new_inode with
  | none => hk_rename_tx E x s old_dir new_dir old_inode pd pd_new
  | some ni =>
    let new_pi := E.hk_get_pi_by_ino ni
    let n0 := (s.inodes ni).i_nlink
    let n1 := if S_ISDIR (s.inodes old_inode).i_mode ∧ n0 ≠ 0 then drop_nlink n0 else n0
    let n2 := if n1 ≠ 0 then drop_nlink n1 else n1
    let s1 : hk_state :=
      { s with
        inodes := Function.update s.inodes ni
          { (s.inodes ni) with i_ctime := x.now_new, i_nlink := n2 }
        trace := s.trace ++ [hk_event.commit_linkchange ni] }
    if x.linkchange_new ≠ 0 then
      (some x.linkchange_new, s1)
    else if n2 = 0 then
      hk_rename_tx E x
        { s1 with
          pi_valid := Function.update s1.pi_valid new_pi 0
          trace := s1.trace ++ [hk_event.st_pi_valid new_pi 0, hk_event.flush_pi new_pi true,
            hk_event.free_data_blks ni] }
        old_dir new_dir old_inode pd pd_new
    else
      hk_rename_tx E x s1 old_dir new_dir old_inode pd pd_new

/-- State of `hk_rename` right after step (a). -/
def hk_rename_state_a (E : hk_env) (x : rename_ext) (s : hk_state) (old_inode : Nat)
    (new_dentry : vfs_dentry) : hk_state :=
  (hk_rename_a E x (hk_rename_begin x s old_inode) new_dentry).st

/-- State of `hk_rename` right after step (b). -/
def hk_rename_state_b (E : hk_env) (x : rename_ext) (s : hk_state) (old_dir : Nat)
    (old_inode new_dir : Nat) (new_dentry : vfs_dentry) : hk_state :=
  (hk_rename_b E x (hk_rename_state_a E x s old_inode new_dentry) new_dentry old_inode new_dir
    (hk_rename_links (S_ISDIR (s.inodes old_inode).i_mode) new_dentry.d_inode.isSome
      (old_dir == new_dir)).1).st

/-- State of `hk_rename` right after step (c). -/
def hk_rename_state_c (E : hk_env) (x : rename_ext) (s : hk_state) (old_dir : Nat)
    (old_dentry : vfs_dentry) (old_inode new_dir : Nat) (new_dentry : vfs_dentry) : hk_state :=
  (hk_rename_c E x (hk_rename_state_b E x s old_dir old_inode new_dir new_dentry) old_dentry
    old_dir
    (hk_rename_links (S_ISDIR (s.inodes old_inode).i_mode) new_dentry.d_inode.isSome
      (old_dir == new_dir)).2).st

/-- `hk_rename`; `old_inode` is `old_dentry->d_inode->i_ino`, the replaced inode is
`new_dentry->d_inode`, and `flags` is an `unsigned int`. -/
def hk_rename (E : hk_env) (x : rename_ext) (s : hk_state) (old_dir : Nat)
    (old_dentry : vfs_dentry) (new_dir : Nat) (new_dentry : vfs_dentry) (flags : Nat)
    (old_inode : Nat) : Option Int × hk_state :=
  let new_inode := new_dentry.d_inode
  if flags &&& (2 ^ 32 - 1 - RENAME_NOREPLACE) ≠ 0 then
    (some (-EINVAL), s)
  else
    match hk_rename_check E s old_inode new_dir new_inode with
    | some err => (some err, s)
    | none =>
      let l := hk_rename_links (S_ISDIR (s.inodes old_inode).i_mode) new_inode.isSome
        (old_dir == new_dir)
      let s0 := hk_rename_begin x s old_inode
      if x.linkchange_old ≠ 0 then
        (some x.linkchange_old, s0)
      else
        let ra := hk_rename_a E x s0 new_dentry
        if ra.ret ≠ some 0 then
          (ra.ret, ra.st)
        else
          let rb := hk_rename_b E x ra.st new_dentry old_inode new_dir l.1
          if rb.ret ≠ some 0 then
            (rb.ret, rb.st)
          else
            let rc := hk_rename_c E x rb.st old_dentry old_dir l.2
            if rc.ret ≠ some 0 then
              (rc.ret, rc.st)
            else
              hk_rename_end E x rc.st old_dir new_dir old_inode new_inode
                (rc.out_direntry.getD 0) (rb.out_direntry.getD 0)

/-! ## Concrete environment and inputs used to evaluate the definitions -/

/-- BKDR string hash with seed 131 over the first `len` bytes, in an `unsigned long`. -/
def bkdr (name : List Nat) (len : Nat) : Nat :=
  (name.take len).foldl (fun h c => (h * 131 + c) % 2 ^ 64) 0

/-- An environment: BKDR hash, buckets chosen by the low bits of the hash, 16 buckets,
4 dentries of 512 bytes per block, offsets relative to the base address 4096. -/
def env0 : hk_env where
  BKDRHash := bkdr
  hash_min := fun h bits => h % 2 ^ bits
  HK_HASH_BITS := 4
  MAX_DENTRY_PER_BLK := 4
  DENTRY_SIZE := 512
  TRANS_OFS_TO_ADDR := fun o => o + 4096
  TRANS_ADDR_TO_OFS := fun a => a - 4096
  hk_get_pi_by_ino := fun ino => 1000000 + 128 * ino
  HK_LINK_MAX := 32000
  HK_NAME_LEN := 255

/-- An all-zero dentry record. -/
def dentry0 : hk_dentry := ⟨0, 0, [], 0, 0, 0, 0⟩

/-- A directory header with an empty index, no entries and no blocks. -/
def header0 : hk_inode_info_header where
  dirs := fun _ => []
  i_num_dentrys := 0
  ix := fun _ => 0

/-- A state in which every directory is empty, every inode is a regular file with
link count 1, and persistent memory is zeroed. -/
def state0 : hk_state where
  pm := fun _ => dentry0
  pi_valid := fun _ => 0
  inodes := fun _ => ⟨S_IFREG, 1, 0, 0⟩
  headers := fun _ => header0
  trace := []

/-- External results of an append for which the allocator prepares the block at `addr`
and the index node is allocated. -/
def ext_ok (addr : Nat) : append_ext := ⟨1, some addr, 0, true, 7⟩

/-- Directory 2 after the name "a" was appended twice, for inode 5 and then for inode 6. -/
def dup_state : hk_state :=
  (hk_append_dentry_innvm env0 (ext_ok 8192)
    (hk_append_dentry_innvm env0 (ext_ok 8192) state0 2 [97] 1 5 0 true).st
    2 [97] 1 6 0 true).st

/-! ## The dentry log of a directory and the index rebuilt from it -/

/-- The block address an append takes from the allocator when it needs a new block: the
prepared layout, else the address left by `hk_prepare_gap`. -/
def ext_blk_addr (x : append_ext) : Nat :=
  match x.prep with
  | some target_addr => target_addr
  | none => x.gap

/-- Address of record `k` of the dentry log: slot `k % MAX_DENTRY_PER_BLK` of the block
that linix gives for logical block `k / MAX_DENTRY_PER_BLK`, as lines 167-190 compute it
for `k = i_num_dentrys`. -/
def log_slot_addr (E : hk_env) (sih : hk_inode_info_header) (k : Nat) : Nat :=
  hk_dentry_by_ix_from_blk E
    (E.TRANS_OFS_TO_ADDR (linix_get sih.ix (k / E.MAX_DENTRY_PER_BLK)))
    (k % E.MAX_DENTRY_PER_BLK)

/-- Addresses of the `i_num_dentrys` records of the dentry log, in append order. -/
def log_slots (E : hk_env) (sih : hk_inode_info_header) : List Nat :=
  (List.range sih.i_num_dentrys).map (log_slot_addr E sih)

/-- Specification of `rebuild()`, in the words of section 4.2 of the spec: a forward scan
of the dentry log through linix that calls `hk_insert_dir_table` for each record with
`valid = 1`, starting from an empty index.  It is the reference the maintained index is
compared with. -/
def spec_rebuild_dir_table (E : hk_env) (pm : Nat → hk_dentry) (sih : hk_inode_info_header) :
    hk_inode_info_header :=
  (log_slots E sih).foldl
    (fun h a =>
      if (pm a).valid = 1 then
        (hk_insert_dir_table E h (pm a).name (pm a).name_len a true).2
      else h)
    { sih with dirs := fun _ => [] }

/-- Index nodes of the valid records among `slots` whose name falls into bucket `bkt`,
latest record first. -/
def log_bucket (E : hk_env) (pm : Nat → hk_dentry) (slots : List Nat) (bkt : Nat) :
    List hk_dentry_info :=
  (slots.reverse.filter
    (fun a => (pm a).valid == 1 && hk_bucket E (pm a).name (pm a).name_len == bkt)).map
    (fun a => ⟨E.BKDRHash (pm a).name (pm a).name_len, a⟩)

/-- One entry call on a directory: an append (`ino != 0`) or a removal (`ino = 0`). -/
structure dir_call where
  x : append_ext
  name : List Nat
  namelen : Nat
  ino : Nat
  link_change : Nat
deriving DecidableEq, Repr

/-- The call `c` succeeds in state `s`: `hk_append_dentry_innvm` returns 0, and for an
append the name is NUL-terminated at `namelen`, the index node is allocated, the address
of a block taken from the allocator (line 169: slot 0 and nothing in linix) converts to an
offset and back, and the record is written at an address that no record of the log
occupies. -/
def dir_call_ok (E : hk_env) (s : hk_state) (dir : Nat) (c : dir_call) : Bool :=
  let r := hk_append_dentry_innvm E c.x s dir c.name c.namelen c.ino c.link_change true
  let sih := s.headers dir
  r.ret == some 0 &&
  (c.ino == 0 ||
    (c.namelen == c.name.length && c.x.di_alloc &&
      (!(sih.i_num_dentrys % E.MAX_DENTRY_PER_BLK == 0 &&
          linix_get sih.ix (sih.i_num_dentrys / E.MAX_DENTRY_PER_BLK) == 0) ||
        E.TRANS_OFS_TO_ADDR (E.TRANS_ADDR_TO_OFS (ext_blk_addr c.x)) == ext_blk_addr c.x) &&
      match r.out_direntry with
      | some d => !(log_slots E sih).contains d
      | none => true))

/-- Apply a sequence of entry calls to directory `dir`, `none` when one of them does not
succeed. -/
def dir_run (E : hk_env) (dir : Nat) : hk_state → List dir_call → Option hk_state
  | s, [] => some s
  | s, c :: cs =>
    if dir_call_ok E s dir c then
      dir_run E dir
        (hk_append_dentry_innvm E c.x s dir c.name c.namelen c.ino c.link_change true).st cs
    else none

/-- The index of a directory is the index of its log: the records of the log lie at
distinct addresses and every bucket holds exactly the nodes of the valid records of the
log whose name falls into it, latest first. -/
def index_is_log (E : hk_env) (pm : Nat → hk_dentry) (sih : hk_inode_info_header) : Prop :=
  (log_slots E sih).Nodup ∧ ∀ bkt, sih.dirs bkt = log_bucket E pm (log_slots E sih) bkt

/-- Six calls on one directory: append "a", "b", "c", "d" (the allocator prepares the block
at 8192 for the first), append "e" (slot 0 of the next block, prepared at 16384), remove
"c". -/
def calls0 : List dir_call :=
  [⟨ext_ok 8192, [97], 1, 5, 0⟩, ⟨ext_ok 0, [98], 1, 6, 0⟩, ⟨ext_ok 0, [99], 1, 7, 0⟩,
    ⟨ext_ok 0, [100], 1, 8, 0⟩, ⟨ext_ok 16384, [101], 1, 9, 0⟩, ⟨ext_ok 0, [99], 1, 0, 0⟩]

/-- Directory 2 of `state0` after the first `n` calls of `calls0`, call by call. -/
def state_calls0 : Nat → hk_state
  | 0 => state0
  | n + 1 =>
    match calls0.get? n with
    | some c =>
      (hk_append_dentry_innvm env0 c.x (state_calls0 n) 2 c.name c.namelen c.ino c.link_change
        true).st
    | none => state_calls0 n

/-- Number of index nodes in the bucket of the name, in directory `d`, whose record carries
the name. -/
def name_count (E : hk_env) (s : hk_state) (d : Nat) (name : List Nat) (len : Nat) : Nat :=
  (((s.headers d).dirs (hk_bucket E name len)).filter
    (fun di => (s.pm di.direntry).name == name)).length

/-- No index node of directory `d` references the record at address `a`. -/
def fresh_in (s : hk_state) (d : Nat) (a : Nat) : Prop :=
  ∀ bkt di, di ∈ (s.headers d).dirs bkt → di.direntry ≠ a

/-- Directory 2 holding "a" for inode 5 and "b" for inode 6. -/
def state_ab : hk_state :=
  (hk_append_dentry_innvm env0 (ext_ok 0)
    (hk_append_dentry_innvm env0 (ext_ok 8192) state0 2 [97] 1 5 0 true).st
    2 [98] 1 6 0 true).st

/-- External results of a rename in which every external call succeeds. -/
def rename_ext_ok : rename_ext := ⟨9, 0, ext_ok 0, ext_ok 0, ext_ok 0, 9, 0, 1⟩

/-- The VFS dentry of "a" in directory 2, bound to inode 5. -/
def dentry_a : vfs_dentry := ⟨2, [97], 1, some 5⟩

/-- The VFS dentry of "b" in directory 2, bound to inode 6. -/
def dentry_b : vfs_dentry := ⟨2, [98], 1, some 6⟩

/-- The negative VFS dentry of "a" in directory 2. -/
def dentry_a_neg : vfs_dentry := ⟨2, [97], 1, none⟩

/-- The VFS dentry of "foo" in directory 2, bound to inode 5. -/
def dentry_foo : vfs_dentry := ⟨2, [102, 111, 111], 3, some 5⟩

/-- Directory 2 holding "foo" for inode 5. -/
def state_foo : hk_state :=
  (hk_append_dentry_innvm env0 (ext_ok 8192) state0 2 [102, 111, 111] 3 5 0 true).st

/-! ## Remaining index operations and `hk_lookup` -/

/-- The assignment `di->direntry = direntry` on the first node of a chain that satisfies
`p`: that node is repointed, every other node is left as it is. -/
def repoint_first (p : hk_dentry_info → Bool) (direntry : Nat) :
    List hk_dentry_info → List hk_dentry_info
  | [] => []
  | di :: t =>
    if p di then { di with direntry := direntry } :: t
    else di :: repoint_first p direntry t

/-- `hk_update_dir_table`: `-ENOENT` when the search finds no node, else the node found is
repointed to `direntry` and 0 is returned. -/
def hk_update_dir_table (E : hk_env) (pm : Nat → hk_dentry) (sih : hk_inode_info_header)
    (name : List Nat) (namelen : Nat) (direntry : Nat) : Int × hk_inode_info_header :=
  match hk_search_dir_table E pm sih name namelen with
  | none => (-ENOENT, sih)
  | some _ =>
    let bkt := hk_bucket E name namelen
    (0, { sih with
      dirs := Function.update sih.dirs bkt
        (repoint_first (fun cur => (pm cur.direntry).name == name) direntry (sih.dirs bkt)) })

/-- `hk_destory_dir_table`: the loop over the `2^HK_HASH_BITS` buckets; each bucket is left
empty.  The first component lists the nodes handed to `hk_free_hk_dentry_info`, in the
order of the loop. -/
def hk_destory_dir_table (E : hk_env) (sih : hk_inode_info_header) :
    List hk_dentry_info × hk_inode_info_header :=
  (List.range (2 ^ E.HK_HASH_BITS)).foldl
    (fun acc bkt =>
      (acc.1 ++ acc.2.dirs bkt, { acc.2 with dirs := Function.update acc.2.dirs bkt [] }))
    ([], sih)

/-- `hk_insert_dir_table` on the header of directory `dir` of a state; `alloc` tells whether
`hk_alloc_hk_dentry_info` returned a node. -/
def hk_insert_dir_table_st (E : hk_env) (s : hk_state) (dir : Nat) (name : List Nat)
    (namelen : Nat) (direntry : Nat) (alloc : Bool) : Option Int × hk_state :=
  ((hk_insert_dir_table E (s.headers dir) name namelen direntry alloc).1,
    { s with
      headers := Function.update s.headers dir
        (hk_insert_dir_table E (s.headers dir) name namelen direntry alloc).2
      trace := s.trace ++ [hk_event.alloc_dentry_info alloc] })

/-- `hk_remove_dir_table` on the header of directory `dir` of a state: the node found is
unlinked and freed. -/
def hk_remove_dir_table_st (E : hk_env) (s : hk_state) (dir : Nat) (name : List Nat)
    (namelen : Nat) : hk_state :=
  { s with
    headers := Function.update s.headers dir
      (hk_remove_dir_table E s.pm (s.headers dir) name namelen)
    trace := s.trace ++
      match hk_search_dir_table E s.pm (s.headers dir) name namelen with
      | none => []
      | some di => [hk_event.free_dentry_info di.direntry] }

/-- `hk_update_dir_table` on the header of directory `dir` of a state. -/
def hk_update_dir_table_st (E : hk_env) (s : hk_state) (dir : Nat) (name : List Nat)
    (namelen : Nat) (direntry : Nat) : Int × hk_state :=
  ((hk_update_dir_table E s.pm (s.headers dir) name namelen direntry).1,
    { s with
      headers := Function.update s.headers dir
        (hk_update_dir_table E s.pm (s.headers dir) name namelen direntry).2 })

/-- `hk_destory_dir_table` on the header of inode `inode` of a state: every node of the
table is unlinked and freed. -/
def hk_destory_dir_table_st (E : hk_env) (s : hk_state) (inode : Nat) : hk_state :=
  { s with
    headers := Function.update s.headers inode (hk_destory_dir_table E (s.headers inode)).2
    trace := s.trace ++
      (hk_destory_dir_table E (s.headers inode)).1.map
        (fun di => hk_event.free_dentry_info di.direntry) }

/-- Result of `hk_iget` in `hk_lookup`: `some e` for the error pointer `ERR_PTR(e)`, `none`
for an inode. -/
structure lookup_ext where
  iget_err : Option Int
deriving DecidableEq, Repr

/-- Value returned by `hk_lookup`: an error pointer, or the result of `d_splice_alias` for
the inode found (`none` for a NULL inode). -/
inductive lookup_result
  | err (e : Int)
  | alias (inode : Option Nat)
deriving DecidableEq, Repr

/-- `hk_lookup`. -/
def hk_lookup (E : hk_env) (x : lookup_ext) (s : hk_state) (dir : Nat) (dentry : vfs_dentry) :
    lookup_result × hk_state :=
  if E.HK_NAME_LEN < dentry.d_len then
    (lookup_result.err (-ENAMETOOLONG), s)
  else
    let ino := (hk_inode_by_name E s dir dentry.d_name dentry.d_len).1
    if ino ≠ INO_NONE then
      let s1 := emit s [hk_event.iget ino]
      match x.iget_err with
      | some e =>
        if e = -ESTALE ∨ e = -ENOMEM ∨ e = -EACCES then
          (lookup_result.err (- EIO), s1)
        else
          (lookup_result.err e, emit s1 [hk_event.d_splice_alias])
      | none => (lookup_result.alias (some ino), emit s1 [hk_event.d_splice_alias])
    else
      (lookup_result.alias none, emit s [hk_event.d_splice_alias])

/-- No two nodes of one bucket carry the same record name. -/
def distinct_names (pm : Nat → hk_dentry) (sih : hk_inode_info_header) : Prop :=
  ∀ bkt, ((sih.dirs bkt).map (fun di => (pm di.direntry).name)).Nodup

/-- Every node sits in the bucket of the name its record carries, hashed over the whole
name, as `hk_insert_dir_table` places it for a name NUL-terminated at `namelen`. -/
def index_placed (E : hk_env) (pm : Nat → hk_dentry) (sih : hk_inode_info_header) : Prop :=
  ∀ bkt di, di ∈ sih.dirs bkt →
    hk_bucket E (pm di.direntry).name (pm di.direntry).name.length = bkt

/-- The environment `env0` with a hash under which every name falls into bucket 3. -/
def env_b3 : hk_env := { env0 with hash_min := fun _ _ => 3 }

/-- Directory 2 holding "a", "b", "c" for the inodes 5, 6, 7, all in bucket 3. -/
def state_abc : hk_state :=
  (hk_append_dentry_innvm env_b3 (ext_ok 0)
    (hk_append_dentry_innvm env_b3 (ext_ok 0)
      (hk_append_dentry_innvm env_b3 (ext_ok 8192) state0 2 [97] 1 5 0 true).st
      2 [98] 1 6 0 true).st
    2 [99] 1 7 0 true).st

/-- The state `state_abc` with a second record that carries the name "b", at 12288. -/
def state_abc2 : hk_state :=
  { state_abc with pm := Function.update state_abc.pm 12288 ⟨6, 1, [98], 0, 0, 1, 9⟩ }

/-- The state `state_abc` in which every inode is a directory with link count 2. -/
def state_abc_dirs_only : hk_state :=
  { state_abc with inodes := fun _ => ⟨S_IFDIR, 2, 0, 0⟩ }

/-- The environment `env0` with `HK_LINK_MAX = 2`. -/
def env_link2 : hk_env := { env0 with HK_LINK_MAX := 2 }

/-! ## chash.h: the circular hash table

A `struct list_head` object is identified by its address; the heap keeps its two pointer
fields in two maps.  `table` is the address of the array of sentinels. -/

/-- The `next` and `prev` fields of every `struct list_head`, keyed by the address of the
object. -/
structure list_heap where
  next : Nat → Nat
  prev : Nat → Nat

/-- `sizeof(struct list_head)`: two pointers of 8 bytes. -/
def sizeof_list_head : Nat := 16

/-- `&table[key]`. -/
def chash_sentinal (table key : Nat) : Nat := table + key * sizeof_list_head

/-- The `int` expression `1 << bits`: `2 ^ bits` wrapped to a signed 32-bit value. -/
def shl_one (bits : Nat) : Int := ((2 : Int) ^ bits + 2 ^ 31) % 2 ^ 32 - 2 ^ 31

/-- `chash_init`: the loop `for (i = 0; i < (1 << bits); i++)` makes every sentinel point to
itself. -/
def chash_init (H : list_heap) (table bits : Nat) : list_heap :=
  (List.range (shl_one bits).toNat).foldl
    (fun h i =>
      let sentinal := chash_sentinal table i
      let h1 := { h with next := Function.update h.next sentinal sentinal }
      { h1 with prev := Function.update h1.prev sentinal sentinal })
    H

/-- `chash_add_head`: the four stores, in the order of the source. -/
def chash_add_head (H : list_heap) (table slot key : Nat) : list_heap :=
  let sentinal := chash_sentinal table key
  let h1 := { H with next := Function.update H.next slot (H.next sentinal) }
  let h2 := { h1 with prev := Function.update h1.prev slot sentinal }
  let h3 := { h2 with prev := Function.update h2.prev (h2.next sentinal) slot }
  { h3 with next := Function.update h3.next sentinal slot }

/-- `chash_del`: the two stores, in the order of the source. -/
def chash_del (H : list_heap) (slot : Nat) : list_heap :=
  let h1 := { H with next := Function.update H.next (H.prev slot) (H.next slot) }
  { h1 with prev := Function.update h1.prev (h1.next slot) (h1.prev slot) }

/-- `chash_last`. -/
def chash_last (H : list_heap) (table key : Nat) : Nat :=
  H.prev (chash_sentinal table key)

/-- `chash_is_sentinal`. -/
def chash_is_sentinal (table key slot : Nat) : Bool :=
  slot == chash_sentinal table key

/-- The loop of `chash_for_each_possible` from `slot` on: the nodes visited, in order, or
`none` when the sentinel is not reached within `fuel` visits. -/
def chash_walk (H : list_heap) (sentinal : Nat) : Nat → Nat → Option (List Nat)
  | 0, slot => if slot = sentinal then some [] else none
  | fuel + 1, slot =>
    if slot = sentinal then some []
    else (chash_walk H sentinal fuel (H.next slot)).map (fun visited => slot :: visited)

/-- `chash_for_each_possible(table, slot, key)`: starts at `table[key].next` and runs until
`slot == &table[key]`. -/
def chash_for_each_possible (H : list_heap) (table key fuel : Nat) : Option (List Nat) :=
  chash_walk H (chash_sentinal table key) fuel (H.next (chash_sentinal table key))

/-- A call on the table. -/
inductive chash_op where
  | add_head (slot key : Nat)
  | del (slot : Nat)
  deriving DecidableEq, Repr

/-- One call. -/
def chash_apply (table : Nat) (H : list_heap) : chash_op → list_heap
  | chash_op.add_head slot key => chash_add_head H table slot key
  | chash_op.del slot => chash_del H slot

/-- A sequence of calls, first to last. -/
def chash_run (table : Nat) (H : list_heap) (ops : List chash_op) : list_heap :=
  ops.foldl (chash_apply table) H

/-- Spec side of a call: the nodes inserted in each bucket, most recently inserted first.
An insertion puts the node in front of its bucket, a removal takes the node out of the
bucket that holds it and keeps the order of the others. -/
def spec_chash_step (B : Nat → List Nat) : chash_op → Nat → List Nat
  | chash_op.add_head slot key => Function.update B key (slot :: B key)
  | chash_op.del slot => fun k => (B k).erase slot

/-- Spec side of a sequence of calls. -/
def spec_chash_run (B : Nat → List Nat) (ops : List chash_op) : Nat → List Nat :=
  ops.foldl spec_chash_step B

/-- A call is admissible on a table of `nb` buckets holding `B`: an insertion names a
bucket of the table and a node that is not inserted and is not one of the sentinels; a
removal names a node that is inserted. -/
def chash_op_ok (table nb : Nat) (B : Nat → List Nat) : chash_op → Prop
  | chash_op.add_head slot key =>
    key < nb ∧ (∀ k, k < nb → slot ∉ B k) ∧ (∀ k, k < nb → slot ≠ chash_sentinal table k)
  | chash_op.del slot => ∃ k, k < nb ∧ slot ∈ B k

/-- Every call of the sequence is admissible when it is made. -/
def chash_ops_ok (table nb : Nat) : (Nat → List Nat) → List chash_op → Prop
  | _, [] => True
  | B, op :: rest =>
    chash_op_ok table nb B op ∧ chash_ops_ok table nb (spec_chash_step B op) rest

/-- The pointers from `a` through the nodes of `L` to `b`: each `next` leads to the
following object and each `prev` back. -/
def chain (nx pv : Nat → Nat) : Nat → List Nat → Nat → Prop
  | a, [], b => nx a = b ∧ pv b = a
  | a, x :: t, b => nx a = x ∧ pv x = a ∧ chain nx pv x t b

/-- The bucket `key` is a ring through its sentinel holding the nodes of `L` in order. -/
def chash_ring (H : list_heap) (table key : Nat) (L : List Nat) : Prop :=
  chain H.next H.prev (chash_sentinal table key) L (chash_sentinal table key) ∧
    (chash_sentinal table key :: L).Nodup

/-- The buckets `B` of a table of `nb` buckets are well formed: nothing outside the table,
no node twice, no node in two buckets, no node at the address of a sentinel. -/
def chash_buckets_wf (table nb : Nat) (B : Nat → List Nat) : Prop :=
  (∀ k, nb ≤ k → B k = []) ∧
  (∀ k, k < nb → (B k).Nodup) ∧
  (∀ k1 k2 x, k1 < nb → k2 < nb → x ∈ B k1 → x ∈ B k2 → k1 = k2) ∧
  (∀ k k2 x, k < nb → k2 < nb → x ∈ B k → x ≠ chash_sentinal table k2)

/-- The heap holds the buckets `B`: every bucket of the table is the ring of its nodes. -/
def chash_inv (H : list_heap) (table nb : Nat) (B : Nat → List Nat) : Prop :=
  chash_buckets_wf table nb B ∧ ∀ k, k < nb → chash_ring H table k (B k)

/-- A heap in which every pointer is 0. -/
def heap0 : list_heap := ⟨fun _ => 0, fun _ => 0⟩

/-! ## Link counts of directories -/

/-- In `evs` both events occur and the first occurrence of `a` precedes the first
occurrence of `b`. -/
def occurs_before (a b : hk_event) (evs : List hk_event) : Bool :=
  evs.contains a && evs.contains b && decide (evs.indexOf a < evs.indexOf b)

/-- The stores of lines 193-201 into the record at `d`, in program order. -/
def dentry_stores (d : Nat) : List hk_event :=
  [hk_event.st_dentry d dentry_field.ino, hk_event.st_dentry d dentry_field.name_len,
    hk_event.st_dentry d dentry_field.name, hk_event.st_dentry d dentry_field.mtime,
    hk_event.st_dentry d dentry_field.links_count, hk_event.st_dentry_valid d 1,
    hk_event.st_dentry d dentry_field.tstamp]

/-- Spec side, section 4.3 "use/unuse block markers", on the effects `evs` of a call that
writes the record at `d` in the new block `blk` of logical index `blk_cur`: the block is
marked in use before every store into the record, and every store precedes the link into
the append chain and the insertion into linix. -/
def spec_marked_before_content (blk blk_cur d : Nat) (evs : List hk_event) : Bool :=
  (dentry_stores d).all (fun st =>
    occurs_before (hk_event.use_layout_for_addr blk) st evs &&
    occurs_before st (hk_event.sm_valid_data_sync blk blk_cur) evs &&
    occurs_before st (hk_event.linix_insert blk_cur blk) evs)

/-- What the source does on the same effects: every store into the record precedes the
mark `use_layout_for_addr`, which precedes `sm_valid_data_sync`, `unuse_layout_for_addr`,
`linix_insert` and the flush of the record, in this order. -/
def content_before_marked (blk blk_cur d : Nat) (evs : List hk_event) : Bool :=
  (dentry_stores d).all (fun st => occurs_before st (hk_event.use_layout_for_addr blk) evs) &&
  occurs_before (hk_event.use_layout_for_addr blk) (hk_event.sm_valid_data_sync blk blk_cur)
    evs &&
  occurs_before (hk_event.sm_valid_data_sync blk blk_cur) (hk_event.unuse_layout_for_addr blk)
    evs &&
  occurs_before (hk_event.unuse_layout_for_addr blk) (hk_event.linix_insert blk_cur blk) evs &&
  occurs_before (hk_event.linix_insert blk_cur blk) (hk_event.flush_buffer d false) evs

/-! ## Runs of entry calls on one directory and the slots they write -/

/-- One entry call on directory `dir`, with a non-NULL `out_direntry`. -/
def dir_apply (E : hk_env) (dir : Nat) (s : hk_state) (c : dir_call) : append_result :=
  hk_append_dentry_innvm E c.x s dir c.name c.namelen c.ino c.link_change true

/-- The state after a sequence of entry calls on directory `dir`, whatever they return. -/
def dir_exec (E : hk_env) (dir : Nat) (s : hk_state) (cs : List dir_call) : hk_state :=
  cs.foldl (fun t c => (dir_apply E dir t c).st) s

/-- Number of appends (`ino != 0`) among the calls. -/
def appends (cs : List dir_call) : Nat :=
  cs.countP (fun c => c.ino != 0)

/-- The condition of line 169 in state `s`: the next record goes to slot 0 and linix has
nothing for its logical block. -/
@[reducible]
def needs_block (E : hk_env) (s : hk_state) (dir : Nat) : Prop :=
  (s.headers dir).i_num_dentrys % E.MAX_DENTRY_PER_BLK = 0 ∧
    linix_get (s.headers dir).ix ((s.headers dir).i_num_dentrys / E.MAX_DENTRY_PER_BLK) = 0

/-- Allocation succeeds along the run: whenever an append reaches the allocator, a block
is delivered (a prepared layout, or a non-zero address from `hk_prepare_gap`) and its
offset, the value stored in linix, is not the 0 that linix reads as unset. -/
def dir_alloc_ok (E : hk_env) (dir : Nat) : hk_state → List dir_call → Prop
  | _, [] => True
  | s, c :: cs =>
    (c.ino ≠ 0 → needs_block E s dir →
      (c.x.prep ≠ none ∨ c.x.gap ≠ 0) ∧ E.TRANS_ADDR_TO_OFS (ext_blk_addr c.x) ≠ 0) ∧
    dir_alloc_ok E dir (dir_apply E dir s c).st cs

/-- The logical block indices handed to `linix_insert`, in program order. -/
def inserted_blocks (tr : List hk_event) : List Nat :=
  tr.filterMap (fun e =>
    match e with
    | hk_event.linix_insert blk_cur _ => some blk_cur
    | _ => none)

/-- The counters of directory `dir` after `n` appends on an empty directory: `n` records
counted, linix set exactly for the logical blocks below `ceil(n / MAX_DENTRY_PER_BLK)`,
and these blocks, each once and in increasing order, are what was handed to
`linix_insert` after the insertions `base` made before the run. -/
def log_dense (E : hk_env) (base : List Nat) (s : hk_state) (dir n : Nat) : Prop :=
  (s.headers dir).i_num_dentrys = n ∧
  (∀ b, linix_get (s.headers dir).ix b ≠ 0 ↔
    b < (n + E.MAX_DENTRY_PER_BLK - 1) / E.MAX_DENTRY_PER_BLK) ∧
  inserted_blocks s.trace =
    base ++ List.range ((n + E.MAX_DENTRY_PER_BLK - 1) / E.MAX_DENTRY_PER_BLK)

/-! ## Inputs in which the allocation of an index node fails, or a name is held twice -/

/-- External results of an append for which the allocator prepares the block at `addr`
and `hk_alloc_hk_dentry_info` returns NULL. -/
def ext_noalloc (addr : Nat) : append_ext := ⟨1, some addr, 0, false, 7⟩

/-- External results of a rename in which every external call succeeds except the
allocation of the index node in step (b). -/
def rename_ext_noalloc : rename_ext := { rename_ext_ok with b := ext_noalloc 0 }

/-- The VFS dentry of "a" in directory 2, bound to inode 6. -/
def dentry_a6 : vfs_dentry := ⟨2, [97], 1, some 6⟩

/-- The negative VFS dentry of "c" in directory 2. -/
def dentry_c2_neg : vfs_dentry := ⟨2, [99], 1, none⟩

/-! # Theorems -/

/-! ## List facts -/

theorem find_eraseP_none {α : Type} (p : α → Bool) (l : List α)
    (h : (l.filter p).length ≤ 1) : (l.eraseP p).find? p = none := by
  induction l with
  | nil => rfl
  | cons a t ih =>
    by_cases hp : p a = true
    · rw [List.eraseP_cons_of_pos hp]
      rw [List.filter_cons_of_pos hp] at h
      have h0 : (t.filter p).length = 0 := by simpa using h
      rw [List.find?_eq_none]
      intro b hb hpb
      have : b ∈ t.filter p := List.mem_filter.mpr ⟨hb, hpb⟩
      rw [List.length_eq_zero] at h0
      rw [h0] at this
      cases this
    · rw [List.eraseP_cons_of_neg hp]
      rw [List.filter_cons_of_neg hp] at h
      simp [List.find?_cons, hp, ih h]

/-! ## Facts about the dentry append -/

theorem invalidate_name (pm : Nat → hk_dentry) (d v a : Nat) :
    (dentry_invalidate pm d v a).name = (pm a).name := by
  unfold dentry_invalidate
  by_cases h : a = d
  · subst h; simp
  · simp [Function.update_noteq h]

theorem invalidate_ino (pm : Nat → hk_dentry) (d v a : Nat) :
    (dentry_invalidate pm d v a).ino = (pm a).ino := by
  unfold dentry_invalidate
  by_cases h : a = d
  · subst h; simp
  · simp [Function.update_noteq h]

/-- With `ino != 0` the append either stops at `BUG_ON(1)` or is the record write, in the
block that linix gives or in a block taken from the allocator. -/
theorem append_cases (E : hk_env) (x : append_ext) (s : hk_state) (dir : Nat)
    (name : List Nat) (namelen ino link_change : Nat) (og : Bool) (hino : ino ≠ 0) :
    (hk_append_dentry_innvm E x s dir name namelen ino link_change og).ret = none ∨
    ∃ blk_addr isnew pre,
      hk_append_dentry_innvm E x s dir name namelen ino link_change og =
        hk_append_dentry_write E x s dir name namelen ino link_change og blk_addr
          ((s.headers dir).i_num_dentrys / E.MAX_DENTRY_PER_BLK)
          ((s.headers dir).i_num_dentrys % E.MAX_DENTRY_PER_BLK) isnew pre ∧
      ((isnew = false ∧ blk_addr = E.TRANS_OFS_TO_ADDR (linix_get (s.headers dir).ix
          ((s.headers dir).i_num_dentrys / E.MAX_DENTRY_PER_BLK))) ∨
        (isnew = true ∧ (s.headers dir).i_num_dentrys % E.MAX_DENTRY_PER_BLK = 0 ∧
          linix_get (s.headers dir).ix
            ((s.headers dir).i_num_dentrys / E.MAX_DENTRY_PER_BLK) = 0 ∧
          blk_addr = ext_blk_addr x)) := by
  unfold hk_append_dentry_innvm
  rw [if_neg hino]
  simp only []
  by_cases hc : (s.headers dir).i_num_dentrys % E.MAX_DENTRY_PER_BLK = 0 ∧
      linix_get (s.headers dir).ix ((s.headers dir).i_num_dentrys / E.MAX_DENTRY_PER_BLK) = 0
  · rw [if_pos hc]
    cases hp : x.prep with
    | none =>
      simp only []
      by_cases hg : x.gap = 0
      · rw [if_pos hg]; left; rfl
      · rw [if_neg hg]; right
        exact ⟨_, _, _, rfl, Or.inr ⟨rfl, hc.1, hc.2, by simp [ext_blk_addr, hp]⟩⟩
    | some a =>
      right
      exact ⟨_, _, _, rfl, Or.inr ⟨rfl, hc.1, hc.2, by simp [ext_blk_addr, hp]⟩⟩
  · rw [if_neg hc]; right
    exact ⟨_, _, _, rfl, Or.inl ⟨rfl, rfl⟩⟩

theorem write_lookup (E : hk_env) (x : append_ext) (s : hk_state) (dir : Nat)
    (name : List Nat) (namelen ino link_change : Nat) (og : Bool)
    (blk_addr blk_cur dentry_ix : Nat) (isnew : Bool) (pre : List hk_event)
    (hlen : namelen = name.length) (halloc : x.di_alloc = true) :
    hk_inode_by_name E (hk_append_dentry_write E x s dir name namelen ino link_change og
      blk_addr blk_cur dentry_ix isnew pre).st dir name namelen =
      (ino, some (hk_dentry_by_ix_from_blk E blk_addr dentry_ix)) := by
  subst hlen
  simp [hk_inode_by_name, hk_append_dentry_write, hk_search_dir_table, hk_insert_dir_table,
    halloc, hash_add_bits, hk_bucket]

/-! ## Effects of the dentry append -/

theorem append_pre (E : hk_env) (x : append_ext) (s : hk_state) (dir : Nat)
    (name : List Nat) (namelen ino link_change : Nat) (og : Bool) (hino : ino ≠ 0) :
    (hk_append_dentry_innvm E x s dir name namelen ino link_change og).ret = none ∨
    ∃ blk_addr isnew pre,
      hk_append_dentry_innvm E x s dir name namelen ino link_change og =
        hk_append_dentry_write E x s dir name namelen ino link_change og blk_addr
          ((s.headers dir).i_num_dentrys / E.MAX_DENTRY_PER_BLK)
          ((s.headers dir).i_num_dentrys % E.MAX_DENTRY_PER_BLK) isnew pre ∧
      ∀ e ∈ pre, touches_inode_record e = false := by
  unfold hk_append_dentry_innvm
  rw [if_neg hino]
  simp only []
  split
  · split
    · split
      · left; rfl
      · right; exact ⟨_, _, _, rfl, by decide⟩
    · right; exact ⟨_, _, _, rfl, by decide⟩
  · right; exact ⟨_, _, _, rfl, by simp⟩

/-- Effects of the record write: everything up to the flush of the record is an allocator
call or a store to the record, the store of `valid = 1` among them. -/
theorem write_trace (E : hk_env) (x : append_ext) (s : hk_state) (dir : Nat)
    (name : List Nat) (namelen ino link_change : Nat) (og : Bool)
    (blk_addr blk_cur dentry_ix : Nat) (isnew : Bool) (pre : List hk_event)
    (hpre : ∀ e ∈ pre, touches_inode_record e = false) :
    ∃ before,
      (hk_append_dentry_write E x s dir name namelen ino link_change og blk_addr blk_cur
        dentry_ix isnew pre).st.trace =
        s.trace ++ before ++
          [hk_event.flush_buffer (hk_dentry_by_ix_from_blk E blk_addr dentry_ix) false,
            hk_event.alloc_dentry_info x.di_alloc] ∧
      hk_event.st_dentry_valid (hk_dentry_by_ix_from_blk E blk_addr dentry_ix) 1 ∈ before ∧
      ∀ e ∈ before, touches_inode_record e = false := by
  refine ⟨pre ++ [hk_event.st_dentry (hk_dentry_by_ix_from_blk E blk_addr dentry_ix)
      dentry_field.ino,
    hk_event.st_dentry (hk_dentry_by_ix_from_blk E blk_addr dentry_ix) dentry_field.name_len,
    hk_event.st_dentry (hk_dentry_by_ix_from_blk E blk_addr dentry_ix) dentry_field.name,
    hk_event.st_dentry (hk_dentry_by_ix_from_blk E blk_addr dentry_ix) dentry_field.mtime,
    hk_event.st_dentry (hk_dentry_by_ix_from_blk E blk_addr dentry_ix)
      dentry_field.links_count,
    hk_event.st_dentry_valid (hk_dentry_by_ix_from_blk E blk_addr dentry_ix) 1,
    hk_event.st_dentry (hk_dentry_by_ix_from_blk E blk_addr dentry_ix) dentry_field.tstamp] ++
    (if isnew then
      [hk_event.use_layout_for_addr blk_addr, hk_event.sm_valid_data_sync blk_addr blk_cur,
        hk_event.unuse_layout_for_addr blk_addr, hk_event.linix_insert blk_cur blk_addr]
    else []), ?_, ?_, ?_⟩
  · simp [hk_append_dentry_write, List.append_assoc]
  · simp
  · intro e he
    rw [List.mem_append, List.mem_append] at he
    rcases he with (he | he) | he
    · exact hpre e he
    · simp at he
      rcases he with h | h | h | h | h | h | h <;> rw [h] <;> rfl
    · cases isnew
      · simp at he
      · simp at he
        rcases he with h | h | h | h <;> rw [h] <;> rfl

theorem write_ret (E : hk_env) (x : append_ext) (s : hk_state) (dir : Nat)
    (name : List Nat) (namelen ino link_change : Nat) (og : Bool)
    (blk_addr blk_cur dentry_ix : Nat) (isnew : Bool) (pre : List hk_event) :
    (hk_append_dentry_write E x s dir name namelen ino link_change og blk_addr blk_cur
      dentry_ix isnew pre).ret = some 0 := rfl

/-- Effects of a successful `hk_add_dentry` with `ino != 0`. -/
theorem add_dentry_trace (E : hk_env) (x : append_ext) (s : hk_state) (dentry : vfs_dentry)
    (ino link_change : Nat) (hino : ino ≠ 0)
    (hret : (hk_add_dentry E x s dentry ino link_change true).ret = some 0) :
    ∃ d before,
      (hk_add_dentry E x s dentry ino link_change true).out_direntry = some d ∧
      (hk_add_dentry E x s dentry ino link_change true).st.trace =
        s.trace ++ before ++
          [hk_event.flush_buffer d false, hk_event.alloc_dentry_info x.di_alloc] ∧
      hk_event.st_dentry_valid d 1 ∈ before ∧
      ∀ e ∈ before, touches_inode_record e = false := by
  have hcases : ∃ blk_addr isnew pre,
      hk_add_dentry E x s dentry ino link_change true =
        hk_append_dentry_write E x s dentry.d_parent dentry.d_name dentry.d_len ino
          link_change true blk_addr
          ((s.headers dentry.d_parent).i_num_dentrys / E.MAX_DENTRY_PER_BLK)
          ((s.headers dentry.d_parent).i_num_dentrys % E.MAX_DENTRY_PER_BLK) isnew pre ∧
      ∀ e ∈ pre, touches_inode_record e = false := by
    unfold hk_add_dentry at hret ⊢
    by_cases hl : dentry.d_len = 0
    · rw [if_pos hl] at hret
      simp [EINVAL] at hret
    · rw [if_neg hl] at hret ⊢
      rcases append_pre E x s dentry.d_parent dentry.d_name dentry.d_len ino link_change true
        hino with h | h
      · rw [h] at hret; cases hret
      · exact h
  obtain ⟨blk, isnew, pre, hw, hpre⟩ := hcases
  obtain ⟨before, htr, hmem, hno⟩ := write_trace E x s dentry.d_parent dentry.d_name
    dentry.d_len ino link_change true blk
    ((s.headers dentry.d_parent).i_num_dentrys / E.MAX_DENTRY_PER_BLK)
    ((s.headers dentry.d_parent).i_num_dentrys % E.MAX_DENTRY_PER_BLK) isnew pre hpre
  rw [hw]
  exact ⟨_, before, rfl, htr, hmem, hno⟩

/-! ## C1 -/

/-- C1. Create/lookup round trip: when `hk_append_dentry_innvm` is called with `ino != 0`
and a NUL-terminated name of length `namelen`, returns 0 and its index node was allocated,
`hk_inode_by_name` for that name returns `ino` and hands back the record the append wrote
(the pointer stored in `out_direntry`), which has `valid = 1`, that name and that `ino`;
the store of `valid = 1` to that record is in the trace.  Nothing is assumed about the
entries the index held before. -/
theorem append_lookup_round_trip (E : hk_env) (x : append_ext) (s : hk_state) (dir : Nat)
    (name : List Nat) (namelen ino link_change : Nat)
    (hino : ino ≠ 0) (hlen : namelen = name.length) (halloc : x.di_alloc = true)
    (hret : (hk_append_dentry_innvm E x s dir name namelen ino link_change true).ret
      = some 0) :
    ∃ d, (hk_append_dentry_innvm E x s dir name namelen ino link_change true).out_direntry
        = some d ∧
      hk_inode_by_name E (hk_append_dentry_innvm E x s dir name namelen ino link_change
        true).st dir name namelen = (ino, some d) ∧
      ((hk_append_dentry_innvm E x s dir name namelen ino link_change true).st.pm d).valid
        = 1 ∧
      ((hk_append_dentry_innvm E x s dir name namelen ino link_change true).st.pm d).name
        = name ∧
      ((hk_append_dentry_innvm E x s dir name namelen ino link_change true).st.pm d).ino
        = ino ∧
      hk_event.st_dentry_valid d 1 ∈
        (hk_append_dentry_innvm E x s dir name namelen ino link_change true).st.trace := by
  rcases append_cases E x s dir name namelen ino link_change true hino with h | ⟨a, n, p, h, _⟩
  · rw [h] at hret; cases hret
  · rw [h]
    refine ⟨hk_dentry_by_ix_from_blk E a _, rfl, write_lookup E x s dir name namelen ino
      link_change true a _ _ n p hlen halloc, ?_, ?_, ?_, ?_⟩
    · simp [hk_append_dentry_write]
    · simp [hk_append_dentry_write, hlen]
    · simp [hk_append_dentry_write]
    · simp [hk_append_dentry_write]

/-- The round trip of C1 for the name "foo" and inode 5 in the empty directory 2. -/
theorem append_lookup_round_trip_witness :
    ∃ d, (hk_append_dentry_innvm env0 (ext_ok 8192) state0 2 [102, 111, 111] 3 5 0
        true).out_direntry = some d ∧
      hk_inode_by_name env0 (hk_append_dentry_innvm env0 (ext_ok 8192) state0 2
        [102, 111, 111] 3 5 0 true).st 2 [102, 111, 111] 3 = (5, some d) ∧
      ((hk_append_dentry_innvm env0 (ext_ok 8192) state0 2 [102, 111, 111] 3 5 0
        true).st.pm d).valid = 1 ∧
      ((hk_append_dentry_innvm env0 (ext_ok 8192) state0 2 [102, 111, 111] 3 5 0
        true).st.pm d).name = [102, 111, 111] ∧
      ((hk_append_dentry_innvm env0 (ext_ok 8192) state0 2 [102, 111, 111] 3 5 0
        true).st.pm d).ino = 5 ∧
      hk_event.st_dentry_valid d 1 ∈
        (hk_append_dentry_innvm env0 (ext_ok 8192) state0 2 [102, 111, 111] 3 5 0
          true).st.trace :=
  append_lookup_round_trip env0 (ext_ok 8192) state0 2 [102, 111, 111] 3 5 0
    (by decide) (by decide) (by decide) (by decide)

/-! ## C2 -/

/-- C2, as stated, fails: in directory 2 the name "a" is appended for inode 5 and again
for inode 6 (both calls return 0); the removal call then returns 0, and the lookup of "a"
still finds the first record, inode 5, instead of not-found. -/
theorem removal_lookup_counterexample :
    (hk_append_dentry_innvm env0 (ext_ok 8192) state0 2 [97] 1 5 0 true).ret = some 0 ∧
    (hk_append_dentry_innvm env0 (ext_ok 8192)
      (hk_append_dentry_innvm env0 (ext_ok 8192) state0 2 [97] 1 5 0 true).st
      2 [97] 1 6 0 true).ret = some 0 ∧
    (hk_append_dentry_innvm env0 (ext_ok 0) dup_state 2 [97] 1 0 0 true).ret = some 0 ∧
    hk_inode_by_name env0
      (hk_append_dentry_innvm env0 (ext_ok 0) dup_state 2 [97] 1 0 0 true).st 2 [97] 1
      = (5, some 8192) ∧
    (5 : Nat) ≠ INO_NONE := by
  decide

/-- C2, amended: when the bucket of the name holds at most one node whose record carries
the name (`name_count`), then after `hk_append_dentry_innvm(dir, name, namelen, 0, ...)`, whatever it
returned, `hk_inode_by_name(dir, name)` returns not-found, `(ino_t)-1`, and stores no
record pointer. -/
theorem remove_then_lookup (E : hk_env) (x : append_ext) (s : hk_state) (dir : Nat)
    (name : List Nat) (namelen link_change : Nat) (og : Bool)
    (huniq : name_count E s dir name namelen ≤ 1) :
    hk_inode_by_name E (hk_append_dentry_innvm E x s dir name namelen 0 link_change og).st
      dir name namelen = (INO_NONE, none) := by
  unfold name_count at huniq
  unfold hk_append_dentry_innvm
  rw [if_pos rfl]
  unfold hk_append_dentry_remove
  cases hs : hk_search_dir_table E s.pm (s.headers dir) name namelen with
  | none => simp only [hk_inode_by_name, hs]
  | some di =>
    simp only [hk_inode_by_name, hk_search_dir_table, hk_remove_dir_table,
      Function.update_same, invalidate_name]
    rw [find_eraseP_none _ _ huniq]

/-- The amended C2 on directory 2 holding the single name "foo". -/
theorem remove_then_lookup_witness :
    hk_inode_by_name env0 (hk_append_dentry_innvm env0 (ext_ok 0)
      (hk_append_dentry_innvm env0 (ext_ok 8192) state0 2 [102, 111, 111] 3 5 0 true).st
      2 [102, 111, 111] 3 0 0 true).st 2 [102, 111, 111] 3 = (INO_NONE, none) :=
  remove_then_lookup env0 (ext_ok 0)
    (hk_append_dentry_innvm env0 (ext_ok 8192) state0 2 [102, 111, 111] 3 5 0 true).st
    2 [102, 111, 111] 3 0 true (by decide)

/-! ## C7 -/

/-- C7, as stated, fails: directory 2 is empty (slot 0 of block 0, nothing in linix), no
layout is prepared and `hk_prepare_gap` leaves `target_addr = 0`; the append reaches
`BUG_ON(1)` and does not return, so `-ENOSPC` is not returned. -/
theorem append_out_of_space_counterexample :
    (hk_append_dentry_innvm env0 ⟨1, none, 0, true, 7⟩ state0 2 [97] 1 5 0 true).ret = none ∧
    (hk_append_dentry_innvm env0 ⟨1, none, 0, true, 7⟩ state0 2 [97] 1 5 0 true).ret
      ≠ some (-ENOSPC) := by
  decide

/-- C7, amended: when an append with `ino != 0` needs a new dentry block (slot index 0
and `linix_get` of the current logical block is 0), `hk_trv_prepared_layouts` yields no
prepared block and `hk_prepare_gap` yields target address 0, the append stops at
`BUG_ON(1)` without returning, and up to that point nothing was stored: no dentry record,
no header (`i_num_dentrys`, linix, directory index), no inode and no inode record has
changed, and the only effects are the two allocator calls. -/
theorem append_out_of_space (E : hk_env) (x : append_ext) (s : hk_state) (dir : Nat)
    (name : List Nat) (namelen ino link_change : Nat) (og : Bool)
    (hino : ino ≠ 0)
    (hslot : (s.headers dir).i_num_dentrys % E.MAX_DENTRY_PER_BLK = 0)
    (hlinix : linix_get (s.headers dir).ix
      ((s.headers dir).i_num_dentrys / E.MAX_DENTRY_PER_BLK) = 0)
    (hprep : x.prep = none) (hgap : x.gap = 0) :
    (hk_append_dentry_innvm E x s dir name namelen ino link_change og).ret = none ∧
    (hk_append_dentry_innvm E x s dir name namelen ino link_change og).out_direntry = none ∧
    (hk_append_dentry_innvm E x s dir name namelen ino link_change og).st.pm = s.pm ∧
    (hk_append_dentry_innvm E x s dir name namelen ino link_change og).st.headers
      = s.headers ∧
    (hk_append_dentry_innvm E x s dir name namelen ino link_change og).st.inodes
      = s.inodes ∧
    (hk_append_dentry_innvm E x s dir name namelen ino link_change og).st.pi_valid
      = s.pi_valid ∧
    (hk_append_dentry_innvm E x s dir name namelen ino link_change og).st.trace
      = s.trace ++ [hk_event.prepare_layouts, hk_event.prepare_gap] := by
  unfold hk_append_dentry_innvm
  rw [if_neg hino]
  simp only []
  rw [if_pos ⟨hslot, hlinix⟩, hprep]
  simp only []
  rw [if_pos hgap]
  exact ⟨rfl, rfl, rfl, rfl, rfl, rfl, rfl⟩

/-- The amended C7 on the empty directory 2. -/
theorem append_out_of_space_witness :
    (hk_append_dentry_innvm env0 ⟨1, none, 0, true, 7⟩ state0 2 [98] 1 5 0 true).ret = none ∧
    (hk_append_dentry_innvm env0 ⟨1, none, 0, true, 7⟩ state0 2 [98] 1 5 0
      true).out_direntry = none ∧
    (hk_append_dentry_innvm env0 ⟨1, none, 0, true, 7⟩ state0 2 [98] 1 5 0 true).st.pm
      = state0.pm ∧
    (hk_append_dentry_innvm env0 ⟨1, none, 0, true, 7⟩ state0 2 [98] 1 5 0 true).st.headers
      = state0.headers ∧
    (hk_append_dentry_innvm env0 ⟨1, none, 0, true, 7⟩ state0 2 [98] 1 5 0 true).st.inodes
      = state0.inodes ∧
    (hk_append_dentry_innvm env0 ⟨1, none, 0, true, 7⟩ state0 2 [98] 1 5 0 true).st.pi_valid
      = state0.pi_valid ∧
    (hk_append_dentry_innvm env0 ⟨1, none, 0, true, 7⟩ state0 2 [98] 1 5 0 true).st.trace
      = state0.trace ++ [hk_event.prepare_layouts, hk_event.prepare_gap] :=
  append_out_of_space env0 ⟨1, none, 0, true, 7⟩ state0 2 [98] 1 5 0 true
    (by decide) (by decide) (by decide) rfl rfl

/-! ## C8 -/

/-- C8, as stated, fails.  In the empty directory 2 the name "a" is appended for inode 5
and `hk_alloc_hk_dentry_info` fails: `hk_insert_dir_table` yields `-ENOMEM`, but
`hk_append_dentry_innvm` returns 0, the record at 8192 has been written with `valid = 1`
(it was 0), `i_num_dentrys` went from 0 to 1, and the name is not in the index. -/
theorem append_index_alloc_failure_counterexample :
    (hk_insert_dir_table env0 header0 [97] 1 8192 false).1 = some (-ENOMEM) ∧
    (hk_append_dentry_innvm env0 ⟨1, some 8192, 0, false, 7⟩ state0 2 [97] 1 5 0 true).ret
      = some 0 ∧
    (state0.pm 8192).valid = 0 ∧
    ((hk_append_dentry_innvm env0 ⟨1, some 8192, 0, false, 7⟩ state0 2 [97] 1 5 0
      true).st.pm 8192).valid = 1 ∧
    (state0.headers 2).i_num_dentrys = 0 ∧
    ((hk_append_dentry_innvm env0 ⟨1, some 8192, 0, false, 7⟩ state0 2 [97] 1 5 0
      true).st.headers 2).i_num_dentrys = 1 ∧
    hk_inode_by_name env0 (hk_append_dentry_innvm env0 ⟨1, some 8192, 0, false, 7⟩ state0 2
      [97] 1 5 0 true).st 2 [97] 1 = (INO_NONE, none) := by
  decide

/-- C8, amended: when the allocation of the index node fails during an append with
`ino != 0` that does not stop at `BUG_ON(1)`, the allocation is attempted only after the
dentry record of the call was stored with `valid = 1` and flushed: the record is valid,
`i_num_dentrys` has been incremented, and the directory index is unchanged. -/
theorem append_index_alloc_failure_design (E : hk_env) (x : append_ext) (s : hk_state)
    (dir : Nat) (name : List Nat) (namelen ino link_change : Nat)
    (hino : ino ≠ 0) (halloc : x.di_alloc = false)
    (hret : (hk_append_dentry_innvm E x s dir name namelen ino link_change true).ret ≠ none) :
    ∃ d before,
      (hk_append_dentry_innvm E x s dir name namelen ino link_change true).out_direntry
        = some d ∧
      ((hk_append_dentry_innvm E x s dir name namelen ino link_change true).st.pm d).valid
        = 1 ∧
      (hk_append_dentry_innvm E x s dir name namelen ino link_change true).st.trace =
        s.trace ++ before ++
          [hk_event.flush_buffer d false, hk_event.alloc_dentry_info false] ∧
      hk_event.st_dentry_valid d 1 ∈ before ∧
      ((hk_append_dentry_innvm E x s dir name namelen ino link_change true).st.headers
        dir).i_num_dentrys = (s.headers dir).i_num_dentrys + 1 ∧
      ((hk_append_dentry_innvm E x s dir name namelen ino link_change true).st.headers
        dir).dirs = (s.headers dir).dirs := by
  rcases append_pre E x s dir name namelen ino link_change true hino with
    h | ⟨blk, isnew, pre, h, hpre⟩
  · exact absurd h hret
  · obtain ⟨before, htr, hmem, _⟩ := write_trace E x s dir name namelen ino link_change true
      blk ((s.headers dir).i_num_dentrys / E.MAX_DENTRY_PER_BLK)
      ((s.headers dir).i_num_dentrys % E.MAX_DENTRY_PER_BLK) isnew pre hpre
    rw [h]
    rw [halloc] at htr
    refine ⟨_, before, rfl, ?_, htr, hmem, ?_, ?_⟩
    · simp [hk_append_dentry_write]
    · simp [hk_append_dentry_write, hk_insert_dir_table, halloc]
    · simp [hk_append_dentry_write, hk_insert_dir_table, halloc]

/-- The amended C8 for the name "a" in the empty directory 2. -/
theorem append_index_alloc_failure_design_witness :
    ∃ d before,
      (hk_append_dentry_innvm env0 ⟨1, some 8192, 0, false, 7⟩ state0 2 [97] 1 5 0
        true).out_direntry = some d ∧
      ((hk_append_dentry_innvm env0 ⟨1, some 8192, 0, false, 7⟩ state0 2 [97] 1 5 0
        true).st.pm d).valid = 1 ∧
      (hk_append_dentry_innvm env0 ⟨1, some 8192, 0, false, 7⟩ state0 2 [97] 1 5 0
        true).st.trace = state0.trace ++ before ++
          [hk_event.flush_buffer d false, hk_event.alloc_dentry_info false] ∧
      hk_event.st_dentry_valid d 1 ∈ before ∧
      ((hk_append_dentry_innvm env0 ⟨1, some 8192, 0, false, 7⟩ state0 2 [97] 1 5 0
        true).st.headers 2).i_num_dentrys = (state0.headers 2).i_num_dentrys + 1 ∧
      ((hk_append_dentry_innvm env0 ⟨1, some 8192, 0, false, 7⟩ state0 2 [97] 1 5 0
        true).st.headers 2).dirs = (state0.headers 2).dirs :=
  append_index_alloc_failure_design env0 ⟨1, some 8192, 0, false, 7⟩ state0 2 [97] 1 5 0
    (by decide) rfl (by decide)

/-! ## The index and the dentry log -/

theorem eraseP_eq_erase_of_find {α : Type} [DecidableEq α] (q : α → Bool) (l : List α) (e : α)
    (h : l.find? q = some e) : l.eraseP q = l.erase e := by
  induction l with
  | nil => simp at h
  | cons a t ih =>
    by_cases hq : q a = true
    · rw [List.find?_cons_of_pos _ hq] at h
      cases h
      rw [List.eraseP_cons_of_pos hq, List.erase_cons_head]
    · rw [List.find?_cons_of_neg _ hq] at h
      have hqe : q e = true := List.find?_some h
      have hne : a ≠ e := by
        intro hae; rw [hae] at hq; exact hq hqe
      rw [List.eraseP_cons_of_neg hq, List.erase_cons_tail (by simpa using hne), ih h]

/-- The buckets of the rebuilt index, in closed form. -/
theorem rebuild_fold (E : hk_env) (pm : Nat → hk_dentry) (l : List Nat)
    (h : hk_inode_info_header) (bkt : Nat) :
    ((l.foldl
      (fun h a =>
        if (pm a).valid = 1 then
          (hk_insert_dir_table E h (pm a).name (pm a).name_len a true).2
        else h) h).dirs bkt) = log_bucket E pm l bkt ++ h.dirs bkt := by
  induction l generalizing h with
  | nil => simp [log_bucket]
  | cons a t ih =>
    rw [List.foldl_cons, ih]
    unfold log_bucket
    rw [List.reverse_cons, List.filter_append, List.map_append, List.append_assoc]
    congr 1
    by_cases hv : (pm a).valid = 1
    · by_cases hb : hk_bucket E (pm a).name (pm a).name_len = bkt
      · rw [if_pos hv]
        simp only [hk_insert_dir_table, if_true, hash_add_bits]
        have hb2 : E.hash_min (E.BKDRHash (pm a).name (pm a).name_len) E.HK_HASH_BITS = bkt := hb
        rw [hb2, Function.update_same]
        simp [List.filter_cons, hv, hb]
      · rw [if_pos hv]
        simp only [hk_insert_dir_table, if_true, hash_add_bits]
        have hb2 : ¬ E.hash_min (E.BKDRHash (pm a).name (pm a).name_len) E.HK_HASH_BITS = bkt := hb
        rw [Function.update_noteq (Ne.symm hb2)]
        simp [List.filter_cons, hv, hb]
    · rw [if_neg hv]
      simp [List.filter_cons, hv]

theorem rebuild_dirs (E : hk_env) (pm : Nat → hk_dentry) (sih : hk_inode_info_header)
    (bkt : Nat) :
    (spec_rebuild_dir_table E pm sih).dirs bkt = log_bucket E pm (log_slots E sih) bkt := by
  unfold spec_rebuild_dir_table
  rw [rebuild_fold]
  simp

theorem mem_log_bucket (E : hk_env) (pm : Nat → hk_dentry) (slots : List Nat) (bkt : Nat)
    (e : hk_dentry_info) :
    e ∈ log_bucket E pm slots bkt ↔
      e.direntry ∈ slots ∧ (pm e.direntry).valid = 1 ∧
      hk_bucket E (pm e.direntry).name (pm e.direntry).name_len = bkt ∧
      e.hash = E.BKDRHash (pm e.direntry).name (pm e.direntry).name_len := by
  unfold log_bucket
  constructor
  · intro h
    rcases List.mem_map.mp h with ⟨a, ha, rfl⟩
    have := List.mem_filter.mp ha
    simpa using this
  · rintro ⟨h1, h2, h3, h4⟩
    refine List.mem_map.mpr ⟨e.direntry, List.mem_filter.mpr ⟨by simpa using h1, by simp [h2, h3]⟩, ?_⟩
    cases e
    simp at h4 ⊢
    exact h4.symm

theorem log_bucket_nodup (E : hk_env) (pm : Nat → hk_dentry) (slots : List Nat) (bkt : Nat)
    (h : slots.Nodup) : (log_bucket E pm slots bkt).Nodup := by
  unfold log_bucket
  refine List.Nodup.map ?_ ((List.nodup_reverse.mpr h).filter _)
  intro a b hab
  simpa using congrArg hk_dentry_info.direntry hab

theorem log_bucket_congr (E : hk_env) (pm pm2 : Nat → hk_dentry) (slots : List Nat)
    (bkt : Nat) (h : ∀ a ∈ slots, pm2 a = pm a) :
    log_bucket E pm2 slots bkt = log_bucket E pm slots bkt := by
  unfold log_bucket
  have hf : slots.reverse.filter
      (fun a => (pm2 a).valid == 1 && hk_bucket E (pm2 a).name (pm2 a).name_len == bkt) =
      slots.reverse.filter
      (fun a => (pm a).valid == 1 && hk_bucket E (pm a).name (pm a).name_len == bkt) := by
    apply List.filter_congr
    intro a ha
    rw [h a (List.mem_reverse.mp ha)]
  rw [hf]
  apply List.map_congr_left
  intro a ha
  rw [h a (List.mem_reverse.mp (List.mem_filter.mp ha).1)]

theorem log_bucket_snoc (E : hk_env) (pm : Nat → hk_dentry) (slots : List Nat) (d bkt : Nat) :
    log_bucket E pm (slots ++ [d]) bkt =
      (if (pm d).valid = 1 ∧ hk_bucket E (pm d).name (pm d).name_len = bkt then
        [⟨E.BKDRHash (pm d).name (pm d).name_len, d⟩] else []) ++
      log_bucket E pm slots bkt := by
  unfold log_bucket
  rw [List.reverse_append, List.reverse_singleton, List.singleton_append, List.filter_cons]
  by_cases h : (pm d).valid = 1 ∧ hk_bucket E (pm d).name (pm d).name_len = bkt
  · rw [if_pos h, if_pos (by simp [h.1, h.2])]
    rfl
  · rw [if_neg h, if_neg (by simpa using h)]
    rfl

theorem log_slots_succ (E : hk_env) (sih sih2 : hk_inode_info_header) (d : Nat)
    (hn : sih2.i_num_dentrys = sih.i_num_dentrys + 1)
    (hix : ∀ k, k < sih.i_num_dentrys →
      sih2.ix (k / E.MAX_DENTRY_PER_BLK) = sih.ix (k / E.MAX_DENTRY_PER_BLK))
    (hd : log_slot_addr E sih2 sih.i_num_dentrys = d) :
    log_slots E sih2 = log_slots E sih ++ [d] := by
  unfold log_slots
  rw [hn, List.range_succ, List.map_append, List.map_singleton, hd]
  congr 1
  apply List.map_congr_left
  intro k hk
  unfold log_slot_addr linix_get
  rw [hix k (List.mem_range.mp hk)]

theorem write_preserves (E : hk_env) (x : append_ext) (s : hk_state) (dir : Nat)
    (name : List Nat) (namelen ino link_change : Nat) (og : Bool)
    (blk_addr : Nat) (isnew : Bool) (pre : List hk_event)
    (hmax : 0 < E.MAX_DENTRY_PER_BLK)
    (hcase : (isnew = false ∧ blk_addr = E.TRANS_OFS_TO_ADDR (linix_get (s.headers dir).ix
        ((s.headers dir).i_num_dentrys / E.MAX_DENTRY_PER_BLK))) ∨
      (isnew = true ∧ (s.headers dir).i_num_dentrys % E.MAX_DENTRY_PER_BLK = 0 ∧
        E.TRANS_OFS_TO_ADDR (E.TRANS_ADDR_TO_OFS blk_addr) = blk_addr))
    (hlen : namelen = name.length) (halloc : x.di_alloc = true)
    (hfresh : hk_dentry_by_ix_from_blk E blk_addr
      ((s.headers dir).i_num_dentrys % E.MAX_DENTRY_PER_BLK) ∉ log_slots E (s.headers dir))
    (hinv : index_is_log E s.pm (s.headers dir)) :
    index_is_log E
      (hk_append_dentry_write E x s dir name namelen ino link_change og blk_addr
        ((s.headers dir).i_num_dentrys / E.MAX_DENTRY_PER_BLK)
        ((s.headers dir).i_num_dentrys % E.MAX_DENTRY_PER_BLK) isnew pre).st.pm
      ((hk_append_dentry_write E x s dir name namelen ino link_change og blk_addr
        ((s.headers dir).i_num_dentrys / E.MAX_DENTRY_PER_BLK)
        ((s.headers dir).i_num_dentrys % E.MAX_DENTRY_PER_BLK) isnew pre).st.headers dir) := by
  obtain ⟨hnd, hb⟩ := hinv
  subst hlen
  simp only [hk_append_dentry_write, hk_insert_dir_table, halloc, if_true,
    Function.update_same, List.take_length]
  have hslots : log_slots E
      { dirs := hash_add_bits E (s.headers dir).dirs
          ⟨E.BKDRHash name name.length, hk_dentry_by_ix_from_blk E blk_addr
            ((s.headers dir).i_num_dentrys % E.MAX_DENTRY_PER_BLK)⟩,
        i_num_dentrys := (s.headers dir).i_num_dentrys + 1,
        ix := if isnew = true then linix_insert E (s.headers dir).ix
          ((s.headers dir).i_num_dentrys / E.MAX_DENTRY_PER_BLK) blk_addr
          else (s.headers dir).ix } =
      log_slots E (s.headers dir) ++ [hk_dentry_by_ix_from_blk E blk_addr
        ((s.headers dir).i_num_dentrys % E.MAX_DENTRY_PER_BLK)] := by
    apply log_slots_succ
    · rfl
    · intro k hk
      rcases hcase with ⟨h1, _⟩ | ⟨h1, h2, _⟩
      · simp [h1]
      · simp only [h1, if_true, linix_insert]
        apply Function.update_noteq
        have hlt : k / E.MAX_DENTRY_PER_BLK <
            (s.headers dir).i_num_dentrys / E.MAX_DENTRY_PER_BLK := by
          rw [Nat.div_lt_iff_lt_mul hmax]
          have := Nat.div_add_mod (s.headers dir).i_num_dentrys E.MAX_DENTRY_PER_BLK
          rw [h2, Nat.add_zero, Nat.mul_comm] at this
          rw [this]; exact hk
        exact Nat.ne_of_lt hlt
    · rcases hcase with ⟨h1, h2⟩ | ⟨h1, _, h3⟩
      · simp [h1, log_slot_addr, h2]
      · simp [h1, log_slot_addr, linix_insert, linix_get, h3]
  unfold index_is_log
  rw [hslots]
  refine ⟨?_, ?_⟩
  · rw [List.nodup_append]
    refine ⟨hnd, List.nodup_singleton _, ?_⟩
    intro a ha hb2
    rw [List.mem_singleton] at hb2
    subst hb2
    exact hfresh ha
  · intro bkt
    rw [log_bucket_snoc]
    rw [log_bucket_congr E s.pm _ (log_slots E (s.headers dir)) bkt
      (fun a ha => Function.update_noteq (fun h => hfresh (by rw [← h]; exact ha)) _ _)]
    simp only [Function.update_same, hash_add_bits]
    by_cases hbk : hk_bucket E name name.length = bkt
    · have hbk2 : E.hash_min (E.BKDRHash name name.length) E.HK_HASH_BITS = bkt := hbk
      rw [hbk2, Function.update_same, if_pos ⟨trivial, hbk⟩, hb bkt]
      rfl
    · have hbk2 : ¬ E.hash_min (E.BKDRHash name name.length) E.HK_HASH_BITS = bkt := hbk
      rw [Function.update_noteq (Ne.symm hbk2), if_neg (fun h => hbk h.2), hb bkt]
      rfl

theorem invalidate_name_len (pm : Nat → hk_dentry) (d v a : Nat) :
    (dentry_invalidate pm d v a).name_len = (pm a).name_len := by
  unfold dentry_invalidate
  by_cases h : a = d
  · subst h; simp
  · simp [Function.update_noteq h]

theorem invalidate_valid (pm : Nat → hk_dentry) (d v : Nat) :
    (dentry_invalidate pm d v d).valid = 0 := by
  simp [dentry_invalidate]

theorem invalidate_other (pm : Nat → hk_dentry) (d v a : Nat) (h : a ≠ d) :
    dentry_invalidate pm d v a = pm a := by
  simp [dentry_invalidate, Function.update_noteq h]

theorem log_bucket_invalidate (E : hk_env) (pm : Nat → hk_dentry) (slots : List Nat)
    (d v bkt : Nat) :
    log_bucket E (dentry_invalidate pm d v) slots bkt =
      (log_bucket E pm slots bkt).filter (fun e => e.direntry != d) := by
  unfold log_bucket
  rw [List.filter_map, List.filter_filter]
  simp only [invalidate_name, invalidate_name_len]
  congr 1
  apply List.filter_congr
  intro a _
  by_cases h : a = d
  · subst h; simp [invalidate_valid]
  · simp [invalidate_other pm d v a h, h]

theorem remove_preserves (E : hk_env) (pm : Nat → hk_dentry) (sih : hk_inode_info_header)
    (name : List Nat) (namelen v : Nat) (di : hk_dentry_info)
    (hs : hk_search_dir_table E pm sih name namelen = some di)
    (hinv : index_is_log E pm sih) :
    index_is_log E (dentry_invalidate pm di.direntry v)
      (hk_remove_dir_table E (dentry_invalidate pm di.direntry v) sih name namelen) := by
  obtain ⟨hnd, hb⟩ := hinv
  unfold hk_search_dir_table at hs
  have hmem : di ∈ log_bucket E pm (log_slots E sih) (hk_bucket E name namelen) := by
    rw [← hb]; exact List.mem_of_find?_eq_some hs
  have hdi := (mem_log_bucket E pm _ _ di).mp hmem
  refine ⟨hnd, ?_⟩
  intro bkt
  have hsl : log_slots E (hk_remove_dir_table E (dentry_invalidate pm di.direntry v) sih
      name namelen) = log_slots E sih := rfl
  rw [hsl, log_bucket_invalidate]
  simp only [hk_remove_dir_table, invalidate_name]
  by_cases hbk : bkt = hk_bucket E name namelen
  · subst hbk
    rw [Function.update_same, eraseP_eq_erase_of_find _ _ di hs, hb]
    rw [(log_bucket_nodup E pm _ _ hnd).erase_eq_filter]
    apply List.filter_congr
    intro e he
    have hee := (mem_log_bucket E pm _ _ e).mp he
    cases e with
    | mk eh ed =>
      cases di with
      | mk dh dd =>
        simp only at hee hdi
        by_cases hd : ed = dd
        · subst hd
          simp [hee.2.2.2, hdi.2.2.2]
        · have hne : (⟨eh, ed⟩ : hk_dentry_info) ≠ ⟨dh, dd⟩ := by
            intro h
            exact hd (congrArg hk_dentry_info.direntry h)
          have h1 : ((⟨eh, ed⟩ : hk_dentry_info) != ⟨dh, dd⟩) = true := bne_iff_ne.mpr hne
          have h2 : (ed != dd) = true := bne_iff_ne.mpr hd
          rw [h1, h2]
  · rw [Function.update_noteq hbk, hb]
    symm
    rw [List.filter_eq_self]
    intro e he
    have hee := (mem_log_bucket E pm _ _ e).mp he
    simp only [bne_iff_ne, ne_eq]
    intro hd
    rw [hd] at hee
    exact hbk (hee.2.2.1.symm.trans hdi.2.2.1)

theorem call_preserves (E : hk_env) (s : hk_state) (dir : Nat) (c : dir_call)
    (hmax : 0 < E.MAX_DENTRY_PER_BLK)
    (hok : dir_call_ok E s dir c = true)
    (hinv : index_is_log E s.pm (s.headers dir)) :
    index_is_log E
      (hk_append_dentry_innvm E c.x s dir c.name c.namelen c.ino c.link_change true).st.pm
      ((hk_append_dentry_innvm E c.x s dir c.name c.namelen c.ino c.link_change
        true).st.headers dir) := by
  unfold dir_call_ok at hok
  simp only [Bool.and_eq_true, Bool.or_eq_true, beq_iff_eq] at hok
  obtain ⟨hret, hrest⟩ := hok
  by_cases hino : c.ino = 0
  · rw [hino] at hret ⊢
    unfold hk_append_dentry_innvm at hret ⊢
    rw [if_pos rfl] at hret ⊢
    unfold hk_append_dentry_remove at hret ⊢
    cases hs : hk_search_dir_table E s.pm (s.headers dir) c.name c.namelen with
    | none =>
      rw [hs] at hret
      simp [ENOENT] at hret
    | some di =>
      simp only [Function.update_same]
      exact remove_preserves E s.pm (s.headers dir) c.name c.namelen c.x.version di hs hinv
  · rcases hrest with h0 | ⟨⟨⟨hlen, halloc⟩, hround⟩, hfresh⟩
    · exact absurd h0 hino
    · rcases append_cases E c.x s dir c.name c.namelen c.ino c.link_change true hino with
        h | ⟨a, n, p, h, hcase⟩
      · rw [h] at hret; cases hret
      · rw [h] at hfresh ⊢
        apply write_preserves E c.x s dir c.name c.namelen c.ino c.link_change true a n p hmax
          _ hlen halloc _ hinv
        · rcases hcase with h1 | ⟨h1, h2, h3, h4⟩
          · exact Or.inl h1
          · refine Or.inr ⟨h1, h2, ?_⟩
            rw [h4]
            rcases hround with h5 | h5
            · simp [h2, h3] at h5
            · exact h5
        · simpa [hk_append_dentry_write] using hfresh

theorem run_preserves (E : hk_env) (dir : Nat) (calls : List dir_call) (s s2 : hk_state)
    (hmax : 0 < E.MAX_DENTRY_PER_BLK)
    (hinv : index_is_log E s.pm (s.headers dir))
    (hrun : dir_run E dir s calls = some s2) :
    index_is_log E s2.pm (s2.headers dir) := by
  induction calls generalizing s with
  | nil =>
    simp only [dir_run, Option.some.injEq] at hrun
    rw [← hrun]; exact hinv
  | cons c cs ih =>
    simp only [dir_run] at hrun
    by_cases hok : dir_call_ok E s dir c = true
    · rw [if_pos hok] at hrun
      exact ih _ (call_preserves E s dir c hmax hok hinv) hrun
    · rw [if_neg hok] at hrun
      cases hrun

/-! ## C3 -/

/-- C3, as stated, fails: in the empty directory 2 the name "a" is appended for inode 5
and `hk_alloc_hk_dentry_info` returns NULL.  The append returns 0; the log then holds the
record at 8192 with `valid = 1` and `rebuild` puts its node into bucket 1, while bucket 1
of the maintained index is empty: the index is not what `rebuild` produces, and the name
"a" of a valid record is not in the index. -/
theorem index_log_alloc_failure_counterexample :
    (hk_append_dentry_innvm env0 (ext_noalloc 8192) state0 2 [97] 1 5 0 true).ret = some 0 ∧
    ((hk_append_dentry_innvm env0 (ext_noalloc 8192) state0 2 [97] 1 5 0 true).st.pm
      8192).valid = 1 ∧
    8192 ∈ log_slots env0
      ((hk_append_dentry_innvm env0 (ext_noalloc 8192) state0 2 [97] 1 5 0 true).st.headers 2) ∧
    ((hk_append_dentry_innvm env0 (ext_noalloc 8192) state0 2 [97] 1 5 0 true).st.headers
      2).dirs 1 = [] ∧
    (spec_rebuild_dir_table env0
      (hk_append_dentry_innvm env0 (ext_noalloc 8192) state0 2 [97] 1 5 0 true).st.pm
      ((hk_append_dentry_innvm env0 (ext_noalloc 8192) state0 2 [97] 1 5 0 true).st.headers
        2)).dirs 1 = [⟨97, 8192⟩] ∧
    ((hk_append_dentry_innvm env0 (ext_noalloc 8192) state0 2 [97] 1 5 0 true).st.headers
      2).dirs ≠
      (spec_rebuild_dir_table env0
        (hk_append_dentry_innvm env0 (ext_noalloc 8192) state0 2 [97] 1 5 0 true).st.pm
        ((hk_append_dentry_innvm env0 (ext_noalloc 8192) state0 2 [97] 1 5 0 true).st.headers
          2)).dirs := by
  refine ⟨by decide, by decide, by decide, by decide, by decide, ?_⟩
  intro h
  have h1 := congrFun h 1
  revert h1
  decide

/-- C3, amended.  Index equals the log's valid records: after every sequence of entry
appends (`ino != 0`) and removals (`ino = 0`) that each return 0 and in which the index
node of every append is allocated, applied by `hk_append_dentry_innvm` to a directory that
starts with no entries and an empty index, the directory index is exactly the index that
`rebuild` produces from the dentry log; every index node references a record of the log
with `valid = 1` and lies in the bucket of that record's name; and the set of names
carried by the records of index nodes equals the set of names of the log records with
`valid = 1`. -/
theorem index_equals_log_valid_records (E : hk_env) (dir : Nat) (calls : List dir_call)
    (s0 s : hk_state)
    (hmax : 0 < E.MAX_DENTRY_PER_BLK)
    (hnum : (s0.headers dir).i_num_dentrys = 0)
    (hdirs : ∀ bkt, (s0.headers dir).dirs bkt = [])
    (hrun : dir_run E dir s0 calls = some s) :
    (s.headers dir).dirs = (spec_rebuild_dir_table E s.pm (s.headers dir)).dirs ∧
    (∀ bkt di, di ∈ (s.headers dir).dirs bkt →
      di.direntry ∈ log_slots E (s.headers dir) ∧ (s.pm di.direntry).valid = 1 ∧
      hk_bucket E (s.pm di.direntry).name (s.pm di.direntry).name_len = bkt) ∧
    (∀ name, (∃ bkt di, di ∈ (s.headers dir).dirs bkt ∧ (s.pm di.direntry).name = name) ↔
      (∃ a, a ∈ log_slots E (s.headers dir) ∧ (s.pm a).valid = 1 ∧ (s.pm a).name = name)) := by
  have h0 : index_is_log E s0.pm (s0.headers dir) := by
    unfold index_is_log log_slots
    rw [hnum]
    exact ⟨List.nodup_nil, fun bkt => by rw [hdirs bkt]; rfl⟩
  obtain ⟨_, hb⟩ := run_preserves E dir calls s0 s hmax h0 hrun
  refine ⟨?_, ?_, ?_⟩
  · funext bkt
    rw [rebuild_dirs, hb]
  · intro bkt di hdi
    rw [hb] at hdi
    have h := (mem_log_bucket E s.pm _ _ di).mp hdi
    exact ⟨h.1, h.2.1, h.2.2.1⟩
  · intro name
    constructor
    · rintro ⟨bkt, di, hdi, hn⟩
      rw [hb] at hdi
      have h := (mem_log_bucket E s.pm _ _ di).mp hdi
      exact ⟨di.direntry, h.1, h.2.1, hn⟩
    · rintro ⟨a, ha, hv, hn⟩
      refine ⟨hk_bucket E (s.pm a).name (s.pm a).name_len,
        ⟨E.BKDRHash (s.pm a).name (s.pm a).name_len, a⟩, ?_, hn⟩
      rw [hb]
      exact (mem_log_bucket E s.pm _ _ _).mpr ⟨ha, hv, rfl, rfl⟩

/-- The amended C3 on directory 2 after appending "a" to "e" over two blocks, the index
node allocated each time, and removing "c". -/
theorem index_equals_log_valid_records_witness :
    ((state_calls0 6).headers 2).dirs =
      (spec_rebuild_dir_table env0 (state_calls0 6).pm ((state_calls0 6).headers 2)).dirs ∧
    (∀ bkt di, di ∈ ((state_calls0 6).headers 2).dirs bkt →
      di.direntry ∈ log_slots env0 ((state_calls0 6).headers 2) ∧
      ((state_calls0 6).pm di.direntry).valid = 1 ∧
      hk_bucket env0 ((state_calls0 6).pm di.direntry).name
        ((state_calls0 6).pm di.direntry).name_len = bkt) ∧
    (∀ name, (∃ bkt di, di ∈ ((state_calls0 6).headers 2).dirs bkt ∧
        ((state_calls0 6).pm di.direntry).name = name) ↔
      (∃ a, a ∈ log_slots env0 ((state_calls0 6).headers 2) ∧
        ((state_calls0 6).pm a).valid = 1 ∧ ((state_calls0 6).pm a).name = name)) :=
  index_equals_log_valid_records env0 2 calls0 state0 (state_calls0 6) (by decide) rfl
    (fun _ => rfl)
    (by
      have h1 : dir_call_ok env0 (state_calls0 0) 2 ⟨ext_ok 8192, [97], 1, 5, 0⟩ = true := by
        decide
      have h2 : dir_call_ok env0 (state_calls0 1) 2 ⟨ext_ok 0, [98], 1, 6, 0⟩ = true := by
        decide
      have h3 : dir_call_ok env0 (state_calls0 2) 2 ⟨ext_ok 0, [99], 1, 7, 0⟩ = true := by
        decide
      have h4 : dir_call_ok env0 (state_calls0 3) 2 ⟨ext_ok 0, [100], 1, 8, 0⟩ = true := by
        decide
      have h5 : dir_call_ok env0 (state_calls0 4) 2 ⟨ext_ok 16384, [101], 1, 9, 0⟩ = true := by
        decide
      have h6 : dir_call_ok env0 (state_calls0 5) 2 ⟨ext_ok 0, [99], 1, 0, 0⟩ = true := by
        decide
      have e0 : state0 = state_calls0 0 := rfl
      have e1 : (hk_append_dentry_innvm env0 (ext_ok 8192) (state_calls0 0) 2 [97] 1 5 0
        true).st = state_calls0 1 := rfl
      have e2 : (hk_append_dentry_innvm env0 (ext_ok 0) (state_calls0 1) 2 [98] 1 6 0
        true).st = state_calls0 2 := rfl
      have e3 : (hk_append_dentry_innvm env0 (ext_ok 0) (state_calls0 2) 2 [99] 1 7 0
        true).st = state_calls0 3 := rfl
      have e4 : (hk_append_dentry_innvm env0 (ext_ok 0) (state_calls0 3) 2 [100] 1 8 0
        true).st = state_calls0 4 := rfl
      have e5 : (hk_append_dentry_innvm env0 (ext_ok 16384) (state_calls0 4) 2 [101] 1 9 0
        true).st = state_calls0 5 := rfl
      have e6 : (hk_append_dentry_innvm env0 (ext_ok 0) (state_calls0 5) 2 [99] 1 0 0
        true).st = state_calls0 6 := rfl
      rw [e0]
      simp only [dir_run, calls0, h1, e1, h2, e2, h3, e3, h4, e4, h5, e5, h6, e6, if_true])

/-! ## Lookups across removals and appends -/

theorem find_eraseP_disjoint {α : Type} (p q : α → Bool) (l : List α)
    (h : ∀ a, p a = true → q a = false) : (l.eraseP p).find? q = l.find? q := by
  induction l with
  | nil => rfl
  | cons a t ih =>
    by_cases hp : p a = true
    · rw [List.eraseP_cons_of_pos hp, List.find?_cons_of_neg _ (by simp [h a hp])]
    · rw [List.eraseP_cons_of_neg hp]
      by_cases hq : q a = true
      · rw [List.find?_cons_of_pos _ hq, List.find?_cons_of_pos _ hq]
      · rw [List.find?_cons_of_neg _ hq, List.find?_cons_of_neg _ hq, ih]

theorem find_congr_mem {α : Type} (p q : α → Bool) (l : List α)
    (h : ∀ a ∈ l, p a = q a) : l.find? p = l.find? q := by
  induction l with
  | nil => rfl
  | cons a t ih =>
    have ha := h a (List.mem_cons_self _ _)
    have ht := ih (fun b hb => h b (List.mem_cons_of_mem _ hb))
    by_cases hp : p a = true
    · rw [List.find?_cons_of_pos _ hp, List.find?_cons_of_pos _ (ha ▸ hp)]
    · rw [List.find?_cons_of_neg _ hp, List.find?_cons_of_neg _ (ha ▸ hp), ht]

theorem filter_eraseP_length_le {α : Type} (p q : α → Bool) (l : List α) :
    ((l.eraseP p).filter q).length ≤ (l.filter q).length :=
  ((List.eraseP_sublist l).filter q).length_le

theorem filter_eraseP_zero {α : Type} (p : α → Bool) (l : List α)
    (h : (l.filter p).length ≤ 1) : ((l.eraseP p).filter p).length = 0 := by
  have := find_eraseP_none p l h
  rw [List.find?_eq_none] at this
  rw [List.length_eq_zero, List.filter_eq_nil_iff]
  exact this

/-- Lookups read only the dentry records and the header of the directory. -/
theorem lookup_congr (E : hk_env) (s1 s2 : hk_state) (d : Nat) (name : List Nat) (len : Nat)
    (hpm : s1.pm = s2.pm) (hh : s1.headers d = s2.headers d) :
    hk_inode_by_name E s1 d name len = hk_inode_by_name E s2 d name len := by
  unfold hk_inode_by_name
  rw [hpm, hh]

theorem name_count_congr (E : hk_env) (s1 s2 : hk_state) (d : Nat) (name : List Nat)
    (len : Nat) (hpm : s1.pm = s2.pm) (hh : s1.headers d = s2.headers d) :
    name_count E s1 d name len = name_count E s2 d name len := by
  unfold name_count
  rw [hpm, hh]

theorem fresh_congr (s1 s2 : hk_state) (d a : Nat) (hh : s1.headers d = s2.headers d)
    (h : fresh_in s2 d a) : fresh_in s1 d a := by
  unfold fresh_in at h ⊢
  rw [hh]; exact h

/-- A removal call either changes nothing and fails, or invalidates the record of the
first node found for the name and unlinks that node. -/
theorem add_remove_shape (E : hk_env) (x : append_ext) (s : hk_state) (dentry : vfs_dentry)
    (lc : Nat) (og : Bool) :
    ((hk_add_dentry E x s dentry 0 lc og).ret ≠ some 0 ∧
      (hk_add_dentry E x s dentry 0 lc og).st = s) ∨
    ∃ di, hk_search_dir_table E s.pm (s.headers dentry.d_parent) dentry.d_name dentry.d_len
        = some di ∧
      (hk_add_dentry E x s dentry 0 lc og).ret = some 0 ∧
      (hk_add_dentry E x s dentry 0 lc og).st.pm
        = dentry_invalidate s.pm di.direntry x.version ∧
      (hk_add_dentry E x s dentry 0 lc og).st.headers
        = Function.update s.headers dentry.d_parent
          (hk_remove_dir_table E (dentry_invalidate s.pm di.direntry x.version)
            (s.headers dentry.d_parent) dentry.d_name dentry.d_len) := by
  unfold hk_add_dentry
  by_cases hl : dentry.d_len = 0
  · rw [if_pos hl]; left; exact ⟨by simp [EINVAL], rfl⟩
  · rw [if_neg hl]
    unfold hk_append_dentry_innvm
    rw [if_pos rfl]
    unfold hk_append_dentry_remove
    cases hs : hk_search_dir_table E s.pm (s.headers dentry.d_parent) dentry.d_name
      dentry.d_len with
    | none => left; exact ⟨by simp [ENOENT], rfl⟩
    | some di => right; exact ⟨di, rfl, rfl, rfl, rfl⟩

/-- Lookup after the stores and the unlink of a removal, for another name or directory. -/
theorem remove_lookup_other (E : hk_env) (s : hk_state) (dr : Nat) (n : List Nat) (len v a : Nat)
    (d : Nat) (name : List Nat) (len2 : Nat) (s2 : hk_state)
    (hpm : s2.pm = dentry_invalidate s.pm a v)
    (hh : s2.headers = Function.update s.headers dr
      (hk_remove_dir_table E (dentry_invalidate s.pm a v) (s.headers dr) n len))
    (hne : d ≠ dr ∨ name ≠ n) :
    hk_inode_by_name E s2 d name len2 = hk_inode_by_name E s d name len2 := by
  unfold hk_inode_by_name hk_search_dir_table
  rw [hpm, hh]
  simp only [invalidate_name, invalidate_ino]
  by_cases hd : d = dr
  · subst hd
    have hn : name ≠ n := by
      rcases hne with h | h
      · exact absurd rfl h
      · exact h
    rw [Function.update_same]
    simp only [hk_remove_dir_table, invalidate_name]
    by_cases hb : hk_bucket E name len2 = hk_bucket E n len
    · rw [hb, Function.update_same, find_eraseP_disjoint]
      intro e he
      have h1 : (s.pm e.direntry).name = n := by simpa using he
      simp [h1, Ne.symm hn]
    · rw [Function.update_noteq hb]
  · rw [Function.update_noteq hd]

theorem add_remove_lookup_other (E : hk_env) (x : append_ext) (s : hk_state)
    (dentry : vfs_dentry) (lc : Nat) (og : Bool) (d : Nat) (name : List Nat) (len2 : Nat)
    (hne : d ≠ dentry.d_parent ∨ name ≠ dentry.d_name) :
    hk_inode_by_name E (hk_add_dentry E x s dentry 0 lc og).st d name len2 =
      hk_inode_by_name E s d name len2 := by
  rcases add_remove_shape E x s dentry lc og with ⟨_, h⟩ | ⟨di, _, _, hpm, hh⟩
  · rw [h]
  · exact remove_lookup_other E s dentry.d_parent dentry.d_name dentry.d_len x.version
      di.direntry d name len2 _ hpm hh hne

theorem add_remove_count_le (E : hk_env) (x : append_ext) (s : hk_state)
    (dentry : vfs_dentry) (lc : Nat) (og : Bool) (d : Nat) (name : List Nat) (len2 : Nat) :
    name_count E (hk_add_dentry E x s dentry 0 lc og).st d name len2 ≤
      name_count E s d name len2 := by
  rcases add_remove_shape E x s dentry lc og with ⟨_, h⟩ | ⟨di, _, _, hpm, hh⟩
  · rw [h]
  · unfold name_count
    rw [hpm, hh]
    simp only [invalidate_name]
    by_cases hd : d = dentry.d_parent
    · subst hd
      rw [Function.update_same]
      simp only [hk_remove_dir_table, invalidate_name]
      by_cases hb : hk_bucket E name len2 = hk_bucket E dentry.d_name dentry.d_len
      · rw [hb, Function.update_same]
        exact filter_eraseP_length_le _ _ _
      · rw [Function.update_noteq hb]
    · rw [Function.update_noteq hd]

theorem add_remove_count_zero (E : hk_env) (x : append_ext) (s : hk_state)
    (dentry : vfs_dentry) (lc : Nat) (og : Bool)
    (hret : (hk_add_dentry E x s dentry 0 lc og).ret = some 0)
    (hc : name_count E s dentry.d_parent dentry.d_name dentry.d_len ≤ 1) :
    name_count E (hk_add_dentry E x s dentry 0 lc og).st dentry.d_parent dentry.d_name
      dentry.d_len = 0 := by
  rcases add_remove_shape E x s dentry lc og with ⟨h, _⟩ | ⟨di, _, _, hpm, hh⟩
  · exact absurd hret h
  · unfold name_count at hc ⊢
    rw [hpm, hh]
    simp only [invalidate_name, Function.update_same, hk_remove_dir_table]
    exact filter_eraseP_zero _ _ hc

theorem count_zero_lookup (E : hk_env) (s : hk_state) (d : Nat) (name : List Nat) (len : Nat)
    (h : name_count E s d name len = 0) :
    hk_inode_by_name E s d name len = (INO_NONE, none) := by
  unfold name_count at h
  rw [List.length_eq_zero, List.filter_eq_nil_iff] at h
  unfold hk_inode_by_name hk_search_dir_table
  rw [List.find?_eq_none.mpr h]

theorem add_remove_fresh (E : hk_env) (x : append_ext) (s : hk_state)
    (dentry : vfs_dentry) (lc : Nat) (og : Bool) (d a : Nat) (h : fresh_in s d a) :
    fresh_in (hk_add_dentry E x s dentry 0 lc og).st d a := by
  rcases add_remove_shape E x s dentry lc og with ⟨_, h2⟩ | ⟨di, _, _, _, hh⟩
  · rw [h2]; exact h
  · unfold fresh_in at h ⊢
    rw [hh]
    intro bkt e he
    by_cases hd : d = dentry.d_parent
    · subst hd
      rw [Function.update_same] at he
      simp only [hk_remove_dir_table] at he
      by_cases hb : bkt = hk_bucket E dentry.d_name dentry.d_len
      · rw [hb, Function.update_same] at he
        exact h _ e (List.mem_of_mem_eraseP he)
      · rw [Function.update_noteq hb] at he
        exact h _ e he
    · rw [Function.update_noteq hd] at he
      exact h _ e he

/-- A successful append call: the record written, and the node put at the head of the
bucket of the name when its allocation succeeded. -/
theorem add_append_shape (E : hk_env) (x : append_ext) (s : hk_state) (dentry : vfs_dentry)
    (ino lc : Nat) (hino : ino ≠ 0)
    (hret : (hk_add_dentry E x s dentry ino lc true).ret = some 0) :
    ∃ d_new r sih2,
      (hk_add_dentry E x s dentry ino lc true).out_direntry = some d_new ∧
      (hk_add_dentry E x s dentry ino lc true).st.pm = Function.update s.pm d_new r ∧
      r.name = dentry.d_name.take dentry.d_len ∧ r.ino = ino ∧ r.valid = 1 ∧
      (hk_add_dentry E x s dentry ino lc true).st.headers
        = Function.update s.headers dentry.d_parent sih2 ∧
      sih2.dirs = (if x.di_alloc = true then
        hash_add_bits E (s.headers dentry.d_parent).dirs
          ⟨E.BKDRHash dentry.d_name dentry.d_len, d_new⟩
        else (s.headers dentry.d_parent).dirs) := by
  unfold hk_add_dentry at hret ⊢
  by_cases hl : dentry.d_len = 0
  · rw [if_pos hl] at hret
    simp [EINVAL] at hret
  · rw [if_neg hl] at hret ⊢
    rcases append_pre E x s dentry.d_parent dentry.d_name dentry.d_len ino lc true hino with
      h | ⟨blk, isnew, pre, h, _⟩
    · rw [h] at hret; cases hret
    · rw [h]
      refine ⟨_, _, _, rfl, rfl, rfl, rfl, rfl, rfl, ?_⟩
      cases hx : x.di_alloc <;> simp [hk_insert_dir_table, hx]

theorem append_lookup_same (E : hk_env) (s s2 : hk_state) (da : Nat) (n : List Nat)
    (d_new : Nat) (r : hk_dentry) (sih2 : hk_inode_info_header)
    (hpm : s2.pm = Function.update s.pm d_new r) (hname : r.name = n)
    (hh : s2.headers = Function.update s.headers da sih2)
    (hdirs : sih2.dirs = hash_add_bits E (s.headers da).dirs ⟨E.BKDRHash n n.length, d_new⟩) :
    hk_inode_by_name E s2 da n n.length = (r.ino, some d_new) := by
  unfold hk_inode_by_name hk_search_dir_table
  rw [hpm, hh, Function.update_same, hdirs]
  simp [hash_add_bits, hk_bucket, hname]

theorem append_lookup_other (E : hk_env) (s s2 : hk_state) (da : Nat) (n : List Nat)
    (d_new : Nat) (r : hk_dentry) (sih2 : hk_inode_info_header) (alloc : Bool)
    (d : Nat) (name : List Nat) (len2 : Nat)
    (hpm : s2.pm = Function.update s.pm d_new r) (hname : r.name = n)
    (hh : s2.headers = Function.update s.headers da sih2)
    (hdirs : sih2.dirs = (if alloc = true then
      hash_add_bits E (s.headers da).dirs ⟨E.BKDRHash n n.length, d_new⟩
      else (s.headers da).dirs))
    (hfresh : fresh_in s d d_new) (hne : d ≠ da ∨ name ≠ n) :
    hk_inode_by_name E s2 d name len2 = hk_inode_by_name E s d name len2 := by
  have hold : ∀ l : List hk_dentry_info, (∀ e ∈ l, e.direntry ≠ d_new) →
      (match l.find? (fun cur => (Function.update s.pm d_new r cur.direntry).name == name) with
        | none => (INO_NONE, none)
        | some di => ((Function.update s.pm d_new r di.direntry).ino, some di.direntry)) =
      (match l.find? (fun cur => (s.pm cur.direntry).name == name) with
        | none => (INO_NONE, (none : Option Nat))
        | some di => ((s.pm di.direntry).ino, some di.direntry)) := by
    intro l hl
    rw [find_congr_mem _ (fun cur => (s.pm cur.direntry).name == name) l
      (fun e he => by rw [Function.update_noteq (hl e he)])]
    cases hf : l.find? (fun cur => (s.pm cur.direntry).name == name) with
    | none => rfl
    | some di =>
      simp only []
      rw [Function.update_noteq (hl di (List.mem_of_find?_eq_some hf))]
  unfold hk_inode_by_name hk_search_dir_table
  rw [hpm, hh]
  by_cases hd : d = da
  · subst hd
    have hn : name ≠ n := by
      rcases hne with h | h
      · exact absurd rfl h
      · exact h
    rw [Function.update_same, hdirs]
    cases alloc
    · simp only [Bool.false_eq_true, if_false]
      exact hold _ (fun e he => hfresh _ e he)
    · simp only [if_true, hash_add_bits]
      by_cases hb : hk_bucket E name len2 = E.hash_min (E.BKDRHash n n.length) E.HK_HASH_BITS
      · rw [hb, Function.update_same,
          List.find?_cons_of_neg _ (by simp [hname, Ne.symm hn])]
        exact hold _ (fun e he => hfresh _ e he)
      · rw [Function.update_noteq hb]
        exact hold _ (fun e he => hfresh _ e he)
  · rw [Function.update_noteq hd]
    exact hold _ (fun e he => hfresh _ e he)

theorem append_count (E : hk_env) (s s2 : hk_state) (da : Nat) (n : List Nat)
    (d_new : Nat) (r : hk_dentry) (sih2 : hk_inode_info_header) (alloc : Bool)
    (d : Nat) (name : List Nat) (len2 : Nat)
    (hpm : s2.pm = Function.update s.pm d_new r) (hname : r.name = n)
    (hh : s2.headers = Function.update s.headers da sih2)
    (hdirs : sih2.dirs = (if alloc = true then
      hash_add_bits E (s.headers da).dirs ⟨E.BKDRHash n n.length, d_new⟩
      else (s.headers da).dirs))
    (hfresh : fresh_in s d d_new) :
    name_count E s2 d name len2 ≤ name_count E s d name len2 + 1 ∧
    ((d ≠ da ∨ name ≠ n) → name_count E s2 d name len2 = name_count E s d name len2) := by
  have hold : ∀ l : List hk_dentry_info, (∀ e ∈ l, e.direntry ≠ d_new) →
      l.filter (fun di => (Function.update s.pm d_new r di.direntry).name == name) =
      l.filter (fun di => (s.pm di.direntry).name == name) := by
    intro l hl
    apply List.filter_congr
    intro e he
    rw [Function.update_noteq (hl e he)]
  unfold name_count
  rw [hpm, hh]
  by_cases hd : d = da
  · subst hd
    rw [Function.update_same, hdirs]
    cases alloc
    · simp only [Bool.false_eq_true, if_false]
      rw [hold _ (fun e he => hfresh _ e he)]
      exact ⟨Nat.le_succ _, fun _ => rfl⟩
    · simp only [if_true, hash_add_bits]
      by_cases hb : hk_bucket E name len2 = E.hash_min (E.BKDRHash n n.length) E.HK_HASH_BITS
      · rw [hb, Function.update_same]
        rw [← hb]
        constructor
        · rw [List.filter_cons]
          split
          · rw [hold _ (fun e he => hfresh _ e he)]; simp
          · rw [hold _ (fun e he => hfresh _ e he)]; exact Nat.le_succ _
        · intro hne
          have hn : name ≠ n := by
            rcases hne with h | h
            · exact absurd rfl h
            · exact h
          rw [List.filter_cons_of_neg (by simp [hname, Ne.symm hn]),
            hold _ (fun e he => hfresh _ e he)]
      · rw [Function.update_noteq hb, hold _ (fun e he => hfresh _ e he)]
        exact ⟨Nat.le_succ _, fun _ => rfl⟩
  · rw [Function.update_noteq hd, hold _ (fun e he => hfresh _ e he)]
    exact ⟨Nat.le_succ _, fun _ => rfl⟩

/-! ## Steps of `hk_rename` -/

theorem rename_begin_frame (x : rename_ext) (s : hk_state) (old_inode : Nat) :
    (hk_rename_begin x s old_inode).pm = s.pm ∧
    (hk_rename_begin x s old_inode).headers = s.headers := ⟨rfl, rfl⟩

theorem rename_b_frame (E : hk_env) (x : rename_ext) (s : hk_state) (nd : vfs_dentry)
    (oi ndir : Nat) (inc : Int) :
    (hk_rename_b E x s nd oi ndir inc).ret = (hk_add_dentry E x.b s nd oi (to_u16 inc) true).ret ∧
    (hk_rename_b E x s nd oi ndir inc).out_direntry
      = (hk_add_dentry E x.b s nd oi (to_u16 inc) true).out_direntry ∧
    (hk_rename_b E x s nd oi ndir inc).st.pm
      = (hk_add_dentry E x.b s nd oi (to_u16 inc) true).st.pm ∧
    (hk_rename_b E x s nd oi ndir inc).st.headers
      = (hk_add_dentry E x.b s nd oi (to_u16 inc) true).st.headers := by
  unfold hk_rename_b
  simp only []
  split <;> exact ⟨rfl, rfl, rfl, rfl⟩

theorem rename_c_frame (E : hk_env) (x : rename_ext) (s : hk_state) (od : vfs_dentry)
    (odir : Nat) (dec : Int) :
    (hk_rename_c E x s od odir dec).ret = (hk_add_dentry E x.c s od 0 (to_u16 dec) true).ret ∧
    (hk_rename_c E x s od odir dec).st.pm
      = (hk_add_dentry E x.c s od 0 (to_u16 dec) true).st.pm ∧
    (hk_rename_c E x s od odir dec).st.headers
      = (hk_add_dentry E x.c s od 0 (to_u16 dec) true).st.headers := by
  unfold hk_rename_c
  simp only []
  split <;> exact ⟨rfl, rfl, rfl⟩

theorem rename_tx_frame (E : hk_env) (x : rename_ext) (s : hk_state)
    (old_dir new_dir old_inode pd pd_new : Nat) :
    (hk_rename_tx E x s old_dir new_dir old_inode pd pd_new).2.pm = s.pm ∧
    (hk_rename_tx E x s old_dir new_dir old_inode pd pd_new).2.headers = s.headers := by
  unfold hk_rename_tx
  simp only []
  split <;> exact ⟨rfl, rfl⟩

theorem rename_end_frame (E : hk_env) (x : rename_ext) (s : hk_state)
    (old_dir new_dir old_inode : Nat) (new_inode : Option Nat) (pd pd_new : Nat) :
    (hk_rename_end E x s old_dir new_dir old_inode new_inode pd pd_new).2.pm = s.pm ∧
    (hk_rename_end E x s old_dir new_dir old_inode new_inode pd pd_new).2.headers
      = s.headers := by
  unfold hk_rename_end
  cases new_inode with
  | none => exact rename_tx_frame E x s old_dir new_dir old_inode pd pd_new
  | some ni =>
    simp only []
    split_ifs <;>
      first
      | exact ⟨rfl, rfl⟩
      | exact rename_tx_frame E x _ old_dir new_dir old_inode pd pd_new

/-- A rename that returns 0 went through the steps (a), (b), (c), each returning 0, and its
final dentry records and headers are those after step (c). -/
theorem rename_success (E : hk_env) (x : rename_ext) (s : hk_state) (old_dir : Nat)
    (old_dentry : vfs_dentry) (new_dir : Nat) (new_dentry : vfs_dentry) (flags old_inode : Nat)
    (h : (hk_rename E x s old_dir old_dentry new_dir new_dentry flags old_inode).1 = some 0) :
    (hk_rename_a E x (hk_rename_begin x s old_inode) new_dentry).ret = some 0 ∧
    (hk_rename_b E x (hk_rename_state_a E x s old_inode new_dentry) new_dentry old_inode
      new_dir (hk_rename_links (S_ISDIR (s.inodes old_inode).i_mode)
        new_dentry.d_inode.isSome (old_dir == new_dir)).1).ret = some 0 ∧
    (hk_rename_c E x (hk_rename_state_b E x s old_dir old_inode new_dir new_dentry) old_dentry
      old_dir (hk_rename_links (S_ISDIR (s.inodes old_inode).i_mode)
        new_dentry.d_inode.isSome (old_dir == new_dir)).2).ret = some 0 ∧
    (hk_rename E x s old_dir old_dentry new_dir new_dentry flags old_inode).2.pm
      = (hk_rename_state_c E x s old_dir old_dentry old_inode new_dir new_dentry).pm ∧
    (hk_rename E x s old_dir old_dentry new_dir new_dentry flags old_inode).2.headers
      = (hk_rename_state_c E x s old_dir old_dentry old_inode new_dir new_dentry).headers := by
  unfold hk_rename at h ⊢
  simp only [] at h ⊢
  split at h
  · simp [EINVAL] at h
  · rename_i hfl
    rw [if_neg hfl]
    cases hc : hk_rename_check E s old_inode new_dir new_dentry.d_inode with
    | some err =>
      rw [hc] at h
      simp only [Option.some.injEq] at h
      unfold hk_rename_check at hc
      split at hc <;> split at hc <;> simp [ENOTEMPTY, EMLINK] at hc <;> omega
    | none =>
      rw [hc] at h
      simp only [] at h ⊢
      split at h
      · rename_i hl; simp only [Option.some.injEq] at h; exact absurd h hl
      · rename_i hl
        rw [if_neg hl]
        split at h
        · rename_i ha; exact absurd h ha
        · rename_i ha
          rw [if_neg ha]
          split at h
          · rename_i hb; exact absurd h hb
          · rename_i hb
            rw [if_neg hb]
            split at h
            · rename_i hcc; exact absurd h hcc
            · rename_i hcc
              rw [if_neg hcc]
              refine ⟨not_not.mp ha, not_not.mp hb, not_not.mp hcc, ?_, ?_⟩
              · exact (rename_end_frame E x _ old_dir new_dir old_inode _ _ _).1
              · exact (rename_end_frame E x _ old_dir new_dir old_inode _ _ _).2

theorem step_a_facts (E : hk_env) (x : rename_ext) (s : hk_state) (oi : Nat)
    (nd : vfs_dentry) :
    (∀ d name len, (d ≠ nd.d_parent ∨ name ≠ nd.d_name) →
      hk_inode_by_name E (hk_rename_state_a E x s oi nd) d name len
        = hk_inode_by_name E s d name len) ∧
    (∀ d a, fresh_in s d a → fresh_in (hk_rename_state_a E x s oi nd) d a) ∧
    (∀ d name len, name_count E (hk_rename_state_a E x s oi nd) d name len
      ≤ name_count E s d name len) ∧
    (nd.d_inode ≠ none → (hk_rename_a E x (hk_rename_begin x s oi) nd).ret = some 0 →
      name_count E s nd.d_parent nd.d_name nd.d_len ≤ 1 →
      name_count E (hk_rename_state_a E x s oi nd) nd.d_parent nd.d_name nd.d_len = 0) := by
  have hb := rename_begin_frame x s oi
  unfold hk_rename_state_a hk_rename_a
  cases hni : nd.d_inode with
  | none =>
    simp only []
    refine ⟨fun d name len _ => lookup_congr E _ _ d name len hb.1 (by rw [hb.2]),
      fun d a h => fresh_congr _ _ d a (by rw [hb.2]) h,
      fun d name len => le_of_eq (name_count_congr E _ _ d name len hb.1 (by rw [hb.2])),
      fun h => absurd rfl h⟩
  | some ni =>
    simp only []
    refine ⟨?_, ?_, ?_, ?_⟩
    · intro d name len hne
      rw [add_remove_lookup_other E x.a _ nd 0 false d name len hne]
      exact lookup_congr E _ _ d name len hb.1 (by rw [hb.2])
    · intro d a h
      exact add_remove_fresh E x.a _ nd 0 false d a (fresh_congr _ _ d a (by rw [hb.2]) h)
    · intro d name len
      refine le_trans (add_remove_count_le E x.a _ nd 0 false d name len) ?_
      exact le_of_eq (name_count_congr E _ _ d name len hb.1 (by rw [hb.2]))
    · intro _ hret hc
      apply add_remove_count_zero E x.a _ nd 0 false hret
      rw [name_count_congr E _ s _ _ _ hb.1 (by rw [hb.2])]
      exact hc

theorem step_b_facts (E : hk_env) (x : rename_ext) (sa : hk_state) (oi ndir : Nat)
    (nd : vfs_dentry) (inc : Int) (d_new : Nat)
    (hino : oi ≠ 0) (hln : nd.d_len = nd.d_name.length)
    (hret : (hk_rename_b E x sa nd oi ndir inc).ret = some 0)
    (hout : (hk_rename_b E x sa nd oi ndir inc).out_direntry = some d_new) :
    (x.b.di_alloc = true →
      hk_inode_by_name E (hk_rename_b E x sa nd oi ndir inc).st nd.d_parent nd.d_name nd.d_len
        = (oi, some d_new)) ∧
    (∀ d name len, fresh_in sa d d_new → (d ≠ nd.d_parent ∨ name ≠ nd.d_name) →
      hk_inode_by_name E (hk_rename_b E x sa nd oi ndir inc).st d name len
        = hk_inode_by_name E sa d name len ∧
      name_count E (hk_rename_b E x sa nd oi ndir inc).st d name len
        = name_count E sa d name len) ∧
    (fresh_in sa nd.d_parent d_new →
      name_count E (hk_rename_b E x sa nd oi ndir inc).st nd.d_parent nd.d_name nd.d_len
        ≤ name_count E sa nd.d_parent nd.d_name nd.d_len + 1) := by
  obtain ⟨f1, f2, f3, f4⟩ := rename_b_frame E x sa nd oi ndir inc
  rw [f1] at hret
  rw [f2] at hout
  obtain ⟨d2, r, sih2, ho, hpm, hname, hrino, _, hh, hdirs⟩ :=
    add_append_shape E x.b sa nd oi (to_u16 inc) hino hret
  rw [ho] at hout
  cases hout
  rw [hln, List.take_length] at hname
  rw [hln] at hdirs
  refine ⟨?_, ?_, ?_⟩
  · intro halloc
    rw [halloc, if_pos rfl] at hdirs
    rw [hln]
    have := append_lookup_same E sa (hk_rename_b E x sa nd oi ndir inc).st nd.d_parent
      nd.d_name d_new r sih2 (f3.trans hpm) hname (f4.trans hh) hdirs
    rw [hrino] at this
    exact this
  · intro d name len hf hne
    exact ⟨append_lookup_other E sa _ nd.d_parent nd.d_name d_new r sih2 x.b.di_alloc d name len
        (f3.trans hpm) hname (f4.trans hh) hdirs hf hne,
      (append_count E sa _ nd.d_parent nd.d_name d_new r sih2 x.b.di_alloc d name len
        (f3.trans hpm) hname (f4.trans hh) hdirs hf).2 hne⟩
  · intro hf
    rw [hln]
    exact (append_count E sa _ nd.d_parent nd.d_name d_new r sih2 x.b.di_alloc nd.d_parent
      nd.d_name nd.d_name.length (f3.trans hpm) hname (f4.trans hh) hdirs hf).1

theorem step_c_facts (E : hk_env) (x : rename_ext) (sb : hk_state) (od : vfs_dentry)
    (odir : Nat) (dec : Int) :
    (∀ d name len, (d ≠ od.d_parent ∨ name ≠ od.d_name) →
      hk_inode_by_name E (hk_rename_c E x sb od odir dec).st d name len
        = hk_inode_by_name E sb d name len) ∧
    (∀ d name len, name_count E (hk_rename_c E x sb od odir dec).st d name len
      ≤ name_count E sb d name len) ∧
    ((hk_rename_c E x sb od odir dec).ret = some 0 →
      name_count E sb od.d_parent od.d_name od.d_len ≤ 1 →
      hk_inode_by_name E (hk_rename_c E x sb od odir dec).st od.d_parent od.d_name od.d_len
        = (INO_NONE, none)) := by
  obtain ⟨f1, f2, f3⟩ := rename_c_frame E x sb od odir dec
  refine ⟨?_, ?_, ?_⟩
  · intro d name len hne
    rw [lookup_congr E _ _ d name len f2 (by rw [f3])]
    exact add_remove_lookup_other E x.c sb od (to_u16 dec) true d name len hne
  · intro d name len
    rw [name_count_congr E _ _ d name len f2 (by rw [f3])]
    exact add_remove_count_le E x.c sb od (to_u16 dec) true d name len
  · intro hret hc
    rw [f1] at hret
    rw [lookup_congr E _ _ _ _ _ f2 (by rw [f3])]
    exact count_zero_lookup E _ _ _ _
      (add_remove_count_zero E x.c sb od (to_u16 dec) true hret hc)

theorem state_ab_dirs (bkt : Nat) :
    (state_ab.headers 2).dirs bkt =
      if bkt = 2 then [⟨98, 8704⟩] else if bkt = 1 then [⟨97, 8192⟩] else [] := by
  unfold state_ab
  simp [hk_append_dentry_innvm, hk_append_dentry_write, hk_insert_dir_table, hash_add_bits,
    ext_ok, state0, header0, env0, linix_get, linix_insert, Function.update_apply, bkdr,
    hk_dentry_by_ix_from_blk]

theorem state_ab_fresh : fresh_in state_ab 2 9216 := by
  intro bkt di h
  rw [state_ab_dirs] at h
  split_ifs at h <;> simp at h <;> simp [h]

/-! ## C4 -/

/-- C4, as stated, fails in two ways.  Directory 2 of `dup_state` holds the name "a" twice
(inode 6 at 8704 in front of inode 5 at 8192): the rename of "a" to "c" returns 0, every
step and every allocation succeeding, "c" resolves to the moved inode 6, and the old name
"a" still resolves, to inode 5.  In `state_ab` the rename of "a" to "c" in which
`hk_alloc_hk_dentry_info` fails in step (b) returns 0 as well, and the new name "c" is
not found. -/
theorem rename_visibility_counterexample :
    (hk_inode_by_name env0 dup_state 2 [97] 1 = (6, some 8704) ∧
      (hk_rename env0 rename_ext_ok dup_state 2 dentry_a6 2 dentry_c2_neg 0 6).1 = some 0 ∧
      hk_inode_by_name env0
        (hk_rename env0 rename_ext_ok dup_state 2 dentry_a6 2 dentry_c2_neg 0 6).2 2 [99] 1
        = (6, some 9216) ∧
      hk_inode_by_name env0
        (hk_rename env0 rename_ext_ok dup_state 2 dentry_a6 2 dentry_c2_neg 0 6).2 2 [97] 1
        = (5, some 8192)) ∧
    ((hk_rename env0 rename_ext_noalloc state_ab 2 dentry_a 2 dentry_c2_neg 0 5).1 = some 0 ∧
      hk_inode_by_name env0
        (hk_rename_state_b env0 rename_ext_noalloc state_ab 2 5 2 dentry_c2_neg) 2 [99] 1
        = (INO_NONE, none) ∧
      hk_inode_by_name env0
        (hk_rename env0 rename_ext_noalloc state_ab 2 dentry_a 2 dentry_c2_neg 0 5).2 2 [99] 1
        = (INO_NONE, none)) := by
  decide

/-- C4, amended.  Rename name visibility: for a `hk_rename` that returns 0, with the
dentries in their directories, the new name NUL-terminated at its length,
`(old_dir, old_name)` different from `(new_dir, new_name)`, a non-zero moved inode and the
record of step (b) written at an address `d_new` that no index node of the two
directories references: when the index node of step (b) is allocated, right after step
(b), and at return, the lookup of the new name in `new_dir` resolves to the moved inode
and the record of step (b), whether or not the destination existed; when the index of
`old_dir` holds at most one node for the old name before the call, at return the lookup
of the old name in `old_dir` is not-found; and the lookup of every other name in both
directories is as before the call. -/
theorem rename_name_visibility (E : hk_env) (x : rename_ext) (s : hk_state) (old_dir : Nat)
    (old_dentry : vfs_dentry) (new_dir : Nat) (new_dentry : vfs_dentry) (flags old_inode : Nat)
    (d_new : Nat)
    (hpo : old_dentry.d_parent = old_dir) (hpn : new_dentry.d_parent = new_dir)
    (hln : new_dentry.d_len = new_dentry.d_name.length)
    (hdiff : old_dir ≠ new_dir ∨ old_dentry.d_name ≠ new_dentry.d_name)
    (hino : old_inode ≠ 0)
    (hok : (hk_rename E x s old_dir old_dentry new_dir new_dentry flags old_inode).1 = some 0)
    (hout : (hk_rename_b E x (hk_rename_state_a E x s old_inode new_dentry) new_dentry
      old_inode new_dir (hk_rename_links (S_ISDIR (s.inodes old_inode).i_mode)
        new_dentry.d_inode.isSome (old_dir == new_dir)).1).out_direntry = some d_new)
    (hf_old : fresh_in s old_dir d_new) (hf_new : fresh_in s new_dir d_new) :
    (x.b.di_alloc = true →
      hk_inode_by_name E (hk_rename_state_b E x s old_dir old_inode new_dir new_dentry) new_dir
        new_dentry.d_name new_dentry.d_len = (old_inode, some d_new) ∧
      hk_inode_by_name E
        (hk_rename E x s old_dir old_dentry new_dir new_dentry flags old_inode).2 new_dir
        new_dentry.d_name new_dentry.d_len = (old_inode, some d_new)) ∧
    (name_count E s old_dir old_dentry.d_name old_dentry.d_len ≤ 1 →
      hk_inode_by_name E
        (hk_rename E x s old_dir old_dentry new_dir new_dentry flags old_inode).2 old_dir
        old_dentry.d_name old_dentry.d_len = (INO_NONE, none)) ∧
    ∀ d name len, (d = old_dir ∨ d = new_dir) →
      (d ≠ old_dir ∨ name ≠ old_dentry.d_name) → (d ≠ new_dir ∨ name ≠ new_dentry.d_name) →
      hk_inode_by_name E
        (hk_rename E x s old_dir old_dentry new_dir new_dentry flags old_inode).2 d name len
        = hk_inode_by_name E s d name len := by
  obtain ⟨_, hb, hc, hpm, hh⟩ :=
    rename_success E x s old_dir old_dentry new_dir new_dentry flags old_inode hok
  obtain ⟨a1, a2, a3, _⟩ := step_a_facts E x s old_inode new_dentry
  obtain ⟨b1, b2, _⟩ := step_b_facts E x (hk_rename_state_a E x s old_inode new_dentry)
    old_inode new_dir new_dentry _ d_new hino hln hb hout
  obtain ⟨c1, _, c3⟩ := step_c_facts E x
    (hk_rename_state_b E x s old_dir old_inode new_dir new_dentry) old_dentry old_dir
    (hk_rename_links (S_ISDIR (s.inodes old_inode).i_mode) new_dentry.d_inode.isSome
      (old_dir == new_dir)).2
  rw [hpn] at a1 b1 b2
  rw [hpo] at c1 c3
  have hfin : ∀ d name len,
      hk_inode_by_name E
        (hk_rename E x s old_dir old_dentry new_dir new_dentry flags old_inode).2 d name len
      = hk_inode_by_name E
        (hk_rename_state_c E x s old_dir old_dentry old_inode new_dir new_dentry) d name len :=
    fun d name len => lookup_congr E _ _ d name len hpm (by rw [hh])
  refine ⟨?_, ?_, ?_⟩
  · intro halloc
    have hB : hk_inode_by_name E (hk_rename_state_b E x s old_dir old_inode new_dir new_dentry)
        new_dir new_dentry.d_name new_dentry.d_len = (old_inode, some d_new) := b1 halloc
    refine ⟨hB, ?_⟩
    rw [hfin]
    unfold hk_rename_state_c
    rw [c1 new_dir _ _ (by
      rcases hdiff with h | h
      · exact Or.inl (Ne.symm h)
      · exact Or.inr (Ne.symm h))]
    exact hB
  · intro huniq
    rw [hfin]
    unfold hk_rename_state_c
    apply c3 hc
    have h1 := (b2 old_dir old_dentry.d_name old_dentry.d_len (a2 _ _ hf_old) hdiff).2
    unfold hk_rename_state_b
    rw [h1]
    exact le_trans (a3 _ _ _) huniq
  · intro d name len hd ho hn
    have hfd : fresh_in s d d_new := by
      rcases hd with h | h <;> rw [h] <;> assumption
    rw [hfin]
    unfold hk_rename_state_c
    rw [c1 d name len ho]
    unfold hk_rename_state_b
    rw [(b2 d name len (a2 _ _ hfd) hn).1]
    exact a1 d name len hn

/-- The amended C4 on directory 2 holding "a" and "b", each once: rename of "a" onto "b"
with the index node of step (b) allocated. -/
theorem rename_name_visibility_witness :
    (hk_inode_by_name env0 (hk_rename_state_b env0 rename_ext_ok state_ab 2 5 2 dentry_b) 2
        dentry_b.d_name dentry_b.d_len = (5, some 9216) ∧
      hk_inode_by_name env0
        (hk_rename env0 rename_ext_ok state_ab 2 dentry_a 2 dentry_b 0 5).2 2
        dentry_b.d_name dentry_b.d_len = (5, some 9216)) ∧
    hk_inode_by_name env0
      (hk_rename env0 rename_ext_ok state_ab 2 dentry_a 2 dentry_b 0 5).2 2
      dentry_a.d_name dentry_a.d_len = (INO_NONE, none) ∧
    ∀ d name len, (d = 2 ∨ d = 2) →
      (d ≠ 2 ∨ name ≠ dentry_a.d_name) → (d ≠ 2 ∨ name ≠ dentry_b.d_name) →
      hk_inode_by_name env0
        (hk_rename env0 rename_ext_ok state_ab 2 dentry_a 2 dentry_b 0 5).2 d name len
        = hk_inode_by_name env0 state_ab d name len :=
  ⟨(rename_name_visibility env0 rename_ext_ok state_ab 2 dentry_a 2 dentry_b 0 5 9216
      rfl rfl rfl (Or.inr (by decide)) (by decide) (by decide) (by decide)
      state_ab_fresh state_ab_fresh).1 rfl,
    (rename_name_visibility env0 rename_ext_ok state_ab 2 dentry_a 2 dentry_b 0 5 9216
      rfl rfl rfl (Or.inr (by decide)) (by decide) (by decide) (by decide)
      state_ab_fresh state_ab_fresh).2.1 (by decide),
    (rename_name_visibility env0 rename_ext_ok state_ab 2 dentry_a 2 dentry_b 0 5 9216
      rfl rfl rfl (Or.inr (by decide)) (by decide) (by decide) (by decide)
      state_ab_fresh state_ab_fresh).2.2⟩

/-! ## C5 -/

/-- C5, as stated, fails in two ways.  Directory 2 holds "a" (inode 5) and "b" (inode 6),
and "a" is renamed onto "b" by a `hk_rename` that returns 0; "b" resolves to inode 6 before
the call, and right after step (a) its lookup is not-found.  When in the same rename
`hk_alloc_hk_dentry_info` fails in step (b), the call returns 0 as well, steps (a) and (b)
return 0, and the lookup of "b" is not-found right after step (a), right after step (b)
and right after step (c). -/
theorem rename_transient_counterexample :
    (hk_inode_by_name env0 state_ab 2 [98] 1 = (6, some 8704) ∧
      (hk_rename env0 rename_ext_ok state_ab 2 dentry_a 2 dentry_b 0 5).1 = some 0 ∧
      hk_inode_by_name env0 (hk_rename_state_a env0 rename_ext_ok state_ab 5 dentry_b) 2 [98] 1
        = (INO_NONE, none)) ∧
    ((hk_rename env0 rename_ext_noalloc state_ab 2 dentry_a 2 dentry_b 0 5).1 = some 0 ∧
      (hk_rename_a env0 rename_ext_noalloc (hk_rename_begin rename_ext_noalloc state_ab 5)
        dentry_b).ret = some 0 ∧
      (hk_rename_b env0 rename_ext_noalloc
        (hk_rename_state_a env0 rename_ext_noalloc state_ab 5 dentry_b) dentry_b 5 2
        (hk_rename_links (S_ISDIR (state_ab.inodes 5).i_mode) dentry_b.d_inode.isSome
          (2 == 2)).1).ret = some 0 ∧
      hk_inode_by_name env0 (hk_rename_state_a env0 rename_ext_noalloc state_ab 5 dentry_b) 2
        [98] 1 = (INO_NONE, none) ∧
      hk_inode_by_name env0 (hk_rename_state_b env0 rename_ext_noalloc state_ab 2 5 2 dentry_b)
        2 [98] 1 = (INO_NONE, none) ∧
      hk_inode_by_name env0
        (hk_rename_state_c env0 rename_ext_noalloc state_ab 2 dentry_a 5 2 dentry_b) 2 [98] 1
        = (INO_NONE, none)) := by
  decide

/-- C5, amended: with the dentries in their directories, the new name NUL-terminated at its
length, `(old_dir, old_name)` different from `(new_dir, new_name)`, a non-zero moved inode,
steps (a) and (b) returning 0, the record of step (b) written at an address `d_new` that
no index node of `new_dir` references, at most one index node for the destination name
before the call, and none when the VFS dentry of the destination is negative: right after
step (a) a destination that existed is not resolvable (not-found); when the index node of
step (b) is allocated, right after step (b) and right after step (c) the destination name
resolves to the moved inode and the record of step (b); and at each of the three points
the index holds at most one node for the destination name (none after (a)), so the name
does not resolve to two inodes. -/
theorem rename_intermediate_states (E : hk_env) (x : rename_ext) (s : hk_state) (old_dir : Nat)
    (old_dentry : vfs_dentry) (new_dir : Nat) (new_dentry : vfs_dentry) (old_inode : Nat)
    (d_new : Nat)
    (hpo : old_dentry.d_parent = old_dir) (hpn : new_dentry.d_parent = new_dir)
    (hln : new_dentry.d_len = new_dentry.d_name.length)
    (hdiff : old_dir ≠ new_dir ∨ old_dentry.d_name ≠ new_dentry.d_name)
    (hino : old_inode ≠ 0)
    (ha : (hk_rename_a E x (hk_rename_begin x s old_inode) new_dentry).ret = some 0)
    (hb : (hk_rename_b E x (hk_rename_state_a E x s old_inode new_dentry) new_dentry
      old_inode new_dir (hk_rename_links (S_ISDIR (s.inodes old_inode).i_mode)
        new_dentry.d_inode.isSome (old_dir == new_dir)).1).ret = some 0)
    (hout : (hk_rename_b E x (hk_rename_state_a E x s old_inode new_dentry) new_dentry
      old_inode new_dir (hk_rename_links (S_ISDIR (s.inodes old_inode).i_mode)
        new_dentry.d_inode.isSome (old_dir == new_dir)).1).out_direntry = some d_new)
    (hf_new : fresh_in s new_dir d_new)
    (hcount : name_count E s new_dir new_dentry.d_name new_dentry.d_len ≤ 1)
    (hvfs : new_dentry.d_inode = none →
      name_count E s new_dir new_dentry.d_name new_dentry.d_len = 0) :
    (new_dentry.d_inode ≠ none →
      hk_inode_by_name E (hk_rename_state_a E x s old_inode new_dentry) new_dir
        new_dentry.d_name new_dentry.d_len = (INO_NONE, none)) ∧
    (x.b.di_alloc = true →
      hk_inode_by_name E (hk_rename_state_b E x s old_dir old_inode new_dir new_dentry) new_dir
        new_dentry.d_name new_dentry.d_len = (old_inode, some d_new) ∧
      hk_inode_by_name E
        (hk_rename_state_c E x s old_dir old_dentry old_inode new_dir new_dentry)
        new_dir new_dentry.d_name new_dentry.d_len = (old_inode, some d_new)) ∧
    name_count E (hk_rename_state_a E x s old_inode new_dentry) new_dir new_dentry.d_name
      new_dentry.d_len = 0 ∧
    name_count E (hk_rename_state_b E x s old_dir old_inode new_dir new_dentry) new_dir
      new_dentry.d_name new_dentry.d_len ≤ 1 ∧
    name_count E (hk_rename_state_c E x s old_dir old_dentry old_inode new_dir new_dentry)
      new_dir new_dentry.d_name new_dentry.d_len ≤ 1 := by
  obtain ⟨_, a2, a3, a4⟩ := step_a_facts E x s old_inode new_dentry
  obtain ⟨b1, _, b3⟩ := step_b_facts E x (hk_rename_state_a E x s old_inode new_dentry)
    old_inode new_dir new_dentry _ d_new hino hln hb hout
  obtain ⟨c1, c2, _⟩ := step_c_facts E x
    (hk_rename_state_b E x s old_dir old_inode new_dir new_dentry) old_dentry old_dir
    (hk_rename_links (S_ISDIR (s.inodes old_inode).i_mode) new_dentry.d_inode.isSome
      (old_dir == new_dir)).2
  rw [hpn] at a4 b1 b3
  rw [hpo] at c1
  have hA : name_count E (hk_rename_state_a E x s old_inode new_dentry) new_dir
      new_dentry.d_name new_dentry.d_len = 0 := by
    by_cases hn : new_dentry.d_inode = none
    · exact Nat.le_zero.mp (le_trans (a3 _ _ _) (le_of_eq (hvfs hn)))
    · exact a4 hn ha hcount
  have hBc : name_count E (hk_rename_state_b E x s old_dir old_inode new_dir new_dentry) new_dir
      new_dentry.d_name new_dentry.d_len ≤ 1 := by
    have := b3 (a2 _ _ hf_new)
    rw [hA] at this
    exact this
  refine ⟨fun _ => count_zero_lookup E _ _ _ _ hA, ?_, hA, hBc, ?_⟩
  · intro halloc
    have hB : hk_inode_by_name E (hk_rename_state_b E x s old_dir old_inode new_dir new_dentry)
        new_dir new_dentry.d_name new_dentry.d_len = (old_inode, some d_new) := b1 halloc
    refine ⟨hB, ?_⟩
    unfold hk_rename_state_c
    rw [c1 new_dir _ _ (by
      rcases hdiff with h | h
      · exact Or.inl (Ne.symm h)
      · exact Or.inr (Ne.symm h))]
    exact hB
  · unfold hk_rename_state_c
    exact le_trans (c2 _ _ _) hBc

/-- The amended C5 on directory 2 holding "a" and "b": rename of "a" onto "b" with the
index node of step (b) allocated. -/
theorem rename_intermediate_states_witness :
    hk_inode_by_name env0 (hk_rename_state_a env0 rename_ext_ok state_ab 5 dentry_b) 2
      dentry_b.d_name dentry_b.d_len = (INO_NONE, none) ∧
    (hk_inode_by_name env0 (hk_rename_state_b env0 rename_ext_ok state_ab 2 5 2 dentry_b) 2
        dentry_b.d_name dentry_b.d_len = (5, some 9216) ∧
      hk_inode_by_name env0
        (hk_rename_state_c env0 rename_ext_ok state_ab 2 dentry_a 5 2 dentry_b)
        2 dentry_b.d_name dentry_b.d_len = (5, some 9216)) ∧
    name_count env0 (hk_rename_state_a env0 rename_ext_ok state_ab 5 dentry_b) 2 dentry_b.d_name
      dentry_b.d_len = 0 ∧
    name_count env0 (hk_rename_state_b env0 rename_ext_ok state_ab 2 5 2 dentry_b) 2
      dentry_b.d_name dentry_b.d_len ≤ 1 ∧
    name_count env0 (hk_rename_state_c env0 rename_ext_ok state_ab 2 dentry_a 5 2 dentry_b) 2
      dentry_b.d_name dentry_b.d_len ≤ 1 :=
  ⟨(rename_intermediate_states env0 rename_ext_ok state_ab 2 dentry_a 2 dentry_b 5 9216
      rfl rfl rfl (Or.inr (by decide)) (by decide) (by decide) (by decide) (by decide)
      state_ab_fresh (by decide) (by decide)).1 (by decide),
    (rename_intermediate_states env0 rename_ext_ok state_ab 2 dentry_a 2 dentry_b 5 9216
      rfl rfl rfl (Or.inr (by decide)) (by decide) (by decide) (by decide) (by decide)
      state_ab_fresh (by decide) (by decide)).2.1 rfl,
    (rename_intermediate_states env0 rename_ext_ok state_ab 2 dentry_a 2 dentry_b 5 9216
      rfl rfl rfl (Or.inr (by decide)) (by decide) (by decide) (by decide) (by decide)
      state_ab_fresh (by decide) (by decide)).2.2⟩

/-! ## C6 -/

/-- A dentry call that returns an error has changed no dentry record and no header. -/
theorem add_dentry_error_frame (E : hk_env) (x : append_ext) (s : hk_state)
    (dentry : vfs_dentry) (ino lc : Nat) (og : Bool) (err : Int)
    (hret : (hk_add_dentry E x s dentry ino lc og).ret = some err) (herr : err ≠ 0) :
    (hk_add_dentry E x s dentry ino lc og).st.pm = s.pm ∧
    (hk_add_dentry E x s dentry ino lc og).st.headers = s.headers := by
  by_cases hino : ino = 0
  · subst hino
    rcases add_remove_shape E x s dentry lc og with ⟨_, h⟩ | ⟨di, _, h0, _, _⟩
    · rw [h]; exact ⟨rfl, rfl⟩
    · rw [h0] at hret
      simp only [Option.some.injEq] at hret
      exact absurd hret.symm herr
  · unfold hk_add_dentry at hret ⊢
    by_cases hl : dentry.d_len = 0
    · rw [if_pos hl]; exact ⟨rfl, rfl⟩
    · rw [if_neg hl] at hret ⊢
      rcases append_pre E x s dentry.d_parent dentry.d_name dentry.d_len ino lc og hino
        with h | ⟨blk, isnew, pre, h, _⟩
      · rw [h] at hret; cases hret
      · rw [h] at hret
        rw [write_ret] at hret
        simp only [Option.some.injEq] at hret
        exact absurd hret.symm herr

/-- C6, as stated, fails.  In the empty directory 2, for the name "a": when `hk_alloc_ino`
returns -1, `__hk_create` returns 0; when `hk_create_inode` returns an error pointer,
`__hk_create` returns 0 and the lookup of "a", not-found before, finds inode 5; when
`hk_start_tx` returns -5, `__hk_create` returns -5 and the lookup of "a" finds inode 5. -/
theorem create_failure_counterexample :
    hk_inode_by_name env0 state0 2 [97] 1 = (INO_NONE, none) ∧
    (__hk_create env0 ⟨INO_NONE, ext_ok 8192, none, 1⟩ state0 2 dentry_a_neg S_IFREG).1
      = some 0 ∧
    (__hk_create env0 ⟨5, ext_ok 8192, some (-ENOMEM), 1⟩ state0 2 dentry_a_neg S_IFREG).1
      = some 0 ∧
    hk_inode_by_name env0
      (__hk_create env0 ⟨5, ext_ok 8192, some (-ENOMEM), 1⟩ state0 2 dentry_a_neg S_IFREG).2
      2 [97] 1 = (5, some 8192) ∧
    (__hk_create env0 ⟨5, ext_ok 8192, none, -5⟩ state0 2 dentry_a_neg S_IFREG).1
      = some (-5) ∧
    hk_inode_by_name env0
      (__hk_create env0 ⟨5, ext_ok 8192, none, -5⟩ state0 2 dentry_a_neg S_IFREG).2
      2 [97] 1 = (5, some 8192) := by
  decide

/-- C6, amended: in `__hk_create`, (1) when `hk_alloc_ino` returns -1 every lookup is as
before the call; (2) when `hk_add_dentry` returns an error, `__hk_create` returns that
non-zero error and every lookup is as before the call; (3) when `hk_start_tx_for_new_inode`
returns a negative txid, `__hk_create` returns that non-zero txid; (4) when `hk_add_dentry`
returned 0 (non-zero inode number, name NUL-terminated at its length, index node
allocated) and then `hk_create_inode` returns an error pointer or the txid is negative,
the appended entry stays: the lookup of the name in the parent directory returns the new
inode number and the appended record. -/
theorem create_failure (E : hk_env) (x : create_ext) (s : hk_state) (dir : Nat)
    (dentry : vfs_dentry) (mode : Nat) :
    (x.ino = INO_NONE → ∀ d name len,
      hk_inode_by_name E (__hk_create E x s dir dentry mode).2 d name len
        = hk_inode_by_name E s d name len) ∧
    (x.ino ≠ INO_NONE → ∀ err,
      (hk_add_dentry E x.app (emit s [hk_event.alloc_ino]) dentry x.ino 0 true).ret
        = some err → err ≠ 0 →
      (__hk_create E x s dir dentry mode).1 = some err ∧
      ∀ d name len, hk_inode_by_name E (__hk_create E x s dir dentry mode).2 d name len
        = hk_inode_by_name E s d name len) ∧
    (x.ino ≠ INO_NONE →
      (hk_add_dentry E x.app (emit s [hk_event.alloc_ino]) dentry x.ino 0 true).ret
        = some 0 → x.inode_err = none → x.txid < 0 →
      (__hk_create E x s dir dentry mode).1 = some x.txid ∧ x.txid ≠ 0) ∧
    (x.ino ≠ INO_NONE → x.ino ≠ 0 →
      (hk_add_dentry E x.app (emit s [hk_event.alloc_ino]) dentry x.ino 0 true).ret
        = some 0 → dentry.d_len = dentry.d_name.length → x.app.di_alloc = true →
      (x.inode_err ≠ none ∨ x.txid < 0) →
      hk_inode_by_name E (__hk_create E x s dir dentry mode).2 dentry.d_parent dentry.d_name
        dentry.d_len =
        (x.ino, (hk_add_dentry E x.app (emit s [hk_event.alloc_ino]) dentry x.ino 0
          true).out_direntry)) := by
  refine ⟨?_, ?_, ?_, ?_⟩
  · intro hino d name len
    unfold __hk_create
    simp only [if_pos hino]
    exact lookup_congr E _ _ d name len rfl rfl
  · intro hino err hret herr
    have hf := add_dentry_error_frame E x.app (emit s [hk_event.alloc_ino]) dentry x.ino 0 true
      err hret herr
    unfold __hk_create
    simp only [if_neg hino, hret, ne_eq, herr, not_false_eq_true, if_true]
    exact ⟨trivial, fun d name len => lookup_congr E _ _ d name len hf.1 (by rw [hf.2]; rfl)⟩
  · intro hino hret hinode htx
    unfold __hk_create
    simp only [if_neg hino, hret, hinode, ne_eq, not_true_eq_false, if_false,
      hk_start_tx_for_new_inode, htx, if_true]
    exact ⟨trivial, ne_of_lt htx⟩
  · intro hino hino0 hret hlen halloc hfail
    obtain ⟨d_new, r, sih2, ho, hpm, hname, hrino, _, hh, hdirs⟩ :=
      add_append_shape E x.app (emit s [hk_event.alloc_ino]) dentry x.ino 0 hino0 hret
    rw [hlen, List.take_length] at hname
    rw [hlen, halloc, if_pos rfl] at hdirs
    have hl := append_lookup_same E (emit s [hk_event.alloc_ino])
      (hk_add_dentry E x.app (emit s [hk_event.alloc_ino]) dentry x.ino 0 true).st
      dentry.d_parent dentry.d_name d_new r sih2 hpm hname hh hdirs
    rw [hrino, ← ho, ← hlen] at hl
    rw [← hl]
    apply lookup_congr
    · unfold __hk_create
      simp only [if_neg hino, hret, ne_eq, not_true_eq_false, if_false]
      cases hie : x.inode_err with
      | some e => rfl
      | none =>
        rcases hfail with h | h
        · exact absurd hie h
        · simp only [hk_start_tx_for_new_inode, h, if_true]
          rfl
    · unfold __hk_create
      simp only [if_neg hino, hret, ne_eq, not_true_eq_false, if_false]
      cases hie : x.inode_err with
      | some e => rfl
      | none =>
        rcases hfail with h | h
        · exact absurd hie h
        · simp only [hk_start_tx_for_new_inode, h, if_true]
          rfl

/-- The amended C6 in the empty directory 2: `hk_alloc_ino` failing, an empty name,
`hk_start_tx` returning -5, and `hk_create_inode` failing. -/
theorem create_failure_witness :
    (∀ d name len,
      hk_inode_by_name env0
        (__hk_create env0 ⟨INO_NONE, ext_ok 8192, none, 1⟩ state0 2 dentry_a_neg S_IFREG).2
        d name len = hk_inode_by_name env0 state0 d name len) ∧
    ((__hk_create env0 ⟨5, ext_ok 8192, none, 1⟩ state0 2 ⟨2, [], 0, none⟩ S_IFREG).1
        = some (-EINVAL) ∧
      ∀ d name len,
        hk_inode_by_name env0
          (__hk_create env0 ⟨5, ext_ok 8192, none, 1⟩ state0 2 ⟨2, [], 0, none⟩ S_IFREG).2
          d name len = hk_inode_by_name env0 state0 d name len) ∧
    ((__hk_create env0 ⟨5, ext_ok 8192, none, -5⟩ state0 2 dentry_a_neg S_IFREG).1
      = some (-5) ∧ (-5 : Int) ≠ 0) ∧
    hk_inode_by_name env0
      (__hk_create env0 ⟨5, ext_ok 8192, some (-ENOMEM), 1⟩ state0 2 dentry_a_neg S_IFREG).2
      dentry_a_neg.d_parent dentry_a_neg.d_name dentry_a_neg.d_len =
      (5, (hk_add_dentry env0 (ext_ok 8192) (emit state0 [hk_event.alloc_ino]) dentry_a_neg 5 0
        true).out_direntry) :=
  ⟨(create_failure env0 ⟨INO_NONE, ext_ok 8192, none, 1⟩ state0 2 dentry_a_neg S_IFREG).1 rfl,
    (create_failure env0 ⟨5, ext_ok 8192, none, 1⟩ state0 2 ⟨2, [], 0, none⟩ S_IFREG).2.1
      (by decide) (-EINVAL) rfl (by decide),
    (create_failure env0 ⟨5, ext_ok 8192, none, -5⟩ state0 2 dentry_a_neg S_IFREG).2.2.1
      (by decide) (by decide) rfl (by decide),
    (create_failure env0 ⟨5, ext_ok 8192, some (-ENOMEM), 1⟩ state0 2 dentry_a_neg
      S_IFREG).2.2.2 (by decide) (by decide) (by decide) rfl rfl (Or.inl (by decide))⟩

/-! ## C9 -/

/-- C9. Unlink, synchronous path: for a `hk_unlink` of a non-empty name that the index of
the directory holds (node `di`), with the parent's inode record found and a link count
that fits its `unsigned int`: the dentry record of the name ends with `valid = 0`; the
first effects of the call are the stores to that record and its flush, which touch no
inode record, and every store to an inode record's `valid` comes after them; the link
count decreases by one if it was non-zero and stays 0 otherwise; the inode record's
`valid` is stored as 0 if and only if the link count was 1 before (so it is zero after,
through this unlink); otherwise no inode record's `valid` is changed.  This holds
whatever `hk_start_tx` returns. -/
theorem unlink_invalidates (E : hk_env) (x : unlink_ext) (s : hk_state) (dir : Nat)
    (dentry : vfs_dentry) (inode : Nat) (di : hk_dentry_info)
    (hpidir : E.hk_get_pi_by_ino dir ≠ 0)
    (hlen : dentry.d_len ≠ 0)
    (hnlink : (s.inodes inode).i_nlink < 2 ^ 32)
    (hfound : hk_search_dir_table E s.pm (s.headers dentry.d_parent) dentry.d_name
      dentry.d_len = some di) :
    ((hk_unlink E x s dir dentry inode).2.pm di.direntry).valid = 0 ∧
    (∃ post, (hk_unlink E x s dir dentry inode).2.trace =
      s.trace ++ [hk_event.st_dentry di.direntry dentry_field.tstamp,
        hk_event.st_dentry_valid di.direntry 0, hk_event.flush_buffer di.direntry true,
        hk_event.free_dentry_info di.direntry] ++ post ∧
      (∀ e ∈ [hk_event.st_dentry di.direntry dentry_field.tstamp,
        hk_event.st_dentry_valid di.direntry 0, hk_event.flush_buffer di.direntry true,
        hk_event.free_dentry_info di.direntry], touches_inode_record e = false) ∧
      (hk_event.st_pi_valid (E.hk_get_pi_by_ino inode) 0 ∈ post ↔
        (s.inodes inode).i_nlink = 1) ∧
      ∀ p v, hk_event.st_pi_valid p v ∈ post → p = E.hk_get_pi_by_ino inode ∧ v = 0) ∧
    ((s.inodes inode).i_nlink ≠ 0 →
      ((hk_unlink E x s dir dentry inode).2.inodes inode).i_nlink + 1
        = (s.inodes inode).i_nlink) ∧
    ((s.inodes inode).i_nlink = 0 →
      ((hk_unlink E x s dir dentry inode).2.inodes inode).i_nlink = 0) ∧
    ((s.inodes inode).i_nlink = 1 →
      (hk_unlink E x s dir dentry inode).2.pi_valid (E.hk_get_pi_by_ino inode) = 0 ∧
      ((hk_unlink E x s dir dentry inode).2.inodes inode).i_nlink = 0) ∧
    ((s.inodes inode).i_nlink ≠ 1 →
      (hk_unlink E x s dir dentry inode).2.pi_valid = s.pi_valid) := by
  have hadd : hk_add_dentry E x.app s dentry 0 0 true =
      ⟨some 0, some di.direntry,
        { s with
          pm := dentry_invalidate s.pm di.direntry x.app.version
          headers := Function.update s.headers dentry.d_parent
            (hk_remove_dir_table E (dentry_invalidate s.pm di.direntry x.app.version)
              (s.headers dentry.d_parent) dentry.d_name dentry.d_len)
          trace := s.trace ++ [hk_event.st_dentry di.direntry dentry_field.tstamp,
            hk_event.st_dentry_valid di.direntry 0, hk_event.flush_buffer di.direntry true,
            hk_event.free_dentry_info di.direntry] }⟩ := by
    unfold hk_add_dentry
    rw [if_neg hlen]
    unfold hk_append_dentry_innvm
    rw [if_pos rfl]
    unfold hk_append_dentry_remove
    rw [hfound]
    rfl
  unfold hk_unlink
  simp only []
  rw [if_neg hpidir, hadd]
  simp only [ne_eq, not_true_eq_false, if_false, Option.getD_some]
  by_cases h1 : (s.inodes inode).i_nlink = 1
  · have hd : drop_nlink 1 = 0 := by decide
    by_cases ht : x.txid < 0 <;>
      simp [hk_start_tx_for_unlink, emit, hk_finish_tx, touches_inode_record, h1, ht, invalidate_valid, hd]
  · by_cases h0 : (s.inodes inode).i_nlink = 0
    · by_cases ht : x.txid < 0 <;>
        simp [hk_start_tx_for_unlink, emit, hk_finish_tx, touches_inode_record, h1, h0, ht, invalidate_valid]
    · have hd : drop_nlink (s.inodes inode).i_nlink + 1 = (s.inodes inode).i_nlink := by
        unfold drop_nlink
        omega
      by_cases ht : x.txid < 0 <;>
        simp [hk_start_tx_for_unlink, emit, hk_finish_tx, touches_inode_record, h1, h0, ht, invalidate_valid, hd]

/-- C9 on directory 2 holding "foo" for inode 5, whose link count is 1. -/
theorem unlink_invalidates_witness :
    ((hk_unlink env0 ⟨ext_ok 0, 1⟩ state_foo 2 dentry_foo 5).2.pm 8192).valid = 0 ∧
    (hk_unlink env0 ⟨ext_ok 0, 1⟩ state_foo 2 dentry_foo 5).2.pi_valid
      (env0.hk_get_pi_by_ino 5) = 0 ∧
    ((hk_unlink env0 ⟨ext_ok 0, 1⟩ state_foo 2 dentry_foo 5).2.inodes 5).i_nlink = 0 :=
  ⟨(unlink_invalidates env0 ⟨ext_ok 0, 1⟩ state_foo 2 dentry_foo 5 ⟨1765074, 8192⟩
      (by decide) (by decide) (by decide) (by decide)).1,
    ((unlink_invalidates env0 ⟨ext_ok 0, 1⟩ state_foo 2 dentry_foo 5 ⟨1765074, 8192⟩
      (by decide) (by decide) (by decide) (by decide)).2.2.2.2.1 (by decide)).1,
    ((unlink_invalidates env0 ⟨ext_ok 0, 1⟩ state_foo 2 dentry_foo 5 ⟨1765074, 8192⟩
      (by decide) (by decide) (by decide) (by decide)).2.2.2.2.1 (by decide)).2⟩

/-! ## C10 -/

/-- C10. Create write ordering: in a `__hk_create` in which every step succeeds (inode
number allocated and non-zero, `hk_add_dentry` returning 0, `hk_create_inode` returning an
inode, non-negative txid), and in a `hk_link` in which every step succeeds, the function
returns 0 and its effects are in the order of `write_order_ok`: the new dentry record is
stored with `valid = 1`, then flushed, and no effect up to that flush touches an inode
record; after the flush the inode record is stored with `valid = 1`, and after that store
comes `hk_finish_tx`, the flush barrier that covers the inode record. -/
theorem create_write_order (E : hk_env) (x : create_ext) (s : hk_state) (dir : Nat)
    (dentry : vfs_dentry) (mode : Nat)
    (E2 : hk_env) (y : link_ext) (s2 : hk_state) (inode dir2 : Nat) (dentry2 : vfs_dentry)
    (hino : x.ino ≠ INO_NONE) (hino0 : x.ino ≠ 0)
    (hadd : (hk_add_dentry E x.app (emit s [hk_event.alloc_ino]) dentry x.ino 0 true).ret
      = some 0)
    (hinode : x.inode_err = none) (htx : 0 ≤ x.txid)
    (hmax : (s2.inodes inode).i_nlink < E2.HK_LINK_MAX)
    (hpidir : E2.hk_get_pi_by_ino dir2 ≠ 0) (hinode0 : inode ≠ 0)
    (hadd2 : (hk_add_dentry E2 y.app (emit s2 [hk_event.ihold inode]) dentry2 inode 0
      true).ret = some 0)
    (htx2 : 0 ≤ y.txid) :
    ((__hk_create E x s dir dentry mode).1 = some 0 ∧
      ∃ d evs,
        (hk_add_dentry E x.app (emit s [hk_event.alloc_ino]) dentry x.ino 0
          true).out_direntry = some d ∧
        (__hk_create E x s dir dentry mode).2.trace = s.trace ++ evs ∧
        write_order_ok d (E.hk_get_pi_by_ino x.ino) x.txid evs) ∧
    ((hk_link E2 y s2 inode dir2 dentry2).1 = some 0 ∧
      ∃ d evs,
        (hk_add_dentry E2 y.app (emit s2 [hk_event.ihold inode]) dentry2 inode 0
          true).out_direntry = some d ∧
        (hk_link E2 y s2 inode dir2 dentry2).2.trace = s2.trace ++ evs ∧
        write_order_ok d (E2.hk_get_pi_by_ino inode) y.txid evs) := by
  constructor
  · obtain ⟨d, before, hout, htr, hmem, hno⟩ :=
      add_dentry_trace E x.app _ dentry x.ino 0 hino0 hadd
    unfold __hk_create
    simp only []
    generalize hk_add_dentry E x.app (emit s [hk_event.alloc_ino]) dentry x.ino 0 true = r
      at hadd hout htr ⊢
    simp only [if_neg hino, hadd, hinode, hk_start_tx_for_new_inode, not_lt.mpr htx, ne_eq,
      not_true_eq_false, if_false, hk_finish_tx, emit, htr, hout, Option.getD_some]
    refine ⟨trivial, d, (hk_event.alloc_ino :: before) ++ hk_event.flush_buffer d false ::
      [hk_event.alloc_dentry_info x.app.di_alloc, hk_event.create_inode x.ino,
        hk_event.init_pi x.ino, hk_event.create_al_snapshot (E.hk_get_pi_by_ino dir),
        hk_event.start_tx (new_inode_tx_kind mode) (E.hk_get_pi_by_ino x.ino) d,
        hk_event.st_pi_valid (E.hk_get_pi_by_ino x.ino) 1, hk_event.commit_attrchange dir,
        hk_event.finish_tx x.txid, hk_event.d_instantiate x.ino,
        hk_event.unlock_new_inode x.ino], rfl, ?_, _, _, rfl, ?_, ?_, ?_⟩
    · simp [List.append_assoc]
    · exact List.mem_cons_of_mem _ hmem
    · intro e he
      rcases List.mem_cons.mp he with h | h
      · rw [h]; rfl
      · exact hno e h
    · exact List.Sublist.cons _ (List.Sublist.cons _ (List.Sublist.cons _ (List.Sublist.cons _
        (List.Sublist.cons _ (List.Sublist.cons₂ _ (List.Sublist.cons _
          (List.Sublist.cons₂ _ (List.nil_sublist _))))))))
  · obtain ⟨d, before, hout, htr, hmem, hno⟩ :=
      add_dentry_trace E2 y.app _ dentry2 inode 0 hinode0 hadd2
    unfold hk_link
    simp only []
    generalize hk_add_dentry E2 y.app (emit s2 [hk_event.ihold inode]) dentry2 inode 0 true = r
      at hadd2 hout htr ⊢
    simp only [if_neg (not_le.mpr hmax), if_neg hpidir, hadd2, hk_start_tx_for_new_inode,
      not_lt.mpr htx2, ne_eq, not_true_eq_false, if_false, hk_finish_tx, emit, htr, hout,
      Option.getD_some]
    refine ⟨trivial, d, (hk_event.ihold inode :: before) ++ hk_event.flush_buffer d false ::
      [hk_event.alloc_dentry_info y.app.di_alloc,
        hk_event.create_al_snapshot (E2.hk_get_pi_by_ino dir2),
        hk_event.start_tx (new_inode_tx_kind (S_IFLNK ||| 0o777)) (E2.hk_get_pi_by_ino inode) d,
        hk_event.st_pi_valid (E2.hk_get_pi_by_ino inode) 1, hk_event.commit_attrchange dir2,
        hk_event.commit_linkchange inode, hk_event.finish_tx y.txid,
        hk_event.d_instantiate inode], rfl, ?_, _, _, rfl, ?_, ?_, ?_⟩
    · simp [List.append_assoc]
    · exact List.mem_cons_of_mem _ hmem
    · intro e he
      rcases List.mem_cons.mp he with h | h
      · rw [h]; rfl
      · exact hno e h
    · exact List.Sublist.cons _ (List.Sublist.cons _ (List.Sublist.cons _
        (List.Sublist.cons₂ _ (List.Sublist.cons _ (List.Sublist.cons _
          (List.Sublist.cons₂ _ (List.nil_sublist _)))))))

/-- C10 for the creation of "a" (inode 5) and the link of "a" to inode 5 in the empty
directory 2. -/
theorem create_write_order_witness :
    ((__hk_create env0 ⟨5, ext_ok 8192, none, 1⟩ state0 2 dentry_a_neg S_IFREG).1 = some 0 ∧
      ∃ d evs,
        (hk_add_dentry env0 (ext_ok 8192) (emit state0 [hk_event.alloc_ino]) dentry_a_neg 5 0
          true).out_direntry = some d ∧
        (__hk_create env0 ⟨5, ext_ok 8192, none, 1⟩ state0 2 dentry_a_neg S_IFREG).2.trace
          = state0.trace ++ evs ∧
        write_order_ok d (env0.hk_get_pi_by_ino 5) 1 evs) ∧
    ((hk_link env0 ⟨ext_ok 8192, 9, 1⟩ state0 5 2 dentry_a_neg).1 = some 0 ∧
      ∃ d evs,
        (hk_add_dentry env0 (ext_ok 8192) (emit state0 [hk_event.ihold 5]) dentry_a_neg 5 0
          true).out_direntry = some d ∧
        (hk_link env0 ⟨ext_ok 8192, 9, 1⟩ state0 5 2 dentry_a_neg).2.trace
          = state0.trace ++ evs ∧
        write_order_ok d (env0.hk_get_pi_by_ino 5) 1 evs) :=
  create_write_order env0 ⟨5, ext_ok 8192, none, 1⟩ state0 2 dentry_a_neg S_IFREG
    env0 ⟨ext_ok 8192, 9, 1⟩ state0 5 2 dentry_a_neg
    (by decide) (by decide) (by decide) rfl (by decide)
    (by decide) (by decide) (by decide) (by decide) (by decide)

/-! ## Facts about the index operations -/

theorem find_unique {α β : Type} (f : α → β) (b : β) (p : α → Bool) (l : List α) (x : α)
    (hpf : ∀ a, p a = true ↔ f a = b)
    (hnd : (l.map f).Nodup) (hx : x ∈ l) (hfx : f x = b) :
    l.find? p = some x := by
  induction l with
  | nil => cases hx
  | cons a t ih =>
    rw [List.map_cons, List.nodup_cons] at hnd
    by_cases hp : f a = b
    · rw [List.find?_cons_of_pos _ ((hpf a).mpr hp)]
      rcases List.mem_cons.mp hx with h | h
      · rw [h]
      · exfalso
        apply hnd.1
        rw [hp, ← hfx]
        exact List.mem_map_of_mem f h
    · rw [List.find?_cons_of_neg _ (fun h => hp ((hpf a).mp h))]
      rcases List.mem_cons.mp hx with h | h
      · rw [h] at hfx; exact absurd hfx hp
      · exact ih hnd.2 h

theorem state_abc_dirs (bkt : Nat) :
    (state_abc.headers 2).dirs bkt =
      if bkt = 3 then [⟨99, 9216⟩, ⟨98, 8704⟩, ⟨97, 8192⟩] else [] := by
  unfold state_abc
  simp [hk_append_dentry_innvm, hk_append_dentry_write, hk_insert_dir_table, hash_add_bits,
    ext_ok, state0, header0, env0, env_b3, linix_get, linix_insert, Function.update_apply, bkdr,
    hk_dentry_by_ix_from_blk]

theorem state_abc_distinct : distinct_names state_abc.pm (state_abc.headers 2) := by
  intro bkt
  rw [state_abc_dirs]
  split_ifs
  · decide
  · exact List.nodup_nil

theorem eraseP_none {α : Type} (p : α → Bool) (l : List α) (h : l.find? p = none) :
    l.eraseP p = l := by
  rw [List.find?_eq_none] at h
  exact List.eraseP_of_forall_not h

theorem filter_length_of_nodup_map {α β : Type} (f : α → β) (b : β) (p : α → Bool)
    (l : List α) (hpf : ∀ a, p a = true ↔ f a = b) (hnd : (l.map f).Nodup) :
    (l.filter p).length ≤ 1 := by
  induction l with
  | nil => simp
  | cons a t ih =>
    rw [List.map_cons, List.nodup_cons] at hnd
    by_cases hp : p a = true
    · rw [List.filter_cons_of_pos hp]
      have : t.filter p = [] := by
        rw [List.filter_eq_nil_iff]
        intro x hx hpx
        apply hnd.1
        rw [(hpf a).mp hp, ← (hpf x).mp hpx]
        exact List.mem_map_of_mem f hx
      rw [this]; simp
    · rw [List.filter_cons_of_neg hp]
      exact ih hnd.2

theorem repoint_first_split (p : hk_dentry_info → Bool) (d : Nat) (l : List hk_dentry_info)
    (di : hk_dentry_info) (h : l.find? p = some di) :
    ∃ pre post, l = pre ++ di :: post ∧ (∀ e ∈ pre, p e = false) ∧
      repoint_first p d l = pre ++ { di with direntry := d } :: post := by
  induction l with
  | nil => simp at h
  | cons a t ih =>
    by_cases hp : p a = true
    · rw [List.find?_cons_of_pos _ hp] at h
      cases h
      exact ⟨[], t, rfl, by simp, by simp [repoint_first, hp]⟩
    · rw [List.find?_cons_of_neg _ hp] at h
      obtain ⟨pre, post, h1, h2, h3⟩ := ih h
      refine ⟨a :: pre, post, by rw [h1]; rfl, ?_, by simp [repoint_first, hp, h3]⟩
      intro e he
      rcases List.mem_cons.mp he with h4 | h4
      · rw [h4]; simpa using hp
      · exact h2 e h4

theorem destroy_fold (dirs : Nat → List hk_dentry_info) (num : Nat) (ix : Nat → Nat) (n : Nat) :
    (List.range n).foldl
      (fun (acc : List hk_dentry_info × hk_inode_info_header) bkt =>
        (acc.1 ++ acc.2.dirs bkt, { acc.2 with dirs := Function.update acc.2.dirs bkt [] }))
      ([], ⟨dirs, num, ix⟩) =
    ((List.range n).flatMap dirs, ⟨fun bkt => if bkt < n then [] else dirs bkt, num, ix⟩) := by
  induction n with
  | zero => simp
  | succ n ih =>
    rw [List.range_succ, List.foldl_append, ih]
    simp only [List.foldl_cons, List.foldl_nil, List.flatMap_append, List.flatMap_cons,
      List.flatMap_nil, List.append_nil, Nat.lt_irrefl, if_false]
    congr 2
    funext bkt
    by_cases h : bkt = n
    · subst h; simp
    · rw [Function.update_noteq h]
      by_cases h2 : bkt < n
      · simp [h2, Nat.lt_succ_of_lt h2]
      · have : ¬ bkt < n + 1 := by omega
        simp [h2, this]

theorem destroy_result (E : hk_env) (sih : hk_inode_info_header) :
    (hk_destory_dir_table E sih).1 = (List.range (2 ^ E.HK_HASH_BITS)).flatMap sih.dirs ∧
    (hk_destory_dir_table E sih).2.dirs
      = (fun bkt => if bkt < 2 ^ E.HK_HASH_BITS then [] else sih.dirs bkt) ∧
    (hk_destory_dir_table E sih).2.i_num_dentrys = sih.i_num_dentrys ∧
    (hk_destory_dir_table E sih).2.ix = sih.ix := by
  unfold hk_destory_dir_table
  cases sih with
  | mk dirs num ix =>
    rw [destroy_fold]
    exact ⟨rfl, rfl, rfl, rfl⟩

theorem empty_dir_iff (E : hk_env) (s : hk_state) (inode : Nat) :
    hk_empty_dir E s inode = true ↔
      ∀ bkt, bkt < 2 ^ E.HK_HASH_BITS → (s.headers inode).dirs bkt = [] := by
  unfold hk_empty_dir
  rw [List.all_eq_true]
  constructor
  · intro h bkt hb
    have := h bkt (List.mem_range.mpr hb)
    simpa using this
  · intro h bkt hb
    rw [h bkt (List.mem_range.mp hb)]
    rfl

/-! ## C11 -/

/-- C11. Lookup under hash collisions: in a directory index in which no two nodes of a
bucket carry the same record name, `hk_search_dir_table(name)` returns the node of the
name's bucket whose record name equals `name` when there is one, whatever other names the
bucket holds, and returns NULL when no node of the bucket has that name, in particular
when the bucket is empty; a node it returns lies in the bucket and carries the name.  When
every node sits in the bucket of its record name, a node with that name anywhere in the
index is the one returned. -/
theorem search_under_collisions (E : hk_env) (pm : Nat → hk_dentry)
    (sih : hk_inode_info_header) (name : List Nat) (namelen : Nat)
    (hd : distinct_names pm sih) :
    (∀ di, di ∈ sih.dirs (hk_bucket E name namelen) → (pm di.direntry).name = name →
      hk_search_dir_table E pm sih name namelen = some di) ∧
    ((∀ di, di ∈ sih.dirs (hk_bucket E name namelen) → (pm di.direntry).name ≠ name) →
      hk_search_dir_table E pm sih name namelen = none) ∧
    (sih.dirs (hk_bucket E name namelen) = [] →
      hk_search_dir_table E pm sih name namelen = none) ∧
    (∀ di, hk_search_dir_table E pm sih name namelen = some di →
      di ∈ sih.dirs (hk_bucket E name namelen) ∧ (pm di.direntry).name = name) ∧
    (index_placed E pm sih → namelen = name.length →
      ∀ bkt di, di ∈ sih.dirs bkt → (pm di.direntry).name = name →
        hk_search_dir_table E pm sih name namelen = some di) := by
  have h1 : ∀ di, di ∈ sih.dirs (hk_bucket E name namelen) → (pm di.direntry).name = name →
      hk_search_dir_table E pm sih name namelen = some di := by
    intro di hmem hname
    unfold hk_search_dir_table
    exact find_unique (fun di => (pm di.direntry).name) name _ _ di (fun a => by simp)
      (hd _) hmem hname
  refine ⟨h1, ?_, ?_, ?_, ?_⟩
  · intro h
    unfold hk_search_dir_table
    rw [List.find?_eq_none]
    intro di hmem
    simpa using h di hmem
  · intro h
    unfold hk_search_dir_table
    rw [h]; rfl
  · intro di h
    unfold hk_search_dir_table at h
    refine ⟨List.mem_of_find?_eq_some h, ?_⟩
    simpa using List.find?_some h
  · intro hp hlen bkt di hmem hname
    have hb := hp bkt di hmem
    rw [hname, ← hlen] at hb
    rw [← hb] at hmem
    exact h1 di hmem hname

/-- C11 with "a", "b", "c" in bucket 3: "b" is found, "d" is not. -/
theorem search_under_collisions_witness :
    hk_search_dir_table env_b3 state_abc.pm (state_abc.headers 2) [98] 1 = some ⟨98, 8704⟩ ∧
    hk_search_dir_table env_b3 state_abc.pm (state_abc.headers 2) [100] 1 = none :=
  ⟨(search_under_collisions env_b3 state_abc.pm (state_abc.headers 2) [98] 1
      state_abc_distinct).1 ⟨98, 8704⟩ (by decide) (by decide),
    (search_under_collisions env_b3 state_abc.pm (state_abc.headers 2) [100] 1
      state_abc_distinct).2.1 (by decide)⟩

/-! ## C12 -/

/-- C12, as stated, fails: directory 2 holds "foo" (record 8192); inserting "foo" again
does not fail, it adds a second node at the head of the bucket, and the index holds two
nodes for the name. -/
theorem insert_duplicate_counterexample :
    hk_search_dir_table env0 state_foo.pm (state_foo.headers 2) [102, 111, 111] 3
      = some ⟨1765074, 8192⟩ ∧
    (hk_insert_dir_table env0 (state_foo.headers 2) [102, 111, 111] 3 8192 true).1 = none ∧
    (hk_insert_dir_table env0 (state_foo.headers 2) [102, 111, 111] 3 8192 true).2.dirs
      (hk_bucket env0 [102, 111, 111] 3) = [⟨1765074, 8192⟩, ⟨1765074, 8192⟩] ∧
    name_count env0
      (hk_insert_dir_table_st env0 state_foo 2 [102, 111, 111] 3 8192 true).2 2
      [102, 111, 111] 3 = 2 := by
  decide

/-- C12, amended: `hk_insert_dir_table` does not look for an existing entry.  When the
node is allocated it adds the node at the head of the name's bucket, whether or not the
index already holds an entry for the name, and leaves every other bucket unchanged; a
following `hk_search_dir_table(name)` then yields the new node when its record carries the
name.  When the allocation fails it returns `-ENOMEM` and leaves the index unchanged. -/
theorem insert_adds_at_head (E : hk_env) (pm : Nat → hk_dentry) (sih : hk_inode_info_header)
    (name : List Nat) (namelen direntry : Nat) :
    ((hk_insert_dir_table E sih name namelen direntry true).2.dirs (hk_bucket E name namelen)
      = ⟨E.BKDRHash name namelen, direntry⟩ :: sih.dirs (hk_bucket E name namelen)) ∧
    (∀ bkt, bkt ≠ hk_bucket E name namelen →
      (hk_insert_dir_table E sih name namelen direntry true).2.dirs bkt = sih.dirs bkt) ∧
    ((pm direntry).name = name →
      hk_search_dir_table E pm (hk_insert_dir_table E sih name namelen direntry true).2 name
        namelen = some ⟨E.BKDRHash name namelen, direntry⟩) ∧
    (hk_insert_dir_table E sih name namelen direntry false).1 = some (-ENOMEM) ∧
    (hk_insert_dir_table E sih name namelen direntry false).2 = sih := by
  refine ⟨?_, ?_, ?_, rfl, rfl⟩
  · simp [hk_insert_dir_table, hash_add_bits, hk_bucket]
  · intro bkt hb
    simp only [hk_insert_dir_table, if_true, hash_add_bits]
    exact Function.update_noteq hb _ _
  · intro hname
    simp [hk_search_dir_table, hk_insert_dir_table, hash_add_bits, hk_bucket, hname]

/-- The amended C12 for the name "b" in directory 2 holding "foo". -/
theorem insert_adds_at_head_witness :
    (hk_insert_dir_table env0 (state_foo.headers 2) [98] 1 8704 true).2.dirs
      (hk_bucket env0 [98] 1) = ⟨bkdr [98] 1, 8704⟩ :: (state_foo.headers 2).dirs
        (hk_bucket env0 [98] 1) ∧
    (hk_insert_dir_table env0 (state_foo.headers 2) [98] 1 8704 false).1 = some (-ENOMEM) :=
  ⟨(insert_adds_at_head env0 state_foo.pm (state_foo.headers 2) [98] 1 8704).1,
    (insert_adds_at_head env0 state_foo.pm (state_foo.headers 2) [98] 1 8704).2.2.2.1⟩

/-! ## C13 -/

/-- C13. Index remove is local: in a directory index in which no two nodes of a bucket
carry the same record name, after `hk_remove_dir_table(name)` the name is not found; when
it was present exactly its node is unlinked and freed, when it was absent the header and
the trace are unchanged; every other bucket is unchanged and `hk_search_dir_table(other)`
returns the same node as before for every other name, also in the same bucket; no dentry
record, no inode record and no other header is modified. -/
theorem remove_is_local (E : hk_env) (s : hk_state) (dir : Nat) (name : List Nat)
    (namelen : Nat) (hd : distinct_names s.pm (s.headers dir)) :
    hk_search_dir_table E (hk_remove_dir_table_st E s dir name namelen).pm
      ((hk_remove_dir_table_st E s dir name namelen).headers dir) name namelen = none ∧
    (∀ di, hk_search_dir_table E s.pm (s.headers dir) name namelen = some di →
      ((hk_remove_dir_table_st E s dir name namelen).headers dir).dirs
        (hk_bucket E name namelen) = ((s.headers dir).dirs (hk_bucket E name namelen)).erase di ∧
      (hk_remove_dir_table_st E s dir name namelen).trace
        = s.trace ++ [hk_event.free_dentry_info di.direntry]) ∧
    (hk_search_dir_table E s.pm (s.headers dir) name namelen = none →
      (hk_remove_dir_table_st E s dir name namelen).headers dir = s.headers dir ∧
      (hk_remove_dir_table_st E s dir name namelen).trace = s.trace) ∧
    (∀ bkt, bkt ≠ hk_bucket E name namelen →
      ((hk_remove_dir_table_st E s dir name namelen).headers dir).dirs bkt
        = (s.headers dir).dirs bkt) ∧
    (∀ other len, other ≠ name →
      hk_search_dir_table E (hk_remove_dir_table_st E s dir name namelen).pm
        ((hk_remove_dir_table_st E s dir name namelen).headers dir) other len
        = hk_search_dir_table E s.pm (s.headers dir) other len) ∧
    (hk_remove_dir_table_st E s dir name namelen).pm = s.pm ∧
    (hk_remove_dir_table_st E s dir name namelen).pi_valid = s.pi_valid ∧
    (∀ d, d ≠ dir → (hk_remove_dir_table_st E s dir name namelen).headers d = s.headers d) := by
  refine ⟨?_, ?_, ?_, ?_, ?_, rfl, rfl, ?_⟩
  · simp only [hk_remove_dir_table_st, hk_search_dir_table, hk_remove_dir_table,
      Function.update_same]
    apply find_eraseP_none
    exact filter_length_of_nodup_map (fun di => (s.pm di.direntry).name) name _ _
      (fun a => by simp) (hd _)
  · intro di h
    constructor
    · simp only [hk_remove_dir_table_st, hk_remove_dir_table, Function.update_same]
      exact eraseP_eq_erase_of_find _ _ di h
    · simp only [hk_remove_dir_table_st, h]
  · intro h
    constructor
    · simp only [hk_remove_dir_table_st, hk_remove_dir_table, Function.update_same]
      unfold hk_search_dir_table at h
      rw [eraseP_none _ _ h, Function.update_eq_self]
    · simp only [hk_remove_dir_table_st, h, List.append_nil]
  · intro bkt hb
    simp only [hk_remove_dir_table_st, hk_remove_dir_table, Function.update_same]
    exact Function.update_noteq hb _ _
  · intro other len hne
    simp only [hk_remove_dir_table_st, hk_search_dir_table, hk_remove_dir_table,
      Function.update_same]
    by_cases hb : hk_bucket E other len = hk_bucket E name namelen
    · rw [hb, Function.update_same, find_eraseP_disjoint]
      intro e he
      have h1 : (s.pm e.direntry).name = name := by simpa using he
      simp [h1, Ne.symm hne]
    · rw [Function.update_noteq hb]
  · intro d hdne
    simp only [hk_remove_dir_table_st]
    exact Function.update_noteq hdne _ _

/-- C13 with "a", "b", "c" in bucket 3: "b" is removed, "a" and "c" are found as before. -/
theorem remove_is_local_witness :
    hk_search_dir_table env_b3 (hk_remove_dir_table_st env_b3 state_abc 2 [98] 1).pm
      ((hk_remove_dir_table_st env_b3 state_abc 2 [98] 1).headers 2) [98] 1 = none ∧
    hk_search_dir_table env_b3 (hk_remove_dir_table_st env_b3 state_abc 2 [98] 1).pm
      ((hk_remove_dir_table_st env_b3 state_abc 2 [98] 1).headers 2) [97] 1
      = hk_search_dir_table env_b3 state_abc.pm (state_abc.headers 2) [97] 1 ∧
    hk_search_dir_table env_b3 (hk_remove_dir_table_st env_b3 state_abc 2 [98] 1).pm
      ((hk_remove_dir_table_st env_b3 state_abc 2 [98] 1).headers 2) [99] 1
      = hk_search_dir_table env_b3 state_abc.pm (state_abc.headers 2) [99] 1 ∧
    (hk_remove_dir_table_st env_b3 state_abc 2 [98] 1).pm = state_abc.pm :=
  ⟨(remove_is_local env_b3 state_abc 2 [98] 1 state_abc_distinct).1,
    (remove_is_local env_b3 state_abc 2 [98] 1 state_abc_distinct).2.2.2.2.1 [97] 1
      (by decide),
    (remove_is_local env_b3 state_abc 2 [98] 1 state_abc_distinct).2.2.2.2.1 [99] 1
      (by decide),
    (remove_is_local env_b3 state_abc 2 [98] 1 state_abc_distinct).2.2.2.2.2.1⟩

/-! ## C14 -/

/-- C14. Index update: `hk_update_dir_table(name, record)` returns `-ENOENT` and leaves
the state unchanged when the search finds no node for the name; otherwise it returns 0,
the node found is repointed to the new record while every node before and after it in the
bucket and every other bucket stay as they are (so the number of nodes is unchanged), no
dentry record is modified, and, the new record carrying the name, a following
`hk_search_dir_table(name)` yields the repointed node. -/
theorem update_repoints (E : hk_env) (s : hk_state) (dir : Nat) (name : List Nat)
    (namelen direntry : Nat) :
    (hk_search_dir_table E s.pm (s.headers dir) name namelen = none →
      (hk_update_dir_table_st E s dir name namelen direntry).1 = -ENOENT ∧
      (hk_update_dir_table_st E s dir name namelen direntry).2 = s) ∧
    (∀ di, hk_search_dir_table E s.pm (s.headers dir) name namelen = some di →
      (hk_update_dir_table_st E s dir name namelen direntry).1 = 0 ∧
      ((s.pm direntry).name = name →
        hk_search_dir_table E (hk_update_dir_table_st E s dir name namelen direntry).2.pm
          ((hk_update_dir_table_st E s dir name namelen direntry).2.headers dir) name namelen
          = some { di with direntry := direntry }) ∧
      (∃ pre post,
        (s.headers dir).dirs (hk_bucket E name namelen) = pre ++ di :: post ∧
        ((hk_update_dir_table_st E s dir name namelen direntry).2.headers dir).dirs
          (hk_bucket E name namelen) = pre ++ { di with direntry := direntry } :: post) ∧
      (∀ bkt, bkt ≠ hk_bucket E name namelen →
        ((hk_update_dir_table_st E s dir name namelen direntry).2.headers dir).dirs bkt
          = (s.headers dir).dirs bkt) ∧
      (hk_update_dir_table_st E s dir name namelen direntry).2.pm = s.pm) := by
  constructor
  · intro h
    simp only [hk_update_dir_table_st, hk_update_dir_table, h, Function.update_eq_self]
    exact ⟨trivial, trivial⟩
  · intro di h
    have hsplit := repoint_first_split (fun cur => (s.pm cur.direntry).name == name) direntry
      ((s.headers dir).dirs (hk_bucket E name namelen)) di h
    obtain ⟨pre, post, h1, h2, h3⟩ := hsplit
    simp only [hk_update_dir_table_st, hk_update_dir_table, h, Function.update_same]
    refine ⟨trivial, ?_, ⟨pre, post, h1, h3⟩, ?_, trivial⟩
    · intro hname
      unfold hk_search_dir_table
      simp only [Function.update_same]
      rw [h3, List.find?_append]
      have hpre : pre.find? (fun cur => (s.pm cur.direntry).name == name) = none := by
        rw [List.find?_eq_none]
        intro e he
        simp [h2 e he]
      rw [hpre, List.find?_cons_of_pos _ (by simp [hname])]
      rfl
    · intro bkt hb
      exact Function.update_noteq hb _ _

/-- C14 with "a", "b", "c" in bucket 3: "d" is absent, "b" is repointed to 12288. -/
theorem update_repoints_witness :
    ((hk_update_dir_table_st env_b3 state_abc2 2 [100] 1 12288).1 = -ENOENT ∧
      (hk_update_dir_table_st env_b3 state_abc2 2 [100] 1 12288).2 = state_abc2) ∧
    (hk_update_dir_table_st env_b3 state_abc2 2 [98] 1 12288).1 = 0 ∧
    hk_search_dir_table env_b3 (hk_update_dir_table_st env_b3 state_abc2 2 [98] 1 12288).2.pm
      ((hk_update_dir_table_st env_b3 state_abc2 2 [98] 1 12288).2.headers 2) [98] 1
      = some ⟨98, 12288⟩ :=
  ⟨(update_repoints env_b3 state_abc2 2 [100] 1 12288).1 (by decide),
    ((update_repoints env_b3 state_abc2 2 [98] 1 12288).2 ⟨98, 8704⟩ (by decide)).1,
    ((update_repoints env_b3 state_abc2 2 [98] 1 12288).2 ⟨98, 8704⟩ (by decide)).2.1
      (by decide)⟩

/-! ## C15 -/

/-- C15. Index destroy drains everything: after `hk_destory_dir_table` every bucket of
the table is empty, so (the bucket of a hash lying inside the table)
`hk_search_dir_table` returns NULL for every name and `hk_empty_dir` returns true; the
nodes freed are the nodes that were in the table, bucket by bucket, each once; no dentry
record and no inode record is modified. -/
theorem destroy_drains (E : hk_env) (s : hk_state) (inode : Nat) :
    (∀ bkt, bkt < 2 ^ E.HK_HASH_BITS →
      ((hk_destory_dir_table_st E s inode).headers inode).dirs bkt = []) ∧
    ((∀ h, E.hash_min h E.HK_HASH_BITS < 2 ^ E.HK_HASH_BITS) → ∀ name namelen,
      hk_search_dir_table E (hk_destory_dir_table_st E s inode).pm
        ((hk_destory_dir_table_st E s inode).headers inode) name namelen = none) ∧
    hk_empty_dir E (hk_destory_dir_table_st E s inode) inode = true ∧
    (hk_destory_dir_table_st E s inode).trace =
      s.trace ++ ((List.range (2 ^ E.HK_HASH_BITS)).flatMap (s.headers inode).dirs).map
        (fun di => hk_event.free_dentry_info di.direntry) ∧
    (hk_destory_dir_table_st E s inode).pm = s.pm ∧
    (hk_destory_dir_table_st E s inode).pi_valid = s.pi_valid := by
  obtain ⟨h1, h2, _, _⟩ := destroy_result E (s.headers inode)
  have hdirs : ∀ bkt, bkt < 2 ^ E.HK_HASH_BITS →
      ((hk_destory_dir_table_st E s inode).headers inode).dirs bkt = [] := by
    intro bkt hb
    simp only [hk_destory_dir_table_st, Function.update_same, h2, hb, if_true]
  refine ⟨hdirs, ?_, (empty_dir_iff E _ inode).mpr hdirs, ?_, rfl, rfl⟩
  · intro hbound name namelen
    unfold hk_search_dir_table
    rw [hdirs (hk_bucket E name namelen) (hbound _)]
    rfl
  · simp only [hk_destory_dir_table_st, h1]

/-- C15 with "a", "b", "c" in bucket 3. -/
theorem destroy_drains_witness :
    hk_search_dir_table env_b3 (hk_destory_dir_table_st env_b3 state_abc 2).pm
      ((hk_destory_dir_table_st env_b3 state_abc 2).headers 2) [97] 1 = none ∧
    hk_empty_dir env_b3 (hk_destory_dir_table_st env_b3 state_abc 2) 2 = true ∧
    (hk_destory_dir_table_st env_b3 state_abc 2).pm = state_abc.pm :=
  ⟨(destroy_drains env_b3 state_abc 2).2.1 (fun _ => (by decide : (3 : Nat) < 2 ^ 4)) [97] 1,
    (destroy_drains env_b3 state_abc 2).2.2.1,
    (destroy_drains env_b3 state_abc 2).2.2.2.2.1⟩

/-! ## C16 -/

/-- C16. Directory emptiness: `hk_empty_dir` returns true if and only if every bucket of
the directory's table is empty; when the bucket of a hash lies inside the table and every
node sits in the bucket of its record name, this is the case if and only if no name
resolves through `hk_search_dir_table`; and `hk_rename` of a directory (flags accepted)
onto an existing destination whose table holds a node returns `-ENOTEMPTY`, leaving the
state unchanged. -/
theorem empty_dir_spec (E : hk_env) (s : hk_state) (inode : Nat) :
    (hk_empty_dir E s inode = true ↔
      ∀ bkt, bkt < 2 ^ E.HK_HASH_BITS → (s.headers inode).dirs bkt = []) ∧
    ((∀ h, E.hash_min h E.HK_HASH_BITS < 2 ^ E.HK_HASH_BITS) →
      index_placed E s.pm (s.headers inode) →
      (hk_empty_dir E s inode = true ↔
        ∀ name namelen, hk_search_dir_table E s.pm (s.headers inode) name namelen = none)) ∧
    (∀ (x : rename_ext) (old_dir : Nat) (old_dentry : vfs_dentry) (new_dir : Nat)
      (new_dentry : vfs_dentry) (flags old_inode : Nat),
      flags &&& (2 ^ 32 - 1 - RENAME_NOREPLACE) = 0 →
      S_ISDIR (s.inodes old_inode).i_mode = true →
      new_dentry.d_inode = some inode →
      (∃ bkt, bkt < 2 ^ E.HK_HASH_BITS ∧ (s.headers inode).dirs bkt ≠ []) →
      hk_rename E x s old_dir old_dentry new_dir new_dentry flags old_inode
        = (some (-ENOTEMPTY), s)) := by
  refine ⟨empty_dir_iff E s inode, ?_, ?_⟩
  · intro hbound hplaced
    rw [empty_dir_iff]
    constructor
    · intro h name namelen
      unfold hk_search_dir_table
      rw [h (hk_bucket E name namelen) (hbound _)]
      rfl
    · intro h bkt hb
      by_contra hne
      obtain ⟨di, hdi⟩ := List.exists_mem_of_ne_nil _ hne
      have hp := hplaced bkt di hdi
      have hs := h (s.pm di.direntry).name (s.pm di.direntry).name.length
      unfold hk_search_dir_table at hs
      rw [hp, List.find?_eq_none] at hs
      have := hs di hdi
      simp at this
  · intro x old_dir old_dentry new_dir new_dentry flags old_inode hfl hdir hni ⟨bkt, hb, hne⟩
    have hnot : hk_empty_dir E s inode = false := by
      rw [Bool.eq_false_iff]
      intro h
      exact hne ((empty_dir_iff E s inode).mp h bkt hb)
    unfold hk_rename
    simp only [hfl, ne_eq, not_true_eq_false, if_false, hk_rename_check, hni, hdir, hnot,
      and_self, if_true]

/-- C16: an inode with an empty table, and the rename of directory 9 onto directory 2,
which holds three entries. -/
theorem empty_dir_spec_witness :
    (hk_empty_dir env_b3 state_abc_dirs_only 5 = true ↔
      ∀ bkt, bkt < 2 ^ env_b3.HK_HASH_BITS → (state_abc_dirs_only.headers 5).dirs bkt = []) ∧
    hk_rename env_b3 rename_ext_ok state_abc_dirs_only 3 ⟨3, [120], 1, some 9⟩ 4
      ⟨4, [121], 1, some 2⟩ 0 9 = (some (-ENOTEMPTY), state_abc_dirs_only) :=
  ⟨(empty_dir_spec env_b3 state_abc_dirs_only 5).1,
    (empty_dir_spec env_b3 state_abc_dirs_only 2).2.2 rename_ext_ok 3 ⟨3, [120], 1, some 9⟩ 4
      ⟨4, [121], 1, some 2⟩ 0 9 (by decide) (by decide) rfl ⟨3, by decide, by decide⟩⟩

/-! ## C20 -/

/-- C20. Invalid arguments are rejected before any mutation: `hk_add_dentry` with a name
of length 0 returns `-EINVAL`; `hk_lookup` with a name longer than `HK_NAME_LEN` returns
`-ENAMETOOLONG`; `hk_link` on an inode whose link count is at least `HK_LINK_MAX` returns
`-EMLINK`; `hk_rename` with a flag bit other than `RENAME_NOREPLACE` returns `-EINVAL`;
in each case the state returned is the state given: no dentry record, index node,
`i_num_dentrys`, link count or inode valid bit has changed and no effect was issued, so
no transaction was started. -/
theorem invalid_arguments_rejected :
    (∀ (E : hk_env) (x : append_ext) (s : hk_state) (dentry : vfs_dentry)
      (ino link_change : Nat) (og : Bool), dentry.d_len = 0 →
      hk_add_dentry E x s dentry ino link_change og = ⟨some (-EINVAL), none, s⟩) ∧
    (∀ (E : hk_env) (x : lookup_ext) (s : hk_state) (dir : Nat) (dentry : vfs_dentry),
      E.HK_NAME_LEN < dentry.d_len →
      hk_lookup E x s dir dentry = (lookup_result.err (-ENAMETOOLONG), s)) ∧
    (∀ (E : hk_env) (x : link_ext) (s : hk_state) (inode dir : Nat) (dentry : vfs_dentry),
      E.HK_LINK_MAX ≤ (s.inodes inode).i_nlink →
      hk_link E x s inode dir dentry = (some (-EMLINK), s)) ∧
    (∀ (E : hk_env) (x : rename_ext) (s : hk_state) (old_dir : Nat) (old_dentry : vfs_dentry)
      (new_dir : Nat) (new_dentry : vfs_dentry) (flags old_inode : Nat),
      flags &&& (2 ^ 32 - 1 - RENAME_NOREPLACE) ≠ 0 →
      hk_rename E x s old_dir old_dentry new_dir new_dentry flags old_inode
        = (some (-EINVAL), s)) := by
  refine ⟨?_, ?_, ?_, ?_⟩
  · intro E x s dentry ino link_change og h
    unfold hk_add_dentry
    rw [if_pos h]
  · intro E x s dir dentry h
    unfold hk_lookup
    rw [if_pos h]
  · intro E x s inode dir dentry h
    unfold hk_link
    rw [if_pos h]
  · intro E x s old_dir old_dentry new_dir new_dentry flags old_inode h
    unfold hk_rename
    simp only [h, ne_eq, not_false_eq_true, if_true]

/-- C20 at an empty name, a name of length 256, a link count at the maximum of 2, and the
flag `RENAME_EXCHANGE`. -/
theorem invalid_arguments_rejected_witness :
    hk_add_dentry env0 (ext_ok 8192) state_ab ⟨2, [], 0, none⟩ 5 0 true
      = ⟨some (-EINVAL), none, state_ab⟩ ∧
    hk_lookup env0 ⟨none⟩ state_ab 2 ⟨2, [97], 256, none⟩
      = (lookup_result.err (-ENAMETOOLONG), state_ab) ∧
    hk_link env_link2 ⟨ext_ok 0, 9, 1⟩ state_abc_dirs_only 5 2 ⟨2, [122], 1, none⟩
      = (some (-EMLINK), state_abc_dirs_only) ∧
    hk_rename env0 rename_ext_ok state_ab 2 dentry_a 2 dentry_b 2 5
      = (some (-EINVAL), state_ab) :=
  ⟨invalid_arguments_rejected.1 env0 (ext_ok 8192) state_ab ⟨2, [], 0, none⟩ 5 0 true rfl,
    invalid_arguments_rejected.2.1 env0 ⟨none⟩ state_ab 2 ⟨2, [97], 256, none⟩ (by decide),
    invalid_arguments_rejected.2.2.1 env_link2 ⟨ext_ok 0, 9, 1⟩
      state_abc_dirs_only 5 2 ⟨2, [122], 1, none⟩ (by decide),
    invalid_arguments_rejected.2.2.2 env0 rename_ext_ok state_ab 2 dentry_a 2 dentry_b 2 5
      (by decide)⟩

/-! ## Facts about the circular hash table -/

theorem add_head_next (H : list_heap) (table slot key : Nat) :
    (chash_add_head H table slot key).next =
      Function.update (Function.update H.next slot (H.next (chash_sentinal table key)))
        (chash_sentinal table key) slot := by
  simp [chash_add_head]

theorem add_head_prev (H : list_heap) (table slot key : Nat) :
    (chash_add_head H table slot key).prev =
      Function.update (Function.update H.prev slot (chash_sentinal table key))
        (H.next (chash_sentinal table key)) slot := by
  simp only [chash_add_head]
  by_cases h : chash_sentinal table key = slot
  · simp [h]
  · simp [Function.update_noteq h]

theorem del_next (H : list_heap) (slot : Nat) :
    (chash_del H slot).next = Function.update H.next (H.prev slot) (H.next slot) := by
  simp [chash_del]

theorem del_prev (H : list_heap) (slot : Nat) :
    (chash_del H slot).prev = Function.update H.prev (H.next slot) (H.prev slot) := by
  simp only [chash_del]
  by_cases h : slot = H.prev slot
  · rw [← h]; simp
  · simp [Function.update_noteq h]

theorem chain_congr (nx pv nx2 pv2 : Nat → Nat) (L : List Nat) (b : Nat) :
    ∀ a, (∀ x, x ∈ a :: L → nx2 x = nx x) → (∀ x, x ∈ L ∨ x = b → pv2 x = pv x) →
      chain nx pv a L b → chain nx2 pv2 a L b := by
  induction L with
  | nil =>
    intro a hn hp h
    simp only [chain] at h ⊢
    rw [hn a (by simp), hp b (by simp)]
    exact h
  | cons x t ih =>
    intro a hn hp h
    simp only [chain] at h ⊢
    refine ⟨by rw [hn a (by simp)]; exact h.1, by rw [hp x (by simp)]; exact h.2.1, ?_⟩
    apply ih x _ _ h.2.2
    · intro y hy
      exact hn y (List.mem_cons_of_mem _ hy)
    · intro y hy
      rcases hy with hy | hy
      · exact hp y (Or.inl (List.mem_cons_of_mem _ hy))
      · exact hp y (Or.inr hy)

theorem chain_append (nx pv : Nat → Nat) (pre post : List Nat) (x b : Nat) :
    ∀ a, chain nx pv a (pre ++ x :: post) b ↔ chain nx pv a pre x ∧ chain nx pv x post b := by
  induction pre with
  | nil => intro a; simp [chain, and_assoc]
  | cons y t ih => intro a; simp [chain, ih, and_assoc]

theorem chain_prev_end (nx pv : Nat → Nat) (L : List Nat) (b : Nat) :
    ∀ a, chain nx pv a L b → pv b ∈ a :: L := by
  induction L with
  | nil => intro a h; simp only [chain] at h; simp [h.2]
  | cons x t ih => intro a h; simp only [chain] at h; exact List.mem_cons_of_mem _ (ih x h.2.2)

theorem chain_next_start (nx pv : Nat → Nat) (L : List Nat) (a b : Nat)
    (h : chain nx pv a L b) : nx a ∈ L ∨ nx a = b := by
  cases L with
  | nil => simp only [chain] at h; exact Or.inr h.1
  | cons x t => simp only [chain] at h; left; simp [h.1]

theorem chain_mem_prev (nx pv : Nat → Nat) (L : List Nat) (b : Nat) :
    ∀ a x, chain nx pv a L b → x ∈ L → pv x ∈ a :: L := by
  intro a x h hx
  obtain ⟨pre, post, rfl⟩ := List.append_of_mem hx
  have h1 := ((chain_append nx pv pre post x b a).1 h).1
  have := chain_prev_end nx pv pre x a h1
  simp only [List.mem_cons, List.mem_append] at this ⊢
  tauto

theorem chain_mem_next (nx pv : Nat → Nat) (L : List Nat) (b : Nat) :
    ∀ a x, chain nx pv a L b → x ∈ L → nx x ∈ L ∨ nx x = b := by
  intro a x h hx
  obtain ⟨pre, post, rfl⟩ := List.append_of_mem hx
  have h1 := ((chain_append nx pv pre post x b a).1 h).2
  have := chain_next_start nx pv post x b h1
  simp only [List.mem_cons, List.mem_append] at this ⊢
  tauto

theorem chain_unlink_pre (nx pv : Nat → Nat) (slot n : Nat) (pre : List Nat) :
    ∀ a, chain nx pv a pre slot → (a :: pre).Nodup → n ∉ pre →
      chain (Function.update nx (pv slot) n) (Function.update pv n (pv slot)) a pre n := by
  induction pre with
  | nil =>
    intro a h _ _
    simp only [chain] at h ⊢
    rw [h.2]
    simp
  | cons x t ih =>
    intro a h hnd hn
    simp only [chain] at h ⊢
    have hp := chain_prev_end nx pv t slot x h.2.2
    have hnd2 := List.nodup_cons.1 hnd
    have ha : a ≠ pv slot := by
      intro e
      rw [← e] at hp
      exact hnd2.1 hp
    have hx : x ≠ n := by
      intro e
      exact hn (by simp [e])
    refine ⟨?_, ?_, ?_⟩
    · rw [Function.update_noteq ha]; exact h.1
    · rw [Function.update_noteq hx]; exact h.2.1
    · exact ih x h.2.2 hnd2.2 (fun hm => hn (List.mem_cons_of_mem _ hm))

theorem ring_add (H : list_heap) (table key slot : Nat) (L : List Nat)
    (hr : chash_ring H table key L) (hs : slot ≠ chash_sentinal table key) (hl : slot ∉ L) :
    chash_ring (chash_add_head H table slot key) table key (slot :: L) := by
  obtain ⟨hc, hnd⟩ := hr
  have hnd2 := List.nodup_cons.1 hnd
  refine ⟨?_, ?_⟩
  · rw [add_head_next, add_head_prev]
    generalize chash_sentinal table key = s at *
    have hstart := chain_next_start _ _ _ _ _ hc
    have hns : H.next s ≠ slot := by
      rcases hstart with h | h
      · intro e; rw [e] at h; exact hl h
      · rw [h]; exact fun e => hs e.symm
    simp only [chain]
    refine ⟨by simp, ?_, ?_⟩
    · rw [Function.update_noteq hns.symm]; simp
    · cases L with
      | nil =>
        simp only [chain] at hc ⊢
        refine ⟨?_, ?_⟩
        · rw [Function.update_noteq hs]; simp [hc.1]
        · rw [hc.1]; simp
      | cons x t =>
        simp only [chain] at hc ⊢
        have hnd3 := List.nodup_cons.1 hnd2.2
        have hxs : x ≠ s := fun e => hnd2.1 (by simp [e])
        have hxslot : x ≠ slot := fun e => hl (by simp [e])
        refine ⟨?_, ?_, ?_⟩
        · rw [Function.update_noteq hs]; simp [hc.1]
        · rw [hc.1]; simp
        · apply chain_congr H.next H.prev _ _ t s x _ _ hc.2.2
          · intro y hy
            have hy1 : y ≠ s := fun e => hnd2.1 (by rw [← e]; exact hy)
            have hy2 : y ≠ slot := fun e => hl (by rw [← e]; exact hy)
            rw [Function.update_noteq hy1, Function.update_noteq hy2]
          · intro y hy
            have hy1 : y ≠ H.next s := by
              rw [hc.1]
              rcases hy with hy | hy
              · exact fun e => hnd3.1 (by rw [← e]; exact hy)
              · rw [hy]; exact hxs.symm
            have hy2 : y ≠ slot := by
              rcases hy with hy | hy
              · exact fun e => hl (by rw [← e]; exact List.mem_cons_of_mem _ hy)
              · rw [hy]; exact hs.symm
            rw [Function.update_noteq hy1, Function.update_noteq hy2]
  · rw [List.nodup_cons] at hnd ⊢
    refine ⟨?_, ?_⟩
    · simp only [List.mem_cons, not_or]
      exact ⟨hs.symm, hnd.1⟩
    · exact List.nodup_cons.2 ⟨hl, hnd.2⟩

theorem ring_del (H : list_heap) (table key slot : Nat) (L : List Nat)
    (hr : chash_ring H table key L) (hl : slot ∈ L) :
    chash_ring (chash_del H slot) table key (L.erase slot) := by
  obtain ⟨hc, hnd⟩ := hr
  refine ⟨?_, ?_⟩
  · rw [del_next, del_prev]
    generalize chash_sentinal table key = s at *
    obtain ⟨pre, post, rfl⟩ := List.append_of_mem hl
    have hnd2 := List.nodup_cons.1 hnd
    have hspre : s ∉ pre := fun h => hnd2.1 (by simp [h])
    have hspost : s ∉ post := fun h => hnd2.1 (by simp [h])
    have hsslot : s ≠ slot := fun e => hnd2.1 (by simp [e])
    have hnd3 := List.nodup_append.1 hnd2.2
    have hnd4 := List.nodup_cons.1 hnd3.2.1
    have hdis : ∀ y, y ∈ pre → y ∉ slot :: post := fun y hy hy2 => hnd3.2.2 hy hy2
    have hslotpre : slot ∉ pre := fun h => hdis slot h (by simp)
    have he : (pre ++ slot :: post).erase slot = pre ++ post := by
      rw [List.erase_append_right _ hslotpre]
      simp
    rw [he]
    obtain ⟨h1, h2⟩ := (chain_append _ _ pre post slot s s).1 hc
    have hpre_nd : (s :: pre).Nodup := List.nodup_cons.2 ⟨hspre, hnd3.1⟩
    cases post with
    | nil =>
      simp only [chain] at h2
      rw [h2.1, List.append_nil]
      exact chain_unlink_pre H.next H.prev slot s pre s h1 hpre_nd hspre
    | cons y t =>
      simp only [chain] at h2
      rw [h2.1, chain_append]
      have hnd5 := List.nodup_cons.1 hnd4.2
      have hypre : y ∉ pre := fun h => hdis y h (by simp)
      refine ⟨chain_unlink_pre H.next H.prev slot y pre s h1 hpre_nd hypre, ?_⟩
      have hp := chain_prev_end _ _ pre slot s h1
      apply chain_congr H.next H.prev _ _ t s y _ _ h2.2.2
      · intro z hz
        have : z ≠ H.prev slot := by
          intro e
          rw [← e] at hp
          rcases List.mem_cons.1 hp with h | h
          · rw [h] at hz
            rcases List.mem_cons.1 hz with h3 | h3
            · exact hspost (by rw [h3]; simp)
            · exact hspost (List.mem_cons_of_mem _ h3)
          · exact hdis z h (List.mem_cons_of_mem _ hz)
        rw [Function.update_noteq this]
      · intro z hz
        have : z ≠ y := by
          rcases hz with hz | hz
          · exact fun e => hnd5.1 (by rw [← e]; exact hz)
          · rw [hz]; exact fun e => hspost (by rw [e]; simp)
        rw [Function.update_noteq this]
  · exact (List.nodup_cons.1 hnd).2.erase slot |> fun h =>
      List.nodup_cons.2 ⟨fun hm => (List.nodup_cons.1 hnd).1 (List.mem_of_mem_erase hm), h⟩

theorem sentinal_inj (table k1 k2 : Nat) (h : chash_sentinal table k1 = chash_sentinal table k2) :
    k1 = k2 := by
  simp only [chash_sentinal, sizeof_list_head] at h
  omega

theorem shl_one_small (bits : Nat) (h : bits ≤ 30) : (shl_one bits).toNat = 2 ^ bits := by
  have h1 : (2 : Int) ^ bits ≤ 2 ^ 30 := pow_le_pow_right₀ (by norm_num) h
  have h0 : (0 : Int) < 2 ^ bits := by positivity
  have h2 : ((2 : Int) ^ bits + 2 ^ 31) % 2 ^ 32 = 2 ^ bits + 2 ^ 31 :=
    Int.emod_eq_of_lt (by positivity) (by norm_num at h1 ⊢; omega)
  unfold shl_one
  rw [h2]
  simp only [add_sub_cancel_right]
  exact_mod_cast Int.toNat_natCast (2 ^ bits)

theorem init_fold (H : list_heap) (table : Nat) :
    ∀ n k, k < n →
      ((List.range n).foldl
        (fun h i =>
          let sentinal := chash_sentinal table i
          let h1 := { h with next := Function.update h.next sentinal sentinal }
          { h1 with prev := Function.update h1.prev sentinal sentinal })
        H).next (chash_sentinal table k) = chash_sentinal table k ∧
      ((List.range n).foldl
        (fun h i =>
          let sentinal := chash_sentinal table i
          let h1 := { h with next := Function.update h.next sentinal sentinal }
          { h1 with prev := Function.update h1.prev sentinal sentinal })
        H).prev (chash_sentinal table k) = chash_sentinal table k := by
  intro n
  induction n with
  | zero => intro k hk; omega
  | succ n ih =>
    intro k hk
    rw [List.range_succ, List.foldl_append]
    simp only [List.foldl_cons, List.foldl_nil]
    by_cases hkn : k = n
    · subst hkn; simp
    · have hne : chash_sentinal table k ≠ chash_sentinal table n :=
        fun e => hkn (sentinal_inj _ _ _ e)
      simp only [Function.update_noteq hne]
      exact ih k (by omega)

theorem init_ring (H : list_heap) (table bits k : Nat) (hk : k < (shl_one bits).toNat) :
    chash_ring (chash_init H table bits) table k [] := by
  have h := init_fold H table (shl_one bits).toNat k hk
  exact ⟨⟨h.1, h.2⟩, by simp⟩

theorem add_all_ring (table key : Nat) (nodes : List Nat) :
    ∀ (H : list_heap) (L : List Nat), chash_ring H table key L →
      (nodes ++ L).Nodup → chash_sentinal table key ∉ nodes →
      chash_ring (nodes.foldl (fun h slot => chash_add_head h table slot key) H) table key
        (nodes.reverse ++ L) := by
  induction nodes with
  | nil => intro H L hr _ _; simpa using hr
  | cons x t ih =>
    intro H L hr hnd hs
    simp only [List.foldl_cons, List.reverse_cons, List.append_assoc, List.singleton_append]
    have hnd1 : (x :: (t ++ L)).Nodup := hnd
    have hxl : x ∉ L := fun h => (List.nodup_cons.1 hnd1).1 (List.mem_append_right _ h)
    exact ih _ (x :: L) (ring_add H table key x L hr (fun e => hs (by simp [e])) hxl)
      (List.nodup_middle.2 hnd1) (fun h => hs (List.mem_cons_of_mem _ h))

theorem del_all_ring (table key : Nat) (order : List Nat) :
    ∀ (H : list_heap) (L : List Nat), chash_ring H table key L → L.Perm order →
      chash_ring (order.foldl (fun h slot => chash_del h slot) H) table key [] := by
  induction order with
  | nil =>
    intro H L hr hp
    rw [List.perm_nil.1 hp] at hr
    simpa using hr
  | cons x t ih =>
    intro H L hr hp
    simp only [List.foldl_cons]
    have hx : x ∈ L := hp.symm.subset (by simp)
    apply ih _ (L.erase x) (ring_del H table key x L hr hx)
    exact ((List.perm_cons_erase hx).symm.trans hp).cons_inv

theorem init_inv (H : list_heap) (table bits : Nat) :
    chash_inv (chash_init H table bits) table (shl_one bits).toNat (fun _ => []) := by
  refine ⟨⟨fun _ _ => rfl, fun _ _ => List.nodup_nil, ?_, ?_⟩, fun k hk => init_ring H table bits k hk⟩
  · intro k1 k2 x _ _ h; simp at h
  · intro k k2 x _ _ h; simp at h

theorem ring_frame (H H2 : list_heap) (table k : Nat) (L : List Nat)
    (hn : ∀ x, x ∈ chash_sentinal table k :: L → H2.next x = H.next x)
    (hp : ∀ x, x ∈ chash_sentinal table k :: L → H2.prev x = H.prev x)
    (hr : chash_ring H table k L) : chash_ring H2 table k L := by
  refine ⟨chain_congr H.next H.prev _ _ L _ _ hn ?_ hr.1, hr.2⟩
  intro x hx
  apply hp
  rcases hx with hx | hx
  · exact List.mem_cons_of_mem _ hx
  · simp [hx]

theorem inv_add (H : list_heap) (table nb : Nat) (B : Nat → List Nat) (slot key : Nat)
    (hi : chash_inv H table nb B) (hok : chash_op_ok table nb B (chash_op.add_head slot key)) :
    chash_inv (chash_add_head H table slot key) table nb
      (spec_chash_step B (chash_op.add_head slot key)) := by
  obtain ⟨⟨hout, hnd, hcross, hsent⟩, hring⟩ := hi
  obtain ⟨hkey, hfresh, hns⟩ := hok
  simp only [spec_chash_step]
  refine ⟨⟨?_, ?_, ?_, ?_⟩, ?_⟩
  · intro k hk
    rw [Function.update_noteq (by omega)]
    exact hout k hk
  · intro k hk
    by_cases e : k = key
    · subst e
      simp only [Function.update_same]
      exact List.nodup_cons.2 ⟨hfresh k hk, hnd k hk⟩
    · rw [Function.update_noteq e]; exact hnd k hk
  · intro k1 k2 x h1 h2 hx1 hx2
    by_cases e1 : k1 = key <;> by_cases e2 : k2 = key
    · rw [e1, e2]
    · subst e1
      rw [Function.update_same] at hx1
      rw [Function.update_noteq e2] at hx2
      rcases List.mem_cons.1 hx1 with e | hx1
      · rw [e] at hx2; exact absurd hx2 (hfresh k2 h2)
      · exact hcross _ _ x h1 h2 hx1 hx2
    · subst e2
      rw [Function.update_same] at hx2
      rw [Function.update_noteq e1] at hx1
      rcases List.mem_cons.1 hx2 with e | hx2
      · rw [e] at hx1; exact absurd hx1 (hfresh k1 h1)
      · exact hcross _ _ x h1 h2 hx1 hx2
    · rw [Function.update_noteq e1] at hx1
      rw [Function.update_noteq e2] at hx2
      exact hcross _ _ x h1 h2 hx1 hx2
  · intro k k2 x h1 h2 hx
    by_cases e : k = key
    · subst e
      rw [Function.update_same] at hx
      rcases List.mem_cons.1 hx with e | hx
      · rw [e]; exact hns k2 h2
      · exact hsent _ _ x h1 h2 hx
    · rw [Function.update_noteq e] at hx
      exact hsent _ _ x h1 h2 hx
  · intro k hk
    by_cases e : k = key
    · subst e
      rw [Function.update_same]
      exact ring_add H table k slot (B k) (hring k hk) (hns k hk) (hfresh k hk)
    · rw [Function.update_noteq e]
      have hstart := chain_next_start _ _ _ _ _ (hring key hkey).1
      have hne : ∀ x, x ∈ chash_sentinal table k :: B k →
          x ≠ slot ∧ x ≠ chash_sentinal table key ∧ x ≠ H.next (chash_sentinal table key) := by
        intro x hx
        rcases List.mem_cons.1 hx with hx | hx
        · subst hx
          refine ⟨(hns k hk).symm, fun h => e (sentinal_inj _ _ _ h), ?_⟩
          rcases hstart with h | h
          · exact fun h2 => hsent key k _ hkey hk h h2.symm
          · rw [h]; exact fun h => e (sentinal_inj _ _ _ h)
        · refine ⟨fun h => hfresh k hk (by rw [← h]; exact hx), hsent k key x hk hkey hx, ?_⟩
          rcases hstart with h | h
          · intro h2
            rw [← h2] at h
            exact e (hcross k key x hk hkey hx h)
          · rw [h]; exact hsent k key x hk hkey hx
      apply ring_frame H _ table k (B k) _ _ (hring k hk)
      · intro x hx
        obtain ⟨h1, h2, _⟩ := hne x hx
        rw [add_head_next, Function.update_noteq h2, Function.update_noteq h1]
      · intro x hx
        obtain ⟨h1, _, h3⟩ := hne x hx
        rw [add_head_prev, Function.update_noteq h3, Function.update_noteq h1]

theorem inv_del (H : list_heap) (table nb : Nat) (B : Nat → List Nat) (slot : Nat)
    (hi : chash_inv H table nb B) (hok : chash_op_ok table nb B (chash_op.del slot)) :
    chash_inv (chash_del H slot) table nb (spec_chash_step B (chash_op.del slot)) := by
  obtain ⟨⟨hout, hnd, hcross, hsent⟩, hring⟩ := hi
  obtain ⟨k0, hk0, hin⟩ := hok
  simp only [spec_chash_step]
  refine ⟨⟨?_, ?_, ?_, ?_⟩, ?_⟩
  · intro k hk
    show (B k).erase slot = []
    rw [hout k hk]; rfl
  · intro k hk
    exact (hnd k hk).erase slot
  · intro k1 k2 x h1 h2 hx1 hx2
    exact hcross k1 k2 x h1 h2 (List.mem_of_mem_erase hx1) (List.mem_of_mem_erase hx2)
  · intro k k2 x h1 h2 hx
    exact hsent k k2 x h1 h2 (List.mem_of_mem_erase hx)
  · intro k hk
    show chash_ring (chash_del H slot) table k ((B k).erase slot)
    by_cases e : k = k0
    · subst e
      exact ring_del H table k slot (B k) (hring k hk) hin
    · have hnot : slot ∉ B k := fun h => e (hcross k k0 slot hk hk0 h hin)
      rw [List.erase_of_not_mem hnot]
      have hp := chain_mem_prev _ _ _ _ _ slot (hring k0 hk0).1 hin
      have hn := chain_mem_next _ _ _ _ _ slot (hring k0 hk0).1 hin
      have hne : ∀ x, x ∈ chash_sentinal table k :: B k →
          x ≠ H.prev slot ∧ x ≠ H.next slot := by
        intro x hx
        have hx0 : x ∉ chash_sentinal table k0 :: B k0 := by
          intro h0
          rcases List.mem_cons.1 hx with hx | hx <;> rcases List.mem_cons.1 h0 with h0 | h0
          · rw [hx] at h0; exact e (sentinal_inj _ _ _ h0)
          · rw [hx] at h0; exact hsent k0 k _ hk0 hk h0 rfl
          · exact hsent k k0 x hk hk0 hx h0
          · exact e (hcross k k0 x hk hk0 hx h0)
        refine ⟨fun h => hx0 (by rw [h]; exact hp), fun h => hx0 ?_⟩
        rw [h]
        rcases hn with h1 | h1
        · exact List.mem_cons_of_mem _ h1
        · rw [h1]; simp
      apply ring_frame H _ table k (B k) _ _ (hring k hk)
      · intro x hx
        rw [del_next, Function.update_noteq (hne x hx).1]
      · intro x hx
        rw [del_prev, Function.update_noteq (hne x hx).2]

theorem inv_run (table nb : Nat) (ops : List chash_op) :
    ∀ (H : list_heap) (B : Nat → List Nat), chash_inv H table nb B →
      chash_ops_ok table nb B ops →
      chash_inv (chash_run table H ops) table nb (spec_chash_run B ops) := by
  induction ops with
  | nil => intro H B hi _; exact hi
  | cons op rest ih =>
    intro H B hi hok
    simp only [chash_ops_ok] at hok
    simp only [chash_run, spec_chash_run, List.foldl_cons]
    apply ih _ _ _ hok.2
    cases op with
    | add_head slot key => exact inv_add H table nb B slot key hi hok.1
    | del slot => exact inv_del H table nb B slot hi hok.1

theorem chain_walk_exact (H : list_heap) (s : Nat) (L : List Nat) :
    ∀ a fuel, chain H.next H.prev a L s → s ∉ L →
      chash_walk H s fuel (H.next a) = if L.length ≤ fuel then some L else none := by
  induction L with
  | nil =>
    intro a fuel h _
    simp only [chain] at h
    rw [h.1]
    cases fuel <;> simp [chash_walk]
  | cons x t ih =>
    intro a fuel h hs
    simp only [chain] at h
    have hx : x ≠ s := fun e => hs (by simp [e])
    rw [h.1]
    cases fuel with
    | zero => simp [chash_walk, hx]
    | succ f =>
      simp only [chash_walk, if_neg hx]
      rw [ih x f h.2.2 (fun hm => hs (List.mem_cons_of_mem _ hm))]
      by_cases hf : t.length ≤ f <;> simp [hf]

/-! ## C17 -/

/-- C17, as stated, fails: for `bits = 31` the `int` value of `1 << bits` is negative, the
loop of `chash_init` makes no pass, and bucket 0 of the table at address 16, with no node
inserted and none removed, is not empty: its sentinel's `next` and `prev` are still 0. -/
theorem chash_init_wide_counterexample :
    ¬ (∀ (bits key : Nat), key < 2 ^ bits →
        ∀ (nodes order : List Nat), nodes.Nodup → order.Perm nodes →
          chash_sentinal 16 key ∉ nodes →
          (order.foldl (fun h slot => chash_del h slot)
              (nodes.foldl (fun h slot => chash_add_head h 16 slot key)
                (chash_init heap0 16 bits))).next (chash_sentinal 16 key) =
            chash_sentinal 16 key ∧
          (order.foldl (fun h slot => chash_del h slot)
              (nodes.foldl (fun h slot => chash_add_head h 16 slot key)
                (chash_init heap0 16 bits))).prev (chash_sentinal 16 key) =
            chash_sentinal 16 key) := by
  intro h
  have h1 := (h 31 0 (by norm_num) [] [] (by simp) (List.Perm.refl _) (by simp)).1
  revert h1
  decide

/-- C17, amended: for every `bits` from 0 to 30 (where the `int` value of `1 << bits` is
`2 ^ bits`), every bucket `key < 2 ^ bits` of a table initialised by `chash_init`, every
list of distinct nodes (none of them the bucket's sentinel) and every permutation `order`
of it, inserting the nodes into the bucket with `chash_add_head` and then removing them
with `chash_del` in the order `order` leaves the bucket empty: `sentinel.next == sentinel`
and `sentinel.prev == sentinel`. -/
theorem insert_all_remove_all (H : list_heap) (table bits key : Nat) (nodes order : List Nat)
    (hbits : bits ≤ 30) (hkey : key < 2 ^ bits) (hnd : nodes.Nodup)
    (hs : chash_sentinal table key ∉ nodes) (hp : order.Perm nodes) :
    (order.foldl (fun h slot => chash_del h slot)
        (nodes.foldl (fun h slot => chash_add_head h table slot key)
          (chash_init H table bits))).next (chash_sentinal table key) =
      chash_sentinal table key ∧
    (order.foldl (fun h slot => chash_del h slot)
        (nodes.foldl (fun h slot => chash_add_head h table slot key)
          (chash_init H table bits))).prev (chash_sentinal table key) =
      chash_sentinal table key := by
  have h0 := init_ring H table bits key (by rw [shl_one_small bits hbits]; exact hkey)
  have h1 := add_all_ring table key nodes _ [] h0 (by simpa using hnd) hs
  rw [List.append_nil] at h1
  have h2 := del_all_ring table key order _ nodes.reverse h1
    ((List.reverse_perm nodes).trans hp.symm)
  exact ⟨h2.1.1, h2.1.2⟩

/-- The amended C17 on a table of 4 buckets at address 16: the nodes 100, 200, 300 are
inserted into bucket 1 and removed in the order 200, 300, 100. -/
theorem insert_all_remove_all_witness :
    (([200, 300, 100] : List Nat).foldl (fun h slot => chash_del h slot)
        (([100, 200, 300] : List Nat).foldl (fun h slot => chash_add_head h 16 slot 1)
          (chash_init heap0 16 2))).next (chash_sentinal 16 1) = chash_sentinal 16 1 ∧
    (([200, 300, 100] : List Nat).foldl (fun h slot => chash_del h slot)
        (([100, 200, 300] : List Nat).foldl (fun h slot => chash_add_head h 16 slot 1)
          (chash_init heap0 16 2))).prev (chash_sentinal 16 1) = chash_sentinal 16 1 :=
  insert_all_remove_all heap0 16 2 1 [100, 200, 300] [200, 300, 100] (by decide) (by decide)
    (by decide) (by decide) (by decide)

/-! ## C18 -/

/-- C18. Iteration order: on a table initialised by `chash_init`, after every sequence of
`chash_add_head` insertions of nodes that are not inserted (and are not sentinels of the
table) and `chash_del` removals of inserted nodes, `chash_for_each_possible` on a bucket
of the table visits exactly the list of the nodes currently inserted in that bucket, most
recently inserted first, a removal having taken its node out and kept the order of the
others (`spec_chash_run`); the list has no node twice and does not contain the sentinel;
the loop ends after as many visits as the bucket holds nodes (with less fuel the model
does not finish, with that much or more it returns the list). -/
theorem for_each_visits_inserted (H : list_heap) (table bits : Nat) (ops : List chash_op)
    (key : Nat) (hkey : key < (shl_one bits).toNat)
    (hok : chash_ops_ok table (shl_one bits).toNat (fun _ => []) ops) :
    (∀ fuel, (spec_chash_run (fun _ => []) ops key).length ≤ fuel →
      chash_for_each_possible (chash_run table (chash_init H table bits) ops) table key fuel =
        some (spec_chash_run (fun _ => []) ops key)) ∧
    (∀ fuel, fuel < (spec_chash_run (fun _ => []) ops key).length →
      chash_for_each_possible (chash_run table (chash_init H table bits) ops) table key fuel =
        none) ∧
    (spec_chash_run (fun _ => []) ops key).Nodup ∧
    chash_sentinal table key ∉ spec_chash_run (fun _ => []) ops key := by
  have hi := inv_run table _ ops _ _ (init_inv H table bits) hok
  have hr := hi.2 key hkey
  have hs := (List.nodup_cons.1 hr.2).1
  refine ⟨?_, ?_, (List.nodup_cons.1 hr.2).2, hs⟩
  · intro fuel hf
    unfold chash_for_each_possible
    rw [chain_walk_exact _ _ _ _ fuel hr.1 hs, if_pos hf]
  · intro fuel hf
    unfold chash_for_each_possible
    rw [chain_walk_exact _ _ _ _ fuel hr.1 hs, if_neg (by omega)]

/-- C18 on a table of 4 buckets at address 16: 100, 200 and 400 are inserted into bucket 1
and 300 into bucket 2, then 200 is removed; the loop on bucket 1 visits 400, 100. -/
theorem for_each_visits_inserted_witness :
    chash_for_each_possible
        (chash_run 16 (chash_init heap0 16 2)
          [chash_op.add_head 100 1, chash_op.add_head 200 1, chash_op.add_head 300 2,
            chash_op.add_head 400 1, chash_op.del 200]) 16 1 2 = some [400, 100] :=
  (for_each_visits_inserted heap0 16 2
    [chash_op.add_head 100 1, chash_op.add_head 200 1, chash_op.add_head 300 2,
      chash_op.add_head 400 1, chash_op.del 200] 1 (by decide)
    (by
      simp only [chash_ops_ok, chash_op_ok, spec_chash_step]
      decide)).1 2 (by decide)

/-! ## Facts about link counts across rename -/

theorem add_dentry_inodes (E : hk_env) (x : append_ext) (s : hk_state) (dentry : vfs_dentry)
    (ino lc : Nat) (og : Bool) (i : Nat) :
    ((hk_add_dentry E x s dentry ino lc og).st.inodes i).i_mode = (s.inodes i).i_mode ∧
    ((hk_add_dentry E x s dentry ino lc og).st.inodes i).i_nlink = (s.inodes i).i_nlink := by
  unfold hk_add_dentry hk_append_dentry_innvm hk_append_dentry_remove hk_append_dentry_write
  simp only []
  split_ifs <;> (try split) <;>
    first
    | exact ⟨rfl, rfl⟩
    | (simp only [Function.update_apply]; split_ifs with h <;>
        first | exact ⟨rfl, rfl⟩ | (subst h; exact ⟨rfl, rfl⟩))

/-- C24. Removal is an in-place invalidation that ignores the link delta: a call of
`hk_append_dentry_innvm` with `ino = 0` on a name for which the index holds a node
returns 0 and stores only `tstamp` and `valid = 0` of the record that node references:
the other fields of that record, every other record, `i_num_dentrys`, linix, the headers
of other directories, the inodes and the inode valid bytes are unchanged; the result is the
same for every `link_change`, so the `dec_link` that step (c) of `hk_rename` passes is
never stored; when the index holds no node for the name the call returns `-ENOENT` and
the state is unchanged. -/
theorem removal_in_place (E : hk_env) (x : append_ext) (s : hk_state) (dir : Nat)
    (name : List Nat) (namelen lc : Nat) (og : Bool) :
    (∀ di, hk_search_dir_table E s.pm (s.headers dir) name namelen = some di →
      (hk_append_dentry_innvm E x s dir name namelen 0 lc og).ret = some 0 ∧
      (hk_append_dentry_innvm E x s dir name namelen 0 lc og).st.pm di.direntry
        = { (s.pm di.direntry) with tstamp := x.version, valid := 0 } ∧
      (∀ a, a ≠ di.direntry →
        (hk_append_dentry_innvm E x s dir name namelen 0 lc og).st.pm a = s.pm a) ∧
      ((hk_append_dentry_innvm E x s dir name namelen 0 lc og).st.headers dir).i_num_dentrys
        = (s.headers dir).i_num_dentrys ∧
      ((hk_append_dentry_innvm E x s dir name namelen 0 lc og).st.headers dir).ix
        = (s.headers dir).ix ∧
      (∀ d, d ≠ dir →
        (hk_append_dentry_innvm E x s dir name namelen 0 lc og).st.headers d = s.headers d) ∧
      (hk_append_dentry_innvm E x s dir name namelen 0 lc og).st.inodes = s.inodes ∧
      (hk_append_dentry_innvm E x s dir name namelen 0 lc og).st.pi_valid = s.pi_valid) ∧
    (hk_search_dir_table E s.pm (s.headers dir) name namelen = none →
      hk_append_dentry_innvm E x s dir name namelen 0 lc og = ⟨some (-ENOENT), none, s⟩) ∧
    (∀ lc2, hk_append_dentry_innvm E x s dir name namelen 0 lc og
      = hk_append_dentry_innvm E x s dir name namelen 0 lc2 og) ∧
    (∀ (y : rename_ext) (od : vfs_dentry) (odir : Nat) (dec1 dec2 : Int),
      (hk_rename_c E y s od odir dec1).st.pm = (hk_rename_c E y s od odir dec2).st.pm) := by
  refine ⟨?_, ?_, fun _ => rfl, ?_⟩
  · intro di hdi
    unfold hk_append_dentry_innvm
    rw [if_pos rfl]
    unfold hk_append_dentry_remove
    rw [hdi]
    refine ⟨rfl, ?_, ?_, ?_, ?_, ?_, rfl, rfl⟩
    · simp [dentry_invalidate]
    · intro a ha
      simp [dentry_invalidate, Function.update_noteq ha]
    · simp [hk_remove_dir_table]
    · simp [hk_remove_dir_table]
    · intro d hd
      exact Function.update_noteq hd _ _
  · intro hnone
    unfold hk_append_dentry_innvm
    rw [if_pos rfl]
    unfold hk_append_dentry_remove
    rw [hnone]
  · intro y od odir dec1 dec2
    rw [(rename_c_frame E y s od odir dec1).2.1, (rename_c_frame E y s od odir dec2).2.1]
    rfl

/-- C24 in directory 2 holding "a" (record 8192, inode 5) and "b": removing "a" with
`link_change = 65535` returns 0 and leaves the record with `valid = 0`, its `ino` 5 and
its `links_count` 0; removing "z" returns `-ENOENT` and leaves the state as it was. -/
theorem removal_in_place_witness :
    (hk_append_dentry_innvm env0 (ext_ok 0) state_ab 2 [97] 1 0 65535 true).ret = some 0 ∧
    (hk_append_dentry_innvm env0 (ext_ok 0) state_ab 2 [97] 1 0 65535 true).st.pm 8192
      = { (state_ab.pm 8192) with tstamp := 1, valid := 0 } ∧
    hk_append_dentry_innvm env0 (ext_ok 0) state_ab 2 [122] 1 0 65535 true
      = ⟨some (-ENOENT), none, state_ab⟩ :=
  ⟨((removal_in_place env0 (ext_ok 0) state_ab 2 [97] 1 65535 true).1 ⟨97, 8192⟩
      (by decide)).1,
    ((removal_in_place env0 (ext_ok 0) state_ab 2 [97] 1 65535 true).1 ⟨97, 8192⟩
      (by decide)).2.1,
    (removal_in_place env0 (ext_ok 0) state_ab 2 [122] 1 65535 true).2.1 (by decide)⟩

/-! ## C25 -/

theorem create_nlink (E : hk_env) (x : create_ext) (s : hk_state) (dir : Nat)
    (dentry : vfs_dentry) (mode : Nat) (i : Nat) :
    ((__hk_create E x s dir dentry mode).2.inodes i).i_nlink = (s.inodes i).i_nlink := by
  have h := (add_dentry_inodes E x.app (emit s [hk_event.alloc_ino]) dentry x.ino 0 true i).2
  unfold __hk_create
  simp only []
  split_ifs <;> (try split) <;> (try split_ifs) <;> (try split) <;>
    first | rfl | exact h

/-- C25. `hk_mkdir` and the parent's link count: the value of `hk_mkdir` is the value of
`__hk_create` (called with `S_IFDIR | mode`), and whenever `__hk_create` returns, with 0
or with an error, `inc_nlink(dir)` has run: the parent's in-memory link count after the
call is `inc_nlink` of its value before, that is the value before plus one as long as the
`unsigned int` does not wrap; dentry records, inode valid bits, headers and the effect
trace are those left by `__hk_create`. -/
theorem mkdir_parent_link_count (E : hk_env) (x : create_ext) (s : hk_state) (dir : Nat)
    (dentry : vfs_dentry) (mode : Nat) :
    (hk_mkdir E x s dir dentry mode).1 = (__hk_create E x s dir dentry (S_IFDIR ||| mode)).1 ∧
    (∀ err, (__hk_create E x s dir dentry (S_IFDIR ||| mode)).1 = some err →
      ((hk_mkdir E x s dir dentry mode).2.inodes dir).i_nlink
        = inc_nlink (s.inodes dir).i_nlink ∧
      ((s.inodes dir).i_nlink + 1 < 2 ^ 32 →
        ((hk_mkdir E x s dir dentry mode).2.inodes dir).i_nlink
          = (s.inodes dir).i_nlink + 1) ∧
      (∀ i, i ≠ dir → (hk_mkdir E x s dir dentry mode).2.inodes i
        = (__hk_create E x s dir dentry (S_IFDIR ||| mode)).2.inodes i)) ∧
    (hk_mkdir E x s dir dentry mode).2.pm
      = (__hk_create E x s dir dentry (S_IFDIR ||| mode)).2.pm ∧
    (hk_mkdir E x s dir dentry mode).2.pi_valid
      = (__hk_create E x s dir dentry (S_IFDIR ||| mode)).2.pi_valid ∧
    (hk_mkdir E x s dir dentry mode).2.headers
      = (__hk_create E x s dir dentry (S_IFDIR ||| mode)).2.headers ∧
    (hk_mkdir E x s dir dentry mode).2.trace
      = (__hk_create E x s dir dentry (S_IFDIR ||| mode)).2.trace := by
  have hn := create_nlink E x s dir dentry (S_IFDIR ||| mode) dir
  unfold hk_mkdir
  simp only []
  generalize __hk_create E x s dir dentry (S_IFDIR ||| mode) = r at hn ⊢
  obtain ⟨ret, st⟩ := r
  cases ret with
  | none =>
    refine ⟨rfl, ?_, rfl, rfl, rfl, rfl⟩
    intro err h
    simp at h
  | some e =>
    refine ⟨rfl, ?_, rfl, rfl, rfl, rfl⟩
    intro err _
    simp only [] at hn ⊢
    have h1 : (Function.update st.inodes dir
        { st.inodes dir with i_nlink := inc_nlink (st.inodes dir).i_nlink } dir).i_nlink
        = inc_nlink (s.inodes dir).i_nlink := by
      rw [Function.update_same, hn]
    refine ⟨h1, ?_, ?_⟩
    · intro hlt
      rw [h1]
      unfold inc_nlink
      exact Nat.mod_eq_of_lt hlt
    · intro i hi
      exact Function.update_noteq hi _ _

/-- C25 in `state0`, directory 2 (link count 1), name "a": with `hk_start_tx` returning
-5 the call returns -5 and the link count is 2; with every external call succeeding it
returns 0 and the link count is 2. -/
theorem mkdir_parent_link_count_witness :
    (hk_mkdir env0 ⟨5, ext_ok 8192, none, -5⟩ state0 2 dentry_a_neg 0).1 = some (-5) ∧
    ((hk_mkdir env0 ⟨5, ext_ok 8192, none, -5⟩ state0 2 dentry_a_neg 0).2.inodes 2).i_nlink
      = (state0.inodes 2).i_nlink + 1 ∧
    ((hk_mkdir env0 ⟨5, ext_ok 8192, none, 1⟩ state0 2 dentry_a_neg 0).2.inodes 2).i_nlink
      = (state0.inodes 2).i_nlink + 1 :=
  ⟨by decide,
    ((mkdir_parent_link_count env0 ⟨5, ext_ok 8192, none, -5⟩ state0 2 dentry_a_neg 0).2.1
      (-5) (by decide)).2.1 (by decide),
    ((mkdir_parent_link_count env0 ⟨5, ext_ok 8192, none, 1⟩ state0 2 dentry_a_neg 0).2.1
      0 (by decide)).2.1 (by decide)⟩

/-! ## C26 -/

/-- C26. Transaction start helpers and the inode valid bit: `hk_start_tx_for_new_inode`
calls `hk_start_tx` once, with the kind MKDIR for `S_IFDIR`, CREATE for `S_IFREG`, LINK for
`S_IFLNK` and CREATE for every other file type, returns the value `txid` that `hk_start_tx`
returned, and, whatever that value is, stores 1 into the valid byte of the inode record
and changes no other valid byte; `hk_start_tx_for_unlink` returns the value of
`hk_start_tx` and, whatever it is, stores 0 into the valid byte of the inode record when
`invalidate` is true and stores nothing when it is false. -/
theorem tx_start_helpers_valid_bit :
    (∀ (mode : Nat),
      (mode &&& S_IFMT = S_IFDIR → new_inode_tx_kind mode = tx_kind.MKDIR) ∧
      (mode &&& S_IFMT = S_IFREG → new_inode_tx_kind mode = tx_kind.CREATE) ∧
      (mode &&& S_IFMT = S_IFLNK → new_inode_tx_kind mode = tx_kind.LINK) ∧
      (mode &&& S_IFMT ≠ S_IFDIR → mode &&& S_IFMT ≠ S_IFREG → mode &&& S_IFMT ≠ S_IFLNK →
        new_inode_tx_kind mode = tx_kind.CREATE)) ∧
    (∀ (E : hk_env) (txid : Int) (s : hk_state) (ino direntry dir_ino mode : Nat),
      (hk_start_tx_for_new_inode E txid s ino direntry dir_ino mode).1 = txid ∧
      (hk_start_tx_for_new_inode E txid s ino direntry dir_ino mode).2.pi_valid
        (E.hk_get_pi_by_ino ino) = 1 ∧
      (∀ a, a ≠ E.hk_get_pi_by_ino ino →
        (hk_start_tx_for_new_inode E txid s ino direntry dir_ino mode).2.pi_valid a
          = s.pi_valid a) ∧
      (hk_start_tx_for_new_inode E txid s ino direntry dir_ino mode).2.trace
        = s.trace ++ [hk_event.create_al_snapshot (E.hk_get_pi_by_ino dir_ino),
          hk_event.start_tx (new_inode_tx_kind mode) (E.hk_get_pi_by_ino ino) direntry,
          hk_event.st_pi_valid (E.hk_get_pi_by_ino ino) 1]) ∧
    (∀ (txid : Int) (s : hk_state) (pi direntry pidir : Nat) (invalidate : Bool),
      (hk_start_tx_for_unlink txid s pi direntry pidir invalidate).1 = txid ∧
      (invalidate = true →
        (hk_start_tx_for_unlink txid s pi direntry pidir invalidate).2.pi_valid pi = 0) ∧
      (invalidate = false →
        (hk_start_tx_for_unlink txid s pi direntry pidir invalidate).2.pi_valid
          = s.pi_valid) ∧
      (∀ a, a ≠ pi →
        (hk_start_tx_for_unlink txid s pi direntry pidir invalidate).2.pi_valid a
          = s.pi_valid a) ∧
      (hk_start_tx_for_unlink txid s pi direntry pidir invalidate).2.trace
        = s.trace ++ [hk_event.create_al_snapshot pidir, hk_event.create_al_snapshot pi,
            hk_event.start_tx tx_kind.UNLINK pi direntry] ++
          (if invalidate = true then [hk_event.st_pi_valid pi 0] else [])) := by
  refine ⟨?_, ?_, ?_⟩
  · intro mode
    unfold new_inode_tx_kind
    refine ⟨fun h => by rw [if_pos h], ?_, ?_, ?_⟩
    · intro h
      rw [if_neg (by rw [h]; decide), if_pos h]
    · intro h
      rw [if_neg (by rw [h]; decide), if_neg (by rw [h]; decide), if_pos h]
    · intro h1 h2 h3
      rw [if_neg h1, if_neg h2, if_neg h3]
  · intro E txid s ino direntry dir_ino mode
    unfold hk_start_tx_for_new_inode
    refine ⟨rfl, ?_, ?_, rfl⟩
    · simp
    · intro a ha
      simp [Function.update_noteq ha]
  · intro txid s pi direntry pidir invalidate
    unfold hk_start_tx_for_unlink emit
    cases invalidate with
    | true =>
      refine ⟨rfl, fun _ => by simp, fun h => (by cases h), ?_, by simp⟩
      intro a ha
      simp [Function.update_noteq ha]
    | false =>
      refine ⟨rfl, fun h => (by cases h), fun _ => rfl, fun _ _ => rfl, by simp⟩

/-- C26 at concrete calls: the kind for `S_IFDIR | 0755` is MKDIR; with `hk_start_tx`
returning -5 the helper for a new inode returns -5 and the valid byte of inode 7 is 1; the
helper for unlink with `invalidate` true and `hk_start_tx` returning -5 leaves the valid
byte 0, and with `invalidate` false it leaves the valid bytes as they were. -/
theorem tx_start_helpers_valid_bit_witness :
    new_inode_tx_kind (S_IFDIR ||| 493) = tx_kind.MKDIR ∧
    new_inode_tx_kind 4096 = tx_kind.CREATE ∧
    (hk_start_tx_for_new_inode env0 (-5) state0 7 8192 2 S_IFREG).1 = -5 ∧
    (hk_start_tx_for_new_inode env0 (-5) state0 7 8192 2 S_IFREG).2.pi_valid
      (env0.hk_get_pi_by_ino 7) = 1 ∧
    (hk_start_tx_for_unlink (-5) state0 1000896 8192 1000256 true).2.pi_valid 1000896 = 0 ∧
    (hk_start_tx_for_unlink (-5) state0 1000896 8192 1000256 false).2.pi_valid
      = state0.pi_valid :=
  ⟨(tx_start_helpers_valid_bit.1 (S_IFDIR ||| 493)).1 (by decide),
    (tx_start_helpers_valid_bit.1 4096).2.2.2 (by decide) (by decide) (by decide),
    (tx_start_helpers_valid_bit.2.1 env0 (-5) state0 7 8192 2 S_IFREG).1,
    (tx_start_helpers_valid_bit.2.1 env0 (-5) state0 7 8192 2 S_IFREG).2.1,
    (tx_start_helpers_valid_bit.2.2 (-5) state0 1000896 8192 1000256 true).2.1 rfl,
    (tx_start_helpers_valid_bit.2.2 (-5) state0 1000896 8192 1000256 false).2.2.1 rfl⟩

/-! ## C22 -/

/-- C22, as stated, fails: the first append to the empty directory 2 takes the block at
8192 from the allocator; its effects store the fields of the record at 8192 first and call
`use_layout_for_addr(8192)` after them. -/
theorem use_layout_order_counterexample :
    (hk_append_dentry_innvm env0 (ext_ok 8192) state0 2 [97] 1 5 0 true).st.trace =
      [hk_event.prepare_layouts] ++ dentry_stores 8192 ++
        [hk_event.use_layout_for_addr 8192, hk_event.sm_valid_data_sync 8192 0,
          hk_event.unuse_layout_for_addr 8192, hk_event.linix_insert 0 8192,
          hk_event.flush_buffer 8192 false, hk_event.alloc_dentry_info true] ∧
    spec_marked_before_content 8192 0 8192
      (hk_append_dentry_innvm env0 (ext_ok 8192) state0 2 [97] 1 5 0 true).st.trace = false ∧
    occurs_before (hk_event.use_layout_for_addr 8192)
      (hk_event.st_dentry 8192 dentry_field.ino)
      (hk_append_dentry_innvm env0 (ext_ok 8192) state0 2 [97] 1 5 0 true).st.trace = false := by
  decide

/-- C22, amended: in every `hk_append_dentry_innvm` call that takes a new dentry block
(`ino != 0`, slot 0, nothing in linix for the logical block, the allocator delivering a
block), the effects of the call are, in this order: the allocator calls, the stores of all
fields of the record at slot 0 of the block, `use_layout_for_addr` on the block,
`sm_valid_data_sync` linking it into the append chain, `unuse_layout_for_addr`,
`linix_insert`, the flush of the record, and the allocation of the index node.  So the
block is marked in use after the record is written, and it is linked into the append
chain and recorded in linix after that content write. -/
theorem new_block_effect_order (E : hk_env) (x : append_ext) (s : hk_state) (dir : Nat)
    (name : List Nat) (namelen ino lc : Nat) (og : Bool)
    (hino : ino ≠ 0)
    (hslot : (s.headers dir).i_num_dentrys % E.MAX_DENTRY_PER_BLK = 0)
    (hix : linix_get (s.headers dir).ix
      ((s.headers dir).i_num_dentrys / E.MAX_DENTRY_PER_BLK) = 0)
    (hret : (hk_append_dentry_innvm E x s dir name namelen ino lc og).ret ≠ none) :
    (hk_append_dentry_innvm E x s dir name namelen ino lc og).st.trace =
      s.trace ++
        (if x.prep = none then [hk_event.prepare_layouts, hk_event.prepare_gap]
          else [hk_event.prepare_layouts]) ++
        dentry_stores (hk_dentry_by_ix_from_blk E (ext_blk_addr x) 0) ++
        [hk_event.use_layout_for_addr (ext_blk_addr x),
          hk_event.sm_valid_data_sync (ext_blk_addr x)
            ((s.headers dir).i_num_dentrys / E.MAX_DENTRY_PER_BLK),
          hk_event.unuse_layout_for_addr (ext_blk_addr x),
          hk_event.linix_insert ((s.headers dir).i_num_dentrys / E.MAX_DENTRY_PER_BLK)
            (ext_blk_addr x),
          hk_event.flush_buffer (hk_dentry_by_ix_from_blk E (ext_blk_addr x) 0) false,
          hk_event.alloc_dentry_info x.di_alloc] ∧
    content_before_marked (ext_blk_addr x)
      ((s.headers dir).i_num_dentrys / E.MAX_DENTRY_PER_BLK)
      (hk_dentry_by_ix_from_blk E (ext_blk_addr x) 0)
      ((hk_append_dentry_innvm E x s dir name namelen ino lc og).st.trace.drop
        s.trace.length) = true ∧
    (∀ st, st ∈ dentry_stores (hk_dentry_by_ix_from_blk E (ext_blk_addr x) 0) →
      occurs_before st
        (hk_event.sm_valid_data_sync (ext_blk_addr x)
          ((s.headers dir).i_num_dentrys / E.MAX_DENTRY_PER_BLK))
        ((hk_append_dentry_innvm E x s dir name namelen ino lc og).st.trace.drop
          s.trace.length) = true ∧
      occurs_before st
        (hk_event.linix_insert ((s.headers dir).i_num_dentrys / E.MAX_DENTRY_PER_BLK)
          (ext_blk_addr x))
        ((hk_append_dentry_innvm E x s dir name namelen ino lc og).st.trace.drop
          s.trace.length) = true) := by
  have htr : (hk_append_dentry_innvm E x s dir name namelen ino lc og).st.trace =
      s.trace ++
        ((if x.prep = none then [hk_event.prepare_layouts, hk_event.prepare_gap]
          else [hk_event.prepare_layouts]) ++
        dentry_stores (hk_dentry_by_ix_from_blk E (ext_blk_addr x) 0) ++
        [hk_event.use_layout_for_addr (ext_blk_addr x),
          hk_event.sm_valid_data_sync (ext_blk_addr x)
            ((s.headers dir).i_num_dentrys / E.MAX_DENTRY_PER_BLK),
          hk_event.unuse_layout_for_addr (ext_blk_addr x),
          hk_event.linix_insert ((s.headers dir).i_num_dentrys / E.MAX_DENTRY_PER_BLK)
            (ext_blk_addr x),
          hk_event.flush_buffer (hk_dentry_by_ix_from_blk E (ext_blk_addr x) 0) false,
          hk_event.alloc_dentry_info x.di_alloc]) := by
    unfold hk_append_dentry_innvm at hret ⊢
    rw [if_neg hino] at hret ⊢
    simp only [] at hret ⊢
    rw [if_pos ⟨hslot, hix⟩] at hret ⊢
    cases hp : x.prep with
    | none =>
      rw [hp] at hret
      simp only [] at hret ⊢
      by_cases hg : x.gap = 0
      · rw [if_pos hg] at hret
        exact absurd rfl hret
      · rw [if_neg hg, hslot]
        simp [hk_append_dentry_write, dentry_stores, ext_blk_addr, hp, List.append_assoc]
    | some a =>
      simp only []
      rw [hslot]
      simp [hk_append_dentry_write, dentry_stores, ext_blk_addr, hp, List.append_assoc]
  refine ⟨by rw [htr]; simp only [List.append_assoc], ?_, ?_⟩
  · rw [htr, List.drop_left]
    cases hp : x.prep <;>
      simp [content_before_marked, occurs_before, dentry_stores, List.indexOf_cons, cond_eq_if, beq_iff_eq]
  · intro st hst
    rw [htr, List.drop_left]
    simp only [dentry_stores, List.mem_cons, List.mem_singleton, List.not_mem_nil,
      or_false] at hst
    cases hp : x.prep <;>
      rcases hst with h | h | h | h | h | h | h <;> subst h <;>
      simp [occurs_before, dentry_stores, List.indexOf_cons, cond_eq_if, beq_iff_eq]

/-- The amended C22 for the first append to the empty directory 2, which takes the block
at 8192: the stores into the record at 8192 come first, then `use_layout_for_addr`,
`sm_valid_data_sync`, `unuse_layout_for_addr`, `linix_insert` and the flush. -/
theorem new_block_effect_order_witness :
    content_before_marked 8192 0 8192
      (hk_append_dentry_innvm env0 (ext_ok 8192) state0 2 [97] 1 5 0 true).st.trace = true :=
  (new_block_effect_order env0 (ext_ok 8192) state0 2 [97] 1 5 0 true (by decide) (by decide)
    (by decide) (by decide)).2.1

/-! ## Links of a ring and frames of the other buckets -/

theorem chain_links (nx pv : Nat → Nat) (L : List Nat) (b : Nat) :
    ∀ a, chain nx pv a L b →
      (∀ x, x ∈ a :: L → pv (nx x) = x) ∧ (∀ x, x ∈ L ∨ x = b → nx (pv x) = x) := by
  induction L with
  | nil =>
    intro a h
    simp only [chain] at h
    refine ⟨?_, ?_⟩
    · intro x hx
      simp only [List.mem_singleton] at hx
      rw [hx, h.1, h.2]
    · intro x hx
      rcases hx with hx | hx
      · simp at hx
      · rw [hx, h.2, h.1]
  | cons y t ih =>
    intro a h
    simp only [chain] at h
    obtain ⟨i1, i2⟩ := ih y h.2.2
    refine ⟨?_, ?_⟩
    · intro x hx
      rcases List.mem_cons.1 hx with hx | hx
      · rw [hx, h.1, h.2.1]
      · exact i1 x hx
    · intro x hx
      rcases hx with hx | hx
      · rcases List.mem_cons.1 hx with hx | hx
        · rw [hx, h.2.1, h.1]
        · exact i2 x (Or.inl hx)
      · exact i2 x (Or.inr hx)

theorem ring_links (H : list_heap) (table k : Nat) (L : List Nat)
    (hr : chash_ring H table k L) (x : Nat) (hx : x ∈ chash_sentinal table k :: L) :
    H.prev (H.next x) = x ∧ H.next (H.prev x) = x := by
  obtain ⟨i1, i2⟩ := chain_links _ _ L _ _ hr.1
  refine ⟨i1 x hx, i2 x ?_⟩
  rcases List.mem_cons.1 hx with h | h
  · exact Or.inr h
  · exact Or.inl h

theorem chain_iterate (nx pv : Nat → Nat) (L : List Nat) (b : Nat) :
    ∀ a, chain nx pv a L b →
      nx^[L.length + 1] a = b ∧
      ∀ j (h : j < L.length), nx^[j + 1] a = L.get ⟨j, h⟩ := by
  induction L with
  | nil =>
    intro a h
    simp only [chain] at h
    exact ⟨by simp [h.1], fun j hj => absurd hj (by simp)⟩
  | cons y t ih =>
    intro a h
    simp only [chain] at h
    obtain ⟨i1, i2⟩ := ih y h.2.2
    refine ⟨?_, ?_⟩
    · rw [List.length_cons, Function.iterate_succ_apply, h.1]
      exact i1
    · intro j hj
      rw [Function.iterate_succ_apply, h.1]
      cases j with
      | zero => rfl
      | succ j =>
        exact i2 j (by simpa using hj)

theorem add_other_frame (H : list_heap) (table nb : Nat) (B : Nat → List Nat) (slot key : Nat)
    (hi : chash_inv H table nb B) (hok : chash_op_ok table nb B (chash_op.add_head slot key))
    (k : Nat) (hk : k < nb) (e : k ≠ key) (x : Nat) (hx : x ∈ chash_sentinal table k :: B k) :
    (chash_add_head H table slot key).next x = H.next x ∧
    (chash_add_head H table slot key).prev x = H.prev x := by
  obtain ⟨⟨_, _, hcross, hsent⟩, hring⟩ := hi
  obtain ⟨hkey, hfresh, hns⟩ := hok
  have hstart := chain_next_start _ _ _ _ _ (hring key hkey).1
  have hne : x ≠ slot ∧ x ≠ chash_sentinal table key ∧
      x ≠ H.next (chash_sentinal table key) := by
    rcases List.mem_cons.1 hx with hx | hx
    · subst hx
      refine ⟨(hns k hk).symm, fun h => e (sentinal_inj _ _ _ h), ?_⟩
      rcases hstart with h | h
      · exact fun h2 => hsent key k _ hkey hk h h2.symm
      · rw [h]; exact fun h => e (sentinal_inj _ _ _ h)
    · refine ⟨fun h => hfresh k hk (by rw [← h]; exact hx), hsent k key x hk hkey hx, ?_⟩
      rcases hstart with h | h
      · intro h2
        rw [← h2] at h
        exact e (hcross k key x hk hkey hx h)
      · rw [h]; exact hsent k key x hk hkey hx
  obtain ⟨h1, h2, h3⟩ := hne
  refine ⟨?_, ?_⟩
  · rw [add_head_next, Function.update_noteq h2, Function.update_noteq h1]
  · rw [add_head_prev, Function.update_noteq h3, Function.update_noteq h1]

theorem del_other_frame (H : list_heap) (table nb : Nat) (B : Nat → List Nat) (slot : Nat)
    (hi : chash_inv H table nb B) (k0 : Nat) (hk0 : k0 < nb) (hin : slot ∈ B k0)
    (k : Nat) (hk : k < nb) (e : k ≠ k0) (x : Nat) (hx : x ∈ chash_sentinal table k :: B k) :
    (chash_del H slot).next x = H.next x ∧ (chash_del H slot).prev x = H.prev x := by
  obtain ⟨⟨_, _, hcross, hsent⟩, hring⟩ := hi
  have hp := chain_mem_prev _ _ _ _ _ slot (hring k0 hk0).1 hin
  have hn := chain_mem_next _ _ _ _ _ slot (hring k0 hk0).1 hin
  have hx0 : x ∉ chash_sentinal table k0 :: B k0 := by
    intro h0
    rcases List.mem_cons.1 hx with hx | hx <;> rcases List.mem_cons.1 h0 with h0 | h0
    · rw [hx] at h0; exact e (sentinal_inj _ _ _ h0)
    · rw [hx] at h0; exact hsent k0 k _ hk0 hk h0 rfl
    · exact hsent k k0 x hk hk0 hx h0
    · exact e (hcross k k0 x hk hk0 hx h0)
  have h1 : x ≠ H.prev slot := fun h => hx0 (by rw [h]; exact hp)
  have h2 : x ≠ H.next slot := by
    intro h
    apply hx0
    rw [h]
    rcases hn with h1 | h1
    · exact List.mem_cons_of_mem _ h1
    · rw [h1]; simp
  exact ⟨by rw [del_next, Function.update_noteq h1], by rw [del_prev, Function.update_noteq h2]⟩

theorem ring_walk_exact (H : list_heap) (table k : Nat) (L : List Nat)
    (hr : chash_ring H table k L) (fuel : Nat) :
    chash_for_each_possible H table k fuel = if L.length ≤ fuel then some L else none := by
  unfold chash_for_each_possible
  exact chain_walk_exact H _ L _ fuel hr.1 (List.nodup_cons.1 hr.2).1

/-! ## C23 -/

/-- C23. Structural invariant and bucket confinement: on a table initialised by
`chash_init`, after every sequence of `chash_add_head` of nodes that are not inserted (and
are not sentinels of the table) and `chash_del` of inserted nodes, every bucket of the
table is a circular doubly-linked ring through its sentinel: for the sentinel and every
node `x` of the bucket `x.next.prev == x` and `x.prev.next == x`, and following `next`
from the sentinel passes through the nodes of the bucket, none of them the sentinel, and
is back at the sentinel after one more step.  A further `chash_add_head(table, slot, key)`
leaves the pointers and the members of every other bucket as they are and puts `slot` in
front of bucket `key`; a further `chash_del(slot)` leaves the pointers and the members of
every bucket that does not hold `slot` as they are and takes `slot` out of the bucket
that holds it. -/
theorem ring_invariant_and_confinement (H0 : list_heap) (table bits : Nat)
    (ops : List chash_op)
    (hok : chash_ops_ok table (shl_one bits).toNat (fun _ => []) ops) :
    (∀ k, k < (shl_one bits).toNat →
      ∀ x, x ∈ chash_sentinal table k :: spec_chash_run (fun _ => []) ops k →
        (chash_run table (chash_init H0 table bits) ops).prev
            ((chash_run table (chash_init H0 table bits) ops).next x) = x ∧
        (chash_run table (chash_init H0 table bits) ops).next
            ((chash_run table (chash_init H0 table bits) ops).prev x) = x) ∧
    (∀ k, k < (shl_one bits).toNat →
      (chash_run table (chash_init H0 table bits) ops).next^[
          (spec_chash_run (fun _ => []) ops k).length + 1] (chash_sentinal table k)
        = chash_sentinal table k ∧
      ∀ j (h : j < (spec_chash_run (fun _ => []) ops k).length),
        (chash_run table (chash_init H0 table bits) ops).next^[j + 1] (chash_sentinal table k)
          = (spec_chash_run (fun _ => []) ops k).get ⟨j, h⟩ ∧
        (spec_chash_run (fun _ => []) ops k).get ⟨j, h⟩ ≠ chash_sentinal table k) ∧
    (∀ slot key, chash_op_ok table (shl_one bits).toNat (spec_chash_run (fun _ => []) ops)
        (chash_op.add_head slot key) →
      (∀ k, k < (shl_one bits).toNat → k ≠ key →
        (∀ x, x ∈ chash_sentinal table k :: spec_chash_run (fun _ => []) ops k →
          (chash_add_head (chash_run table (chash_init H0 table bits) ops) table slot key).next
              x = (chash_run table (chash_init H0 table bits) ops).next x ∧
          (chash_add_head (chash_run table (chash_init H0 table bits) ops) table slot key).prev
              x = (chash_run table (chash_init H0 table bits) ops).prev x) ∧
        ∀ fuel,
          chash_for_each_possible
              (chash_add_head (chash_run table (chash_init H0 table bits) ops) table slot key)
              table k fuel
            = chash_for_each_possible (chash_run table (chash_init H0 table bits) ops)
              table k fuel) ∧
      chash_for_each_possible
          (chash_add_head (chash_run table (chash_init H0 table bits) ops) table slot key)
          table key ((spec_chash_run (fun _ => []) ops key).length + 1)
        = some (slot :: spec_chash_run (fun _ => []) ops key)) ∧
    (∀ slot, chash_op_ok table (shl_one bits).toNat (spec_chash_run (fun _ => []) ops)
        (chash_op.del slot) →
      ∀ k, k < (shl_one bits).toNat →
        (slot ∉ spec_chash_run (fun _ => []) ops k →
          (∀ x, x ∈ chash_sentinal table k :: spec_chash_run (fun _ => []) ops k →
            (chash_del (chash_run table (chash_init H0 table bits) ops) slot).next x
              = (chash_run table (chash_init H0 table bits) ops).next x ∧
            (chash_del (chash_run table (chash_init H0 table bits) ops) slot).prev x
              = (chash_run table (chash_init H0 table bits) ops).prev x) ∧
          ∀ fuel,
            chash_for_each_possible
                (chash_del (chash_run table (chash_init H0 table bits) ops) slot) table k fuel
              = chash_for_each_possible (chash_run table (chash_init H0 table bits) ops)
                table k fuel) ∧
        (slot ∈ spec_chash_run (fun _ => []) ops k →
          chash_for_each_possible
              (chash_del (chash_run table (chash_init H0 table bits) ops) slot) table k
              (spec_chash_run (fun _ => []) ops k).length
            = some ((spec_chash_run (fun _ => []) ops k).erase slot))) := by
  have hi := inv_run table _ ops _ _ (init_inv H0 table bits) hok
  generalize chash_run table (chash_init H0 table bits) ops = H at hi ⊢
  generalize spec_chash_run (fun _ => []) ops = B at hi ⊢
  refine ⟨?_, ?_, ?_, ?_⟩
  · intro k hk x hx
    exact ring_links H table k (B k) (hi.2 k hk) x hx
  · intro k hk
    obtain ⟨i1, i2⟩ := chain_iterate _ _ (B k) _ _ (hi.2 k hk).1
    refine ⟨i1, fun j h => ⟨i2 j h, ?_⟩⟩
    intro e
    exact (List.nodup_cons.1 (hi.2 k hk).2).1 (by rw [← e]; exact List.get_mem _ _ _)
  · intro slot key hop
    have hi2 := inv_add H table _ B slot key hi hop
    simp only [spec_chash_step] at hi2
    refine ⟨?_, ?_⟩
    · intro k hk hne
      refine ⟨fun x hx => add_other_frame H table _ B slot key hi hop k hk hne x hx, ?_⟩
      intro fuel
      have h2 := hi2.2 k hk
      rw [Function.update_noteq hne] at h2
      rw [ring_walk_exact _ table k (B k) h2, ring_walk_exact _ table k (B k) (hi.2 k hk)]
    · have h2 := hi2.2 key hop.1
      rw [Function.update_same] at h2
      rw [ring_walk_exact _ table key _ h2, if_pos (by simp)]
  · intro slot hop k hk
    have hi2 := inv_del H table _ B slot hi hop
    simp only [spec_chash_step] at hi2
    obtain ⟨k0, hk0, hin⟩ := hop
    refine ⟨?_, ?_⟩
    · intro hnot
      have hne : k ≠ k0 := fun e => hnot (by rw [e]; exact hin)
      refine ⟨fun x hx => del_other_frame H table _ B slot hi k0 hk0 hin k hk hne x hx, ?_⟩
      intro fuel
      have h2 : chash_ring (chash_del H slot) table k ((B k).erase slot) := hi2.2 k hk
      rw [List.erase_of_not_mem hnot] at h2
      rw [ring_walk_exact _ table k (B k) h2, ring_walk_exact _ table k (B k) (hi.2 k hk)]
    · intro _
      have h2 : chash_ring (chash_del H slot) table k ((B k).erase slot) := hi2.2 k hk
      rw [ring_walk_exact _ table k _ h2, if_pos]
      exact (List.erase_sublist _ _).length_le

/-- C23 on a table of 4 buckets at address 16 after inserting 100 and 200 into bucket 1
and 300 into bucket 2 and removing 100: the sentinel of bucket 1 and the node 200 are
linked both ways, inserting 400 into bucket 2 leaves bucket 1 as it is, and removing 300
leaves bucket 1 as it is. -/
theorem ring_invariant_and_confinement_witness :
    (chash_run 16 (chash_init heap0 16 2)
        [chash_op.add_head 100 1, chash_op.add_head 200 1, chash_op.add_head 300 2,
          chash_op.del 100]).prev
      ((chash_run 16 (chash_init heap0 16 2)
        [chash_op.add_head 100 1, chash_op.add_head 200 1, chash_op.add_head 300 2,
          chash_op.del 100]).next 200) = 200 ∧
    chash_for_each_possible
        (chash_add_head (chash_run 16 (chash_init heap0 16 2)
          [chash_op.add_head 100 1, chash_op.add_head 200 1, chash_op.add_head 300 2,
            chash_op.del 100]) 16 400 2) 16 1 5
      = chash_for_each_possible (chash_run 16 (chash_init heap0 16 2)
          [chash_op.add_head 100 1, chash_op.add_head 200 1, chash_op.add_head 300 2,
            chash_op.del 100]) 16 1 5 ∧
    chash_for_each_possible
        (chash_del (chash_run 16 (chash_init heap0 16 2)
          [chash_op.add_head 100 1, chash_op.add_head 200 1, chash_op.add_head 300 2,
            chash_op.del 100]) 300) 16 1 5
      = chash_for_each_possible (chash_run 16 (chash_init heap0 16 2)
          [chash_op.add_head 100 1, chash_op.add_head 200 1, chash_op.add_head 300 2,
            chash_op.del 100]) 16 1 5 :=
  ⟨((ring_invariant_and_confinement heap0 16 2
      [chash_op.add_head 100 1, chash_op.add_head 200 1, chash_op.add_head 300 2,
        chash_op.del 100]
      (by simp only [chash_ops_ok, chash_op_ok, spec_chash_step]; decide)).1 1 (by decide)
      200 (by decide)).1,
    (((ring_invariant_and_confinement heap0 16 2
      [chash_op.add_head 100 1, chash_op.add_head 200 1, chash_op.add_head 300 2,
        chash_op.del 100]
      (by simp only [chash_ops_ok, chash_op_ok, spec_chash_step]; decide)).2.2.1 400 2
      (by simp only [chash_op_ok]; decide)).1 1 (by decide) (by decide)).2 5,
    (((ring_invariant_and_confinement heap0 16 2
      [chash_op.add_head 100 1, chash_op.add_head 200 1, chash_op.add_head 300 2,
        chash_op.del 100]
      (by simp only [chash_ops_ok, chash_op_ok, spec_chash_step]; decide)).2.2.2 300
      (by simp only [chash_op_ok]; decide) 1 (by decide)).1 (by decide)).2 5⟩

/-! ## Counters of the dentry log along a run -/

theorem ceil_div_eq (n M : Nat) (hM : 0 < M) :
    (n + M - 1) / M = if n % M = 0 then n / M else n / M + 1 := by
  have hn := Nat.div_add_mod n M
  have hr := Nat.mod_lt n hM
  by_cases h0 : n % M = 0
  · rw [if_pos h0]
    have e : n + M - 1 = M * (n / M) + (M - 1) := by
      rw [h0] at hn
      omega
    have h1 : (M - 1) / M = 0 := Nat.div_eq_of_lt (by omega)
    rw [e, Nat.mul_add_div hM, h1]
    rfl
  · rw [if_neg h0]
    have e : n + M - 1 = M * (n / M) + (n % M + M - 1) := by omega
    rw [e, Nat.mul_add_div hM]
    congr 1
    apply Nat.div_eq_of_lt_le <;> omega

theorem ceil_div_succ (n M : Nat) (hM : 0 < M) :
    (n + 1 + M - 1) / M = n / M + 1 := by
  have e : n + 1 + M - 1 = n + M := by omega
  rw [e, Nat.add_div_right n hM]

theorem mul_lt_iff_lt_ceil (n M b : Nat) (hM : 0 < M) :
    b * M < n ↔ b < (n + M - 1) / M := by
  rw [Nat.lt_iff_add_one_le (m := b), Nat.le_div_iff_mul_le hM, Nat.add_mul]
  omega

theorem inserted_blocks_append (a b : List hk_event) :
    inserted_blocks (a ++ b) = inserted_blocks a ++ inserted_blocks b := by
  unfold inserted_blocks
  exact List.filterMap_append _ _ _

/-- Effect of an append on the counters of the directory: the record goes to slot
`i_num_dentrys % MAX_DENTRY_PER_BLK` of the block of logical index
`i_num_dentrys / MAX_DENTRY_PER_BLK`, which is taken from the allocator and put into
linix exactly when line 169 holds. -/
theorem append_effect (E : hk_env) (x : append_ext) (s : hk_state) (dir : Nat)
    (name : List Nat) (namelen ino lc : Nat) (hino : ino ≠ 0)
    (halloc : needs_block E s dir → x.prep ≠ none ∨ x.gap ≠ 0) :
    (hk_append_dentry_innvm E x s dir name namelen ino lc true).ret = some 0 ∧
    (hk_append_dentry_innvm E x s dir name namelen ino lc true).out_direntry =
      some (hk_dentry_by_ix_from_blk E
        (if needs_block E s dir then ext_blk_addr x
          else E.TRANS_OFS_TO_ADDR (linix_get (s.headers dir).ix
            ((s.headers dir).i_num_dentrys / E.MAX_DENTRY_PER_BLK)))
        ((s.headers dir).i_num_dentrys % E.MAX_DENTRY_PER_BLK)) ∧
    ((hk_append_dentry_innvm E x s dir name namelen ino lc true).st.headers dir).i_num_dentrys
      = (s.headers dir).i_num_dentrys + 1 ∧
    ((hk_append_dentry_innvm E x s dir name namelen ino lc true).st.headers dir).ix =
      (if needs_block E s dir then
        linix_insert E (s.headers dir).ix
          ((s.headers dir).i_num_dentrys / E.MAX_DENTRY_PER_BLK) (ext_blk_addr x)
        else (s.headers dir).ix) ∧
    inserted_blocks (hk_append_dentry_innvm E x s dir name namelen ino lc true).st.trace =
      inserted_blocks s.trace ++
        (if needs_block E s dir then [(s.headers dir).i_num_dentrys / E.MAX_DENTRY_PER_BLK]
          else []) := by
  unfold needs_block at halloc ⊢
  unfold hk_append_dentry_innvm
  rw [if_neg hino]
  simp only []
  by_cases hc : (s.headers dir).i_num_dentrys % E.MAX_DENTRY_PER_BLK = 0 ∧
      linix_get (s.headers dir).ix ((s.headers dir).i_num_dentrys / E.MAX_DENTRY_PER_BLK) = 0
  · rw [if_pos hc, if_pos hc, if_pos hc, if_pos hc]
    cases hp : x.prep with
    | none =>
      simp only []
      have hg : x.gap ≠ 0 := by
        rcases halloc hc with h | h
        · exact absurd hp h
        · exact h
      rw [if_neg hg]
      refine ⟨rfl, ?_, ?_, ?_, ?_⟩
      · simp [hk_append_dentry_write, ext_blk_addr, hp]
      · simp [hk_append_dentry_write, hk_insert_dir_table]
        split_ifs <;> rfl
      · simp [hk_append_dentry_write, hk_insert_dir_table, ext_blk_addr, hp]
        split_ifs <;> rfl
      · simp [hk_append_dentry_write, inserted_blocks, List.filterMap_append]
    | some a =>
      simp only []
      refine ⟨rfl, ?_, ?_, ?_, ?_⟩
      · simp [hk_append_dentry_write, ext_blk_addr, hp]
      · simp [hk_append_dentry_write, hk_insert_dir_table]
        split_ifs <;> rfl
      · simp [hk_append_dentry_write, hk_insert_dir_table, ext_blk_addr, hp]
        split_ifs <;> rfl
      · simp [hk_append_dentry_write, inserted_blocks, List.filterMap_append]
  · rw [if_neg hc, if_neg hc, if_neg hc, if_neg hc]
    refine ⟨rfl, ?_, ?_, ?_, ?_⟩
    · simp [hk_append_dentry_write]
    · simp [hk_append_dentry_write, hk_insert_dir_table]
      split_ifs <;> rfl
    · simp [hk_append_dentry_write, hk_insert_dir_table]
      split_ifs <;> rfl
    · simp [hk_append_dentry_write, inserted_blocks, List.filterMap_append]

/-- Effect of a removal on the counters of the directory: none. -/
theorem remove_effect (E : hk_env) (x : append_ext) (s : hk_state) (dir : Nat)
    (name : List Nat) (namelen lc : Nat) :
    ((hk_append_dentry_innvm E x s dir name namelen 0 lc true).st.headers dir).i_num_dentrys
      = (s.headers dir).i_num_dentrys ∧
    ((hk_append_dentry_innvm E x s dir name namelen 0 lc true).st.headers dir).ix
      = (s.headers dir).ix ∧
    inserted_blocks (hk_append_dentry_innvm E x s dir name namelen 0 lc true).st.trace
      = inserted_blocks s.trace := by
  unfold hk_append_dentry_innvm
  rw [if_pos rfl]
  unfold hk_append_dentry_remove
  cases hk_search_dir_table E s.pm (s.headers dir) name namelen with
  | none => exact ⟨rfl, rfl, rfl⟩
  | some di =>
    refine ⟨?_, ?_, ?_⟩
    · simp [hk_remove_dir_table]
    · simp [hk_remove_dir_table]
    · simp [inserted_blocks, List.filterMap_append]

theorem dense_needs_block (E : hk_env) (base : List Nat) (s : hk_state) (dir n : Nat)
    (hM : 0 < E.MAX_DENTRY_PER_BLK) (hd : log_dense E base s dir n) :
    needs_block E s dir ↔ n % E.MAX_DENTRY_PER_BLK = 0 := by
  obtain ⟨h1, h2, _⟩ := hd
  unfold needs_block
  rw [h1]
  refine ⟨fun h => h.1, fun h => ⟨h, ?_⟩⟩
  by_contra hne
  have := (h2 (n / E.MAX_DENTRY_PER_BLK)).1 hne
  rw [ceil_div_eq n _ hM, if_pos h] at this
  omega

theorem dense_step (E : hk_env) (base : List Nat) (s : hk_state) (dir n : Nat) (c : dir_call)
    (hM : 0 < E.MAX_DENTRY_PER_BLK) (hd : log_dense E base s dir n)
    (hal : c.ino ≠ 0 → needs_block E s dir →
      (c.x.prep ≠ none ∨ c.x.gap ≠ 0) ∧ E.TRANS_ADDR_TO_OFS (ext_blk_addr c.x) ≠ 0) :
    log_dense E base (dir_apply E dir s c).st dir (n + if (c.ino != 0) = true then 1 else 0) := by
  have hnb := dense_needs_block E base s dir n hM hd
  obtain ⟨h1, h2, h3⟩ := hd
  unfold dir_apply
  by_cases hino : c.ino = 0
  · rw [hino]
    obtain ⟨r1, r2, r3⟩ := remove_effect E c.x s dir c.name c.namelen c.link_change
    simp only [bne_self_eq_false, Bool.false_eq_true, if_false, add_zero]
    exact ⟨r1.trans h1, by rw [r2]; exact h2, by rw [r3]; exact h3⟩
  · have hb : (c.ino != 0) = true := by simpa using hino
    rw [if_pos hb]
    obtain ⟨_, _, a3, a4, a5⟩ := append_effect E c.x s dir c.name c.namelen c.ino c.link_change
      hino (fun h => (hal hino h).1)
    have hc1 := ceil_div_succ n _ hM
    have hc0 := ceil_div_eq n _ hM
    refine ⟨by rw [a3, h1], ?_, ?_⟩
    · intro b
      rw [a4, hc1]
      by_cases hz : n % E.MAX_DENTRY_PER_BLK = 0
      · have hneed := hnb.2 hz
        rw [if_pos hneed, h1]
        rw [if_pos hz] at hc0
        unfold linix_insert linix_get
        by_cases hbq : b = n / E.MAX_DENTRY_PER_BLK
        · rw [hbq, Function.update_same]
          exact ⟨fun _ => by omega, fun _ => (hal hino hneed).2⟩
        · rw [Function.update_noteq hbq]
          have := h2 b
          unfold linix_get at this
          rw [this, hc0]
          omega
      · have hneed : ¬ needs_block E s dir := fun h => hz (hnb.1 h)
        rw [if_neg hneed, h2 b, hc0, if_neg hz]
    · rw [a5, h3, hc1]
      by_cases hz : n % E.MAX_DENTRY_PER_BLK = 0
      · rw [if_pos (hnb.2 hz), h1, hc0, if_pos hz, List.range_succ, List.append_assoc]
      · have hneed : ¬ needs_block E s dir := fun h => hz (hnb.1 h)
        rw [if_neg hneed, hc0, if_neg hz, List.append_nil]

theorem dense_exec (E : hk_env) (base : List Nat) (dir : Nat) (hM : 0 < E.MAX_DENTRY_PER_BLK)
    (cs : List dir_call) :
    ∀ (s : hk_state) (n : Nat), log_dense E base s dir n → dir_alloc_ok E dir s cs →
      log_dense E base (dir_exec E dir s cs) dir (n + appends cs) := by
  induction cs with
  | nil => intro s n hd _; exact hd
  | cons c cs ih =>
    intro s n hd hal
    simp only [dir_alloc_ok] at hal
    have h1 := dense_step E base s dir n c hM hd hal.1
    have h2 := ih _ _ h1 hal.2
    have e : n + appends (c :: cs) = n + (if (c.ino != 0) = true then 1 else 0) + appends cs := by
      unfold appends
      rw [List.countP_cons]
      omega
    rw [e]
    exact h2

theorem dense_init (E : hk_env) (s : hk_state) (dir : Nat) (hM : 0 < E.MAX_DENTRY_PER_BLK)
    (h0 : (s.headers dir).i_num_dentrys = 0) (hix : ∀ b, linix_get (s.headers dir).ix b = 0) :
    log_dense E (inserted_blocks s.trace) s dir 0 := by
  have hc : (0 + E.MAX_DENTRY_PER_BLK - 1) / E.MAX_DENTRY_PER_BLK = 0 := by
    rw [ceil_div_eq 0 _ hM]
    simp
  refine ⟨h0, ?_, ?_⟩
  · intro b
    rw [hc, hix b]
    simp
  · rw [hc]
    simp

theorem calls0_alloc_ok : dir_alloc_ok env0 2 state0 calls0 := by
  simp only [dir_alloc_ok, calls0]
  exact ⟨fun _ _ => by decide, fun _ h => absurd h (by decide),
    fun _ h => absurd h (by decide), fun _ h => absurd h (by decide),
    fun _ _ => by decide, fun h _ => absurd rfl h, trivial⟩

/-! ## C21 -/

/-- C21. Dense, never-reused log slots: on a directory that starts with no record and
nothing in linix, after every sequence `cs` of entry appends and removals along which
allocation succeeds, with `k` the number of appends made (removals do not count):
`i_num_dentrys` is `k`; linix is set exactly for the logical blocks
`0 .. ceil(k / MAX_DENTRY_PER_BLK) - 1`; the logical blocks handed to `linix_insert`
during the run are exactly these, each once, in increasing order.  The next append (the
`k`-th, counted from 0) returns 0 and writes the record at slot `k mod MAX_DENTRY_PER_BLK`
of the block of logical index `k div MAX_DENTRY_PER_BLK`; it takes a block from the
allocator and inserts it into linix exactly when line 169 holds (slot 0 and linix unset),
which at this point is exactly when the slot is 0.  Different `k` give different pairs
(block, slot). -/
theorem dense_log_slots (E : hk_env) (s0 : hk_state) (dir : Nat) (cs : List dir_call)
    (hM : 0 < E.MAX_DENTRY_PER_BLK)
    (h0 : (s0.headers dir).i_num_dentrys = 0)
    (hix : ∀ b, linix_get (s0.headers dir).ix b = 0)
    (hal : dir_alloc_ok E dir s0 cs) :
    ((dir_exec E dir s0 cs).headers dir).i_num_dentrys = appends cs ∧
    (∀ b, linix_get ((dir_exec E dir s0 cs).headers dir).ix b ≠ 0 ↔
      b < (appends cs + E.MAX_DENTRY_PER_BLK - 1) / E.MAX_DENTRY_PER_BLK) ∧
    inserted_blocks (dir_exec E dir s0 cs).trace =
      inserted_blocks s0.trace ++
        List.range ((appends cs + E.MAX_DENTRY_PER_BLK - 1) / E.MAX_DENTRY_PER_BLK) ∧
    (∀ c : dir_call, c.ino ≠ 0 → dir_alloc_ok E dir (dir_exec E dir s0 cs) [c] →
      (dir_apply E dir (dir_exec E dir s0 cs) c).ret = some 0 ∧
      (dir_apply E dir (dir_exec E dir s0 cs) c).out_direntry =
        some (hk_dentry_by_ix_from_blk E
          (if appends cs % E.MAX_DENTRY_PER_BLK = 0 then ext_blk_addr c.x
            else E.TRANS_OFS_TO_ADDR (linix_get ((dir_exec E dir s0 cs).headers dir).ix
              (appends cs / E.MAX_DENTRY_PER_BLK)))
          (appends cs % E.MAX_DENTRY_PER_BLK)) ∧
      (needs_block E (dir_exec E dir s0 cs) dir ↔ appends cs % E.MAX_DENTRY_PER_BLK = 0) ∧
      inserted_blocks (dir_apply E dir (dir_exec E dir s0 cs) c).st.trace =
        inserted_blocks (dir_exec E dir s0 cs).trace ++
          (if appends cs % E.MAX_DENTRY_PER_BLK = 0 then [appends cs / E.MAX_DENTRY_PER_BLK]
            else []) ∧
      ((dir_apply E dir (dir_exec E dir s0 cs) c).st.headers dir).i_num_dentrys
        = appends cs + 1) ∧
    (∀ c : dir_call, c.ino = 0 →
      ((dir_apply E dir (dir_exec E dir s0 cs) c).st.headers dir).i_num_dentrys = appends cs ∧
      ((dir_apply E dir (dir_exec E dir s0 cs) c).st.headers dir).ix
        = ((dir_exec E dir s0 cs).headers dir).ix) ∧
    (∀ k1 k2 : Nat,
      (k1 / E.MAX_DENTRY_PER_BLK, k1 % E.MAX_DENTRY_PER_BLK)
        = (k2 / E.MAX_DENTRY_PER_BLK, k2 % E.MAX_DENTRY_PER_BLK) → k1 = k2) := by
  have hd := dense_exec E _ dir hM cs s0 0 (dense_init E s0 dir hM h0 hix) hal
  rw [Nat.zero_add] at hd
  have hnb := dense_needs_block E _ _ dir _ hM hd
  obtain ⟨d1, d2, d3⟩ := hd
  refine ⟨d1, d2, d3, ?_, ?_, ?_⟩
  · intro c hino hc
    simp only [dir_alloc_ok, and_true] at hc
    obtain ⟨a1, a2, a3, _, a5⟩ := append_effect E c.x (dir_exec E dir s0 cs) dir c.name
      c.namelen c.ino c.link_change hino (fun h => (hc hino h).1)
    unfold dir_apply
    refine ⟨a1, ?_, hnb, ?_, by rw [a3, d1]⟩
    · rw [a2]
      by_cases hz : appends cs % E.MAX_DENTRY_PER_BLK = 0
      · rw [if_pos (hnb.2 hz), if_pos hz, d1]
      · rw [if_neg (fun h => hz (hnb.1 h)), if_neg hz, d1]
    · rw [a5]
      by_cases hz : appends cs % E.MAX_DENTRY_PER_BLK = 0
      · rw [if_pos (hnb.2 hz), if_pos hz, d1]
      · rw [if_neg (fun h => hz (hnb.1 h)), if_neg hz]
  · intro c hino
    unfold dir_apply
    rw [hino]
    obtain ⟨r1, r2, _⟩ := remove_effect E c.x (dir_exec E dir s0 cs) dir c.name c.namelen
      c.link_change
    exact ⟨r1.trans d1, r2⟩
  · intro k1 k2 h
    have h1 := Nat.div_add_mod k1 E.MAX_DENTRY_PER_BLK
    have h2 := Nat.div_add_mod k2 E.MAX_DENTRY_PER_BLK
    rw [Prod.mk.injEq] at h
    rw [← h1, ← h2, h.1, h.2]

/-- C21 for the six calls of `calls0` on directory 2 (five appends, with 4 records per
block, and one removal): 5 records are counted, the logical blocks 0 and 1 were inserted
into linix, and the next append writes slot 1 of the block at 16384. -/
theorem dense_log_slots_witness :
    ((dir_exec env0 2 state0 calls0).headers 2).i_num_dentrys = 5 ∧
    inserted_blocks (dir_exec env0 2 state0 calls0).trace = [0, 1] ∧
    (dir_apply env0 2 (dir_exec env0 2 state0 calls0) ⟨ext_ok 0, [102], 1, 10, 0⟩).out_direntry
      = some (16384 + 1 * 512) :=
  ⟨(dense_log_slots env0 state0 2 calls0 (by decide) rfl (fun _ => rfl) calls0_alloc_ok).1,
    (dense_log_slots env0 state0 2 calls0 (by decide) rfl (fun _ => rfl)
      calls0_alloc_ok).2.2.1,
    ((dense_log_slots env0 state0 2 calls0 (by decide) rfl (fun _ => rfl)
      calls0_alloc_ok).2.2.2.1 ⟨ext_ok 0, [102], 1, 10, 0⟩ (by decide)
      ⟨fun _ h => absurd h (by decide), trivial⟩).2.1⟩

end Hunter
